import Mathlib

/-!
# Sparta `aws/step`: state machine builder and serializer

A shallow embedding of `aws/step/step.go`.

* The Go heap of state objects is a function `Fin n → State n`: there are `n`
  state objects, and a `MachineState` / `TransitionState` interface value is
  `none` (the nil interface) or `some a`, a pointer to object `a`.
* `map[string]T` is an association list with unique keys (`GoMap`); writing a
  key that is present replaces its value in place.
* `json.Marshal` produces a `Json` tree instead of bytes.  JSON objects are
  association lists; the order of their members is immaterial.
* A function that returns `([]byte, error)` returns `Except Err Json`; a Go
  panic is the error `Err.panic`.
* The helpers of the description graph in `describe.go` (`cytoscapeNodeID`,
  `writeNode`, `writeLink`) take the SHA-1 digest, the base64 encoder and the
  embedded files as a parameter (`Outside`).
-/

namespace Step

/-! ## JSON values -/

/-- A JSON number, kept as the decimal `mantissa * 10 ^ (-scale)`. -/
structure Number where
  mantissa : Int
  scale : Nat
  deriving DecidableEq, Repr

/-- An integer as a JSON number (`int`, `int64`, `time.Duration`). -/
def Number.ofInt (i : Int) : Number := ⟨i, 0⟩

/-- The tree of a JSON document. -/
inductive Json where
  | null
  | bool (b : Bool)
  | num (x : Number)
  | str (s : String)
  | arr (xs : List Json)
  | obj (kvs : List (String × Json))
  deriving Repr

/-- A Go `map[string]α`. -/
abbrev GoMap (α : Type) := List (String × α)

/-- The Go statement `m[k] = v`. -/
def GoMap.set {α : Type} : GoMap α → String → α → GoMap α
  | [], k, v => [(k, v)]
  | (k0, v0) :: rest, k, v =>
    if k0 = k then (k, v) :: rest else (k0, v0) :: GoMap.set rest k v

/-- The Go expression `m[k]` in its two-valued form `v, ok := m[k]`. -/
def GoMap.get? {α : Type} : GoMap α → String → Option α
  | [], _ => none
  | (k0, v0) :: rest, k => if k0 = k then some v0 else GoMap.get? rest k

/-- The keys of a map. -/
def GoMap.keys {α : Type} (m : GoMap α) : List String := m.map Prod.fst

/-- A member of a JSON object; `none` when the value is not an object or has no such member. -/
def Json.field? : Json → String → Option Json
  | .obj kvs, k => GoMap.get? kvs k
  | _, _ => none

/-- How a marshalling call ends when it does not produce a document. -/
inductive Err where
  | error (msg : String)
  | panic (msg : String)
  | depth
  deriving DecidableEq, Repr

/-! ## Library values: `time.Duration`, `time.Time`, `interface{}` -/

/-- A `time.Duration`: a count of nanoseconds. -/
abbrev Duration := Int

/-- The method `Duration.Seconds()`: the duration in seconds, `d * 10^-9`
(the rounding of the float64 result is not modelled). -/
def Duration.Seconds (d : Duration) : Number := ⟨d, 9⟩

/-- The Go test `x != 0` on a number. -/
def Number.isZero (x : Number) : Bool := x.mantissa == 0

/-- A `time.Time`: an instant and the zone offset it is displayed in. -/
structure Time where
  /-- seconds since 1970-01-01T00:00:00Z -/
  unix : Int
  /-- nanoseconds within the second, below 10^9 -/
  nsec : Nat
  /-- zone offset in seconds east of UTC -/
  offset : Int
  deriving DecidableEq, Repr

/-- A decimal numeral, zero padded on the left to `width` digits. -/
def pad (width : Nat) (v : Nat) : String :=
  let s := toString v
  String.mk (List.replicate (width - s.length) '0') ++ s

/-- The civil date (year, month, day) of a day count since 1970-01-01. -/
def civilFromDays (days : Int) : Int × Nat × Nat :=
  let z := days + 719468
  let era := z / 146097
  let doe := (z - era * 146097).toNat
  let yoe := (doe - doe / 1460 + doe / 36524 - doe / 146096) / 365
  let doy := doe - (365 * yoe + yoe / 4 - yoe / 100)
  let mp := (5 * doy + 2) / 153
  let d := doy - (153 * mp + 2) / 5 + 1
  let m := if mp < 10 then mp + 3 else mp - 9
  let y := (yoe : Int) + era * 400
  (if m ≤ 2 then y + 1 else y, m, d)

/-- The call `t.Format(time.RFC3339)`, layout `2006-01-02T15:04:05Z07:00`:
the nanoseconds and the seconds of the zone offset are not printed. -/
def Time.FormatRFC3339 (t : Time) : String :=
  let loc := t.unix + t.offset
  let days := loc / 86400
  let secs := (loc % 86400).toNat
  let (y, m, d) := civilFromDays days
  let year := if y < 0 then "-" ++ pad 4 y.natAbs else pad 4 y.natAbs
  let zone := t.offset.natAbs / 60
  let z :=
    if t.offset = 0 then "Z"
    else (if t.offset < 0 ∧ zone ≠ 0 then "-" else "+") ++ pad 2 (zone / 60) ++ ":" ++ pad 2 (zone % 60)
  year ++ "-" ++ pad 2 m ++ "-" ++ pad 2 d ++ "T" ++ pad 2 (secs / 3600) ++ ":" ++
    pad 2 (secs % 3600 / 60) ++ ":" ++ pad 2 (secs % 60) ++ z

/-- A non-nil `interface{}` value handed to `json.Marshal`: either it has a
JSON encoding, or its type is one the encoder rejects (a channel, a function). -/
inductive Value where
  | json (j : Json)
  | unsupported

/-- The call `json.Marshal(v)` on an `interface{}`; the nil interface encodes as `null`. -/
def Value.Marshal : Option Value → Except Err Json
  | none => .ok .null
  | some (.json j) => .ok j
  | some .unsupported => .error (.error "json: unsupported type")

/-! ## Comparisons and choice branches -/

/-- A reserved or user error name (`StateError`). -/
abbrev StateError := String

/-- The sixteen comparison types; each carries its `Variable` and its `Value`. -/
inductive Comparison where
  | StringEquals (Variable : String) (Value : String)
  | StringLessThan (Variable : String) (Value : String)
  | StringGreaterThan (Variable : String) (Value : String)
  | StringLessThanEquals (Variable : String) (Value : String)
  | StringGreaterThanEquals (Variable : String) (Value : String)
  | NumericEquals (Variable : String) (Value : Int)
  | NumericLessThan (Variable : String) (Value : Int)
  | NumericGreaterThan (Variable : String) (Value : Int)
  | NumericLessThanEquals (Variable : String) (Value : Int)
  | NumericGreaterThanEquals (Variable : String) (Value : Int)
  | BooleanEquals (Variable : String) (Value : Option Value)
  | TimestampEquals (Variable : String) (Value : Time)
  | TimestampLessThan (Variable : String) (Value : Time)
  | TimestampGreaterThan (Variable : String) (Value : Time)
  | TimestampLessThanEquals (Variable : String) (Value : Time)
  | TimestampGreaterThanEquals (Variable : String) (Value : Time)

/-- The encoding of the two-field anonymous struct every comparison marshals. -/
def cmpStruct (path : String) (key : String) (value : Json) : Json :=
  .obj [("Variable", .str path), (key, value)]

/-- The `MarshalJSON` methods of the comparison types. -/
def Comparison.MarshalJSON : Comparison → Except Err Json
  | .StringEquals v x => .ok (cmpStruct v "StringEquals" (.str x))
  | .StringLessThan v x => .ok (cmpStruct v "StringLessThan" (.str x))
  | .StringGreaterThan v x => .ok (cmpStruct v "StringGreaterThan" (.str x))
  | .StringLessThanEquals v x => .ok (cmpStruct v "StringLessThanEquals" (.str x))
  | .StringGreaterThanEquals v x => .ok (cmpStruct v "StringGreaterThanEquals" (.str x))
  | .NumericEquals v x => .ok (cmpStruct v "NumericEquals" (.num (Number.ofInt x)))
  | .NumericLessThan v x => .ok (cmpStruct v "NumericLessThan" (.num (Number.ofInt x)))
  | .NumericGreaterThan v x => .ok (cmpStruct v "NumericGreaterThan" (.num (Number.ofInt x)))
  | .NumericLessThanEquals v x => .ok (cmpStruct v "NumericLessThanEquals" (.num (Number.ofInt x)))
  | .NumericGreaterThanEquals v x =>
    .ok (cmpStruct v "NumericGreaterThanEquals" (.num (Number.ofInt x)))
  | .BooleanEquals v x => do
    let j ← Value.Marshal x
    pure (cmpStruct v "BooleanEquals" j)
  | .TimestampEquals v x => .ok (cmpStruct v "TimestampEquals" (.str x.FormatRFC3339))
  | .TimestampLessThan v x => .ok (cmpStruct v "TimestampLessThan" (.str x.FormatRFC3339))
  | .TimestampGreaterThan v x => .ok (cmpStruct v "TimestampGreaterThan" (.str x.FormatRFC3339))
  | .TimestampLessThanEquals v x =>
    .ok (cmpStruct v "TimestampLessThanEquals" (.str x.FormatRFC3339))
  | .TimestampGreaterThanEquals v x =>
    .ok (cmpStruct v "TimestampGreaterThanEquals" (.str x.FormatRFC3339))

/-- A `MachineState` (or `TransitionState`) interface value in a heap of `n`
state objects: the nil interface or a pointer to one of the objects. -/
abbrev Ref (n : Nat) := Option (Fin n)

/-- The three `ChoiceBranch` operators. -/
inductive ChoiceBranch (n : Nat) where
  | And (Comparison : List Comparison) (Next : Ref n)
  | Or (Comparison : List Comparison) (Next : Ref n)
  | Not (Comparison : Comparison) (Next : Ref n)

/-- The methods `nextState` of `And`, `Or` and `Not`. -/
def ChoiceBranch.nextState {n : Nat} : ChoiceBranch n → Ref n
  | .And _ next => next
  | .Or _ next => next
  | .Not _ next => next

/-! ## States -/

/-- The embedded struct of the common properties of a state. -/
structure baseInnerState (n : Nat) where
  name : String
  id : Int
  next : Ref n
  comment : String
  inputPath : String
  outputPath : String
  isEndStateInvalid : Bool

/-- A retrier, `TaskRetry`. -/
structure TaskRetry where
  ErrorEquals : List StateError
  IntervalSeconds : Duration
  MaxAttempts : Int
  BackoffRate : Number

/-- A catcher, `TaskCatch`; `errorEquals` is `none` for the nil slice. -/
structure TaskCatch (n : Nat) where
  errorEquals : Option (List StateError)
  next : Ref n

/-- The top level item, `StateMachine`. -/
structure StateMachine (n : Nat) where
  name : String
  comment : String
  stateDefinitionError : Option String
  startAt : Ref n
  uniqueStates : GoMap (Fin n)
  roleArn : Option String

/-- The fields of `BaseTask`; `Catchers` is `none` for the nil slice. -/
structure BaseTask (n : Nat) where
  base : baseInnerState n
  ResultPath : String
  TimeoutSeconds : Duration
  HeartbeatSeconds : Duration
  Retriers : List TaskRetry
  Catchers : Option (List (TaskCatch n))

/-- A state object: one constructor per concrete Go type that implements `MachineState`. -/
inductive State (n : Nat) where
  | PassState (base : baseInnerState n) (ResultPath : String) (Result : Option Value)
  | ChoiceState (base : baseInnerState n) (Choices : List (ChoiceBranch n)) (Default : Ref n)
  | BaseTask (task : BaseTask n)
  | LambdaTaskState (task : BaseTask n) (lambdaLogicalResourceName : String)
  | WaitDelay (base : baseInnerState n) (delay : Duration)
  | WaitUntil (base : baseInnerState n) (Timestamp : Time)
  | WaitDynamicUntil (base : baseInnerState n) (TimestampPath : String)
  | SuccessState (base : baseInnerState n)
  | FailState (base : baseInnerState n) (ErrorName : String) (Cause : Option String)
  | ParallelState (base : baseInnerState n) (States : StateMachine n) (ResultPath : String)
      (Retriers : List TaskRetry) (Catchers : Option (List (TaskCatch n)))

/-- The embedded `baseInnerState` of a state object. -/
def State.base {n : Nat} : State n → baseInnerState n
  | .PassState b _ _ => b
  | .ChoiceState b _ _ => b
  | .BaseTask t => t.base
  | .LambdaTaskState t _ => t.base
  | .WaitDelay b _ => b
  | .WaitUntil b _ => b
  | .WaitDynamicUntil b _ => b
  | .SuccessState b => b
  | .FailState b _ _ => b
  | .ParallelState b _ _ _ _ => b

/-- The methods `Name()`: every kind returns the name of its embedded base. -/
def State.Name {n : Nat} (s : State n) : String := s.base.name

/-- The heap: the `n` state objects. -/
abbrev Heap (n : Nat) := Fin n → State n

/-- The call `node.Name()` through a non-nil interface value. -/
def Heap.Name {n : Nat} (h : Heap n) (a : Fin n) : String := (h a).Name

/-! ## Serialization -/

/-- A list encoded element by element; the first failure aborts the whole encoding. -/
def mapE {α β : Type} (f : α → Except Err β) : List α → Except Err (List β)
  | [] => .ok []
  | x :: xs =>
    match f x with
    | .error e => .error e
    | .ok y =>
      match mapE f xs with
      | .error e => .error e
      | .ok ys => .ok (y :: ys)

/-- The method `marshalStateJSON` of `baseInnerState`; `additionalData` is `none` for a nil map. -/
def baseInnerState.marshalStateJSON {n : Nat} (h : Heap n) (bis : baseInnerState n)
    (stateType : String) (additionalData : Option (GoMap Json)) : Except Err Json :=
  let d : GoMap Json := match additionalData with
    | none => []
    | some m => m
  let d : GoMap Json := d.set "Type" (.str stateType)
  let d : GoMap Json := match bis.next with
    | some a => d.set "Next" (.str (h.Name a))
    | none => d
  let d : GoMap Json := if bis.comment ≠ "" then d.set "Comment" (.str bis.comment) else d
  let d : GoMap Json := if bis.inputPath ≠ "" then d.set "InputPath" (.str bis.inputPath) else d
  let d : GoMap Json := if bis.outputPath ≠ "" then d.set "OutputPath" (.str bis.outputPath) else d
  let d : GoMap Json := if !bis.isEndStateInvalid && bis.next.isNone then d.set "End" (.bool true) else d
  .ok (.obj d)

/-- The call `x.Name()` on an interface value that may be nil. -/
def refName {n : Nat} (h : Heap n) : Ref n → Except Err String
  | none => .error (.panic "invalid memory address or nil pointer dereference")
  | some a => .ok (h.Name a)

/-- The encoding of a field tagged `omitempty` that holds a string. -/
def omitEmptyStr (key : String) (v : String) : GoMap Json :=
  if v = "" then [] else [(key, .str v)]

/-- The methods `MarshalJSON` of `And`, `Or` and `Not`. -/
def ChoiceBranch.MarshalJSON {n : Nat} (h : Heap n) : ChoiceBranch n → Except Err Json
  | .And cmps next => do
    let name ← refName h next
    let cs ← mapE Comparison.MarshalJSON cmps
    pure (.obj ((if cs.isEmpty then [] else [("And", .arr cs)]) ++ omitEmptyStr "Next" name))
  | .Or cmps next => do
    let name ← refName h next
    let cs ← mapE Comparison.MarshalJSON cmps
    pure (.obj ((if cs.isEmpty then [] else [("Or", .arr cs)]) ++ omitEmptyStr "Next" name))
  | .Not cmp next => do
    let name ← refName h next
    let c ← cmp.MarshalJSON
    pure (.obj [("Not", c), ("Next", .str name)])

/-- The encoding of a `[]StateError`; the nil slice encodes as `null`. -/
def marshalErrors : Option (List StateError) → Json
  | none => .null
  | some es => .arr (es.map Json.str)

/-- The struct encoding of a `TaskRetry`; every field is tagged `omitempty`, and
`IntervalSeconds` is a `time.Duration`, an integer count of nanoseconds. -/
def TaskRetry.Marshal (r : TaskRetry) : Json :=
  .obj ((if r.ErrorEquals.isEmpty then [] else [("ErrorEquals", .arr (r.ErrorEquals.map Json.str))]) ++
    (if r.IntervalSeconds = 0 then [] else [("IntervalSeconds", .num (Number.ofInt r.IntervalSeconds))]) ++
    (if r.MaxAttempts = 0 then [] else [("MaxAttempts", .num (Number.ofInt r.MaxAttempts))]) ++
    (if r.BackoffRate.isZero then [] else [("BackoffRate", .num r.BackoffRate)]))

/-- The method `TaskCatch.MarshalJSON`: the map with the members `ErrorEquals` and
`Next`, where `Next` is the interface value `tc.next` itself, encoded by the
`MarshalJSON` of the state it points to (`marshalState`). -/
def TaskCatch.MarshalJSON {n : Nat} (marshalState : Fin n → Except Err Json)
    (tc : TaskCatch n) : Except Err Json := do
  let next ← match tc.next with
    | none => pure Json.null
    | some a => marshalState a
  pure (.obj [("ErrorEquals", marshalErrors tc.errorEquals), ("Next", next)])

/-- The method `BaseTask.additionalParams`. -/
def BaseTask.additionalParams {n : Nat} (h : Heap n) (bt : BaseTask n) :
    Except Err (GoMap Json) := do
  let p : GoMap Json := []
  let p : GoMap Json := if !(Duration.Seconds bt.TimeoutSeconds).isZero then
    p.set "TimeoutSeconds" (.num (Duration.Seconds bt.TimeoutSeconds)) else p
  let p : GoMap Json := if !(Duration.Seconds bt.HeartbeatSeconds).isZero then
    p.set "HeartbeatSeconds" (.num (Duration.Seconds bt.HeartbeatSeconds)) else p
  let p : GoMap Json := if bt.ResultPath ≠ "" then p.set "ResultPath" (.str bt.ResultPath) else p
  let p : GoMap Json := if bt.Retriers.length ≠ 0 then p.set "Retry" (.arr []) else p
  match bt.Catchers with
  | none => pure p
  | some catchers => do
    let catcherMap ← mapE (fun eachCatcher => do
      let name ← refName h eachCatcher.next
      pure (Json.obj [("ErrorEquals", marshalErrors eachCatcher.errorEquals), ("Next", .str name)]))
      catchers
    pure (p.set "Catch" (.arr catcherMap))

/-- The encoding of `gocf.GetAtt(resource, "Arn")`. -/
def getAttArn (resource : String) : Json :=
  .obj [("Fn::GetAtt", .arr [.str resource, .str "Arn"])]

/-! ### The generic form of a JSON value

`marshalMergedParams` decodes the encoding of the parameters into an
`interface{}` and encodes the decoded value again.  A number is decoded into a
`float64` (`strconv.ParseFloat`) and a `float64` is encoded with the fewest digits
that read back as the same `float64` (`strconv.FormatFloat(f, 'g', -1, 64)`). -/

/-- The number of digits of `n` in base `b`; zero has one digit. -/
def digitCount (b n : Nat) : Nat := (Nat.toDigits b n).length

/-- The largest `l` with `b ^ l ≤ p / q`, for positive `p` and `q`. -/
def floorLog (b p q : Nat) : Int :=
  let l : Int := (digitCount b p : Int) - (digitCount b q : Int)
  let le : Int → Bool := fun l =>
    if 0 ≤ l then decide (q * b ^ l.toNat ≤ p) else decide (q ≤ p * b ^ (-l).toNat)
  if le (l + 1) then l + 1 else if le l then l else l - 1

/-- The integer nearest to `p / q`, the even one of two that are equally near. -/
def roundHalfEven (p q : Nat) : Nat :=
  let f := p / q
  let r := p % q
  if 2 * r < q then f else if q < 2 * r then f + 1 else if f % 2 = 0 then f else f + 1

/-- The magnitude of a finite `float64`: `mant * 2 ^ exp` with `mant < 2 ^ 53` and
`-1074 ≤ exp ≤ 971`. -/
structure Float64 where
  mant : Nat
  exp : Int
  deriving DecidableEq, Repr

/-- The call `strconv.ParseFloat(s, 64)` on the magnitude `p / q`: the nearest
`float64`, the one with the even mantissa of two that are equally near; `none` when
the result is out of range (`ErrRange`).  A magnitude too small for a `float64` is
read as zero without an error. -/
def parseFloat64 (p q : Nat) : Option Float64 :=
  if p = 0 then some ⟨0, -1074⟩
  else
    let e : Int := max (floorLog 2 p q - 52) (-1074)
    let mant :=
      if 0 ≤ e then roundHalfEven p (q * 2 ^ e.toNat) else roundHalfEven (p * 2 ^ (-e).toNat) q
    let f : Float64 := if mant = 2 ^ 53 then ⟨2 ^ 52, e + 1⟩ else ⟨mant, e⟩
    if 971 < f.exp then none else some f

/-- A decimal with the zeros at the end of its fraction removed. -/
def Number.trimZeros : Nat → Number → Number
  | 0, x => x
  | fuel + 1, x =>
    if x.scale ≠ 0 ∧ x.mantissa % 10 = 0 then
      Number.trimZeros fuel ⟨x.mantissa / 10, x.scale - 1⟩
    else x

/-- The digits of the shortest decimal in the rounding interval of a `float64`, as
`strconv` finds them: for `n = 1, 2, ...` digits the value `v / d` is rounded down
and up to `n` digits, and the first `n` for which one of the two lies between the
bounds `l / d` and `u / d` gives the result (the nearer one when both do).  The
result is the digits as a number and the power of ten of their last digit; `dp` is
the number of digits of `v / d` before the point.  Seventeen digits always suffice. -/
def shortestDigits (v d l u : Nat) (inclusive : Bool) (dp : Int) : Nat → Nat → Nat × Int
  | 0, n =>
    let t := if 0 ≤ dp - n then d * 10 ^ (dp - n).toNat else d
    let s := if 0 ≤ dp - n then 1 else 10 ^ (n - dp).toNat
    (roundHalfEven (v * s) t, dp - n)
  | fuel + 1, n =>
    let t := if 0 ≤ dp - n then d * 10 ^ (dp - n).toNat else d
    let s := if 0 ≤ dp - n then 1 else 10 ^ (n - dp).toNat
    let lo := v * s / t
    let exact := decide (v * s % t = 0)
    let okdown := exact ||
      (if inclusive then decide (l * s ≤ lo * t) else decide (l * s < lo * t))
    let okup := !exact &&
      (if inclusive then decide ((lo + 1) * t ≤ u * s) else decide ((lo + 1) * t < u * s))
    if okdown && okup then (roundHalfEven (v * s) t, dp - n)
    else if okdown then (lo, dp - n)
    else if okup then (lo + 1, dp - n)
    else shortestDigits v d l u inclusive dp fuel (n + 1)

/-- The number `encoding/json` writes for a finite `float64` magnitude: the shortest
decimal that reads back as the same `float64`.  The bounds of the rounding interval
are the midpoints to the neighbouring `float64`s (the lower neighbour is half as far
away when the mantissa is `2 ^ 52`), and they belong to the interval when the
mantissa is even. -/
def Float64.shortest (f : Float64) : Number :=
  if f.mant = 0 then ⟨0, 0⟩
  else
    let boundary := decide (f.mant = 2 ^ 52 ∧ -1074 < f.exp)
    let sh : Nat := (f.exp - 2).toNat
    let d : Nat := 2 ^ (2 - f.exp).toNat
    let v := 4 * f.mant * 2 ^ sh
    let l := (if boundary then 4 * f.mant - 1 else 4 * f.mant - 2) * 2 ^ sh
    let u := (4 * f.mant + 2) * 2 ^ sh
    let dp := floorLog 10 v d + 1
    let (digits, e10) := shortestDigits v d l u (f.mant % 2 == 0) dp 17 1
    if 0 ≤ e10 then ⟨(digits * 10 ^ e10.toNat : Nat), 0⟩
    else Number.trimZeros (-e10).toNat ⟨(digits : Nat), (-e10).toNat⟩

/-- A JSON number decoded into a `float64` and encoded again; `none` when the number
is out of the range of `float64`. -/
def Number.viaFloat64 (x : Number) : Option Number :=
  match parseFloat64 x.mantissa.natAbs (10 ^ x.scale) with
  | none => none
  | some f =>
    let y := f.shortest
    some (if x.mantissa < 0 then ⟨-y.mantissa, y.scale⟩ else y)

/-- The nesting depth beyond which the decoder of `encoding/json` gives up. -/
def maxNestingDepth : Nat := 10000

/-- The call `json.Unmarshal(jsonBytes, &unmarshaled)` for an `interface{}`, on the
encoding `jsonBytes`; the result is the tree `json.Marshal` gives for the decoded
value.  Numbers become `float64`, an object becomes a `map[string]interface{}` (of
two members with the same key the later one stays), and arrays and objects
nested deeper than `depth` are an error. -/
def unmarshalGeneric : Nat → Json → Except Err Json
  | _, .null => .ok .null
  | _, .bool b => .ok (.bool b)
  | _, .str s => .ok (.str s)
  | _, .num x =>
    match x.viaFloat64 with
    | none => .error (.error "json: cannot unmarshal number into Go value of type float64")
    | some y => .ok (.num y)
  | 0, .arr _ => .error (.error "exceeded max depth")
  | 0, .obj _ => .error (.error "exceeded max depth")
  | depth + 1, .arr xs =>
    match mapE (unmarshalGeneric depth) xs with
    | .error e => .error e
    | .ok ys => .ok (.arr ys)
  | depth + 1, .obj kvs =>
    match mapE (fun (kv : String × Json) =>
        match unmarshalGeneric depth kv.2 with
        | .error e => .error e
        | .ok v => .ok (kv.1, v)) kvs with
    | .error e => .error e
    | .ok vs => .ok (.obj (vs.foldl (fun (m : GoMap Json) kv => m.set kv.1 kv.2) []))

/-- The generic JSON form of a value: its encoding by `json.Marshal`, decoded by
`json.Unmarshal` into an `interface{}`. -/
def Value.generic (v : Option Value) : Except Err Json :=
  match Value.Marshal v with
  | .error e => .error e
  | .ok jsonBytes => unmarshalGeneric maxNestingDepth jsonBytes

/-- The method `BaseTask.marshalMergedParams`. -/
def BaseTask.marshalMergedParams {n : Nat} (h : Heap n) (bt : BaseTask n)
    (taskResourceType : String) (taskParams : Option Value) : Except Err Json :=
  match Value.Marshal taskParams with
  | .error _ => .error (.error "attempting to JSON marshal task params")
  | .ok jsonBytes =>
    match unmarshalGeneric maxNestingDepth jsonBytes with
    | .error _ => .error (.error "attempting to unmarshall params")
    | .ok unmarshaled =>
      match unmarshaled with
      | .obj mapTyped => do
        let p : GoMap Json ← bt.additionalParams h
        let p : GoMap Json := p.set "Resource" (.str taskResourceType)
        let p : GoMap Json := p.set "Parameters" (.obj mapTyped)
        bt.base.marshalStateJSON h "Task" (some p)
      | _ => .error (.error
          "attempting to type convert unmarshalled params to map[string]interface\x7b\x7d")

/-- The `MarshalJSON` method of each state type; `marshalState` encodes the state
an interface value points to (used where a catcher is encoded by `TaskCatch.MarshalJSON`). -/
def State.marshalWith {n : Nat} (h : Heap n) (marshalState : Fin n → Except Err Json) :
    State n → Except Err Json
  | .PassState b resultPath result => do
    let p : GoMap Json := []
    let p : GoMap Json := if resultPath ≠ "" then p.set "ResultPath" (.str resultPath) else p
    let p : GoMap Json ← match result with
      | none => pure p
      | some v => do
        let j ← Value.Marshal (some v)
        pure (p.set "Result" j)
    b.marshalStateJSON h "Pass" (some p)
  | .ChoiceState b choices dflt => do
    let p : GoMap Json := []
    let cs ← mapE (ChoiceBranch.MarshalJSON h) choices
    let p : GoMap Json := p.set "Choices" (.arr cs)
    let p : GoMap Json := match dflt with
      | some a => p.set "Default" (.str (h.Name a))
      | none => p
    b.marshalStateJSON h "Choice" (some p)
  | .BaseTask _ => .error (.error
      "step.BaseTask doesn't support direct JSON serialization. Prefer using an embedding Task type (eg: TaskState, FargateTaskState)")
  | .LambdaTaskState t lambdaLogicalResourceName => do
    let p : GoMap Json ← t.additionalParams h
    let p : GoMap Json := p.set "Resource" (getAttArn lambdaLogicalResourceName)
    t.base.marshalStateJSON h "Task" (some p)
  | .WaitDelay b delay =>
    b.marshalStateJSON h "Wait" (some (GoMap.set [] "Seconds" (.num (Duration.Seconds delay))))
  | .WaitUntil b timestamp =>
    b.marshalStateJSON h "Wait" (some (GoMap.set [] "Timestamp" (.str timestamp.FormatRFC3339)))
  | .WaitDynamicUntil b timestampPath =>
    b.marshalStateJSON h "Wait" (some (GoMap.set [] "TimestampPath" (.str timestampPath)))
  | .SuccessState b => b.marshalStateJSON h "Succeed" none
  | .FailState b errorName cause =>
    let p : GoMap Json := GoMap.set [] "Error" (.str errorName)
    let p : GoMap Json := match cause with
      | some msg => p.set "Cause" (.str msg)
      | none => p
    b.marshalStateJSON h "Fail" (some p)
  | .ParallelState b _ resultPath retriers catchers => do
    let p : GoMap Json := []
    let p : GoMap Json := if resultPath ≠ "" then p.set "ResultPath" (.str resultPath) else p
    let p : GoMap Json := if retriers.length ≠ 0 then p.set "Retry" (.arr (retriers.map TaskRetry.Marshal)) else p
    let p : GoMap Json ← match catchers with
      | none => pure p
      | some cs => do
        let js ← mapE (TaskCatch.MarshalJSON marshalState) cs
        pure (p.set "Catch" (.arr js))
    b.marshalStateJSON h "Parallel" (some p)

/-- The call `json.Marshal(state)` on a state object.  A catcher of a Parallel
state is encoded through the state it points to, so the encoding is recursive
along catcher targets; `depth` bounds the nesting, and `Err.depth` reports
that the bound was reached. -/
def State.MarshalJSON {n : Nat} (h : Heap n) : Nat → State n → Except Err Json
  | 0, s => s.marshalWith h (fun _ => .error .depth)
  | depth + 1, s => s.marshalWith h (fun a => State.MarshalJSON h depth (h a))

/-- The method `StateMachine.MarshalJSON`: the struct with the members `Comment`,
`StartAt`, `States` and `End`, all tagged `omitempty`. -/
def StateMachine.MarshalJSON {n : Nat} (h : Heap n) (depth : Nat) (sm : StateMachine n) :
    Except Err Json := do
  let startAt ← refName h sm.startAt
  let states ← mapE (fun (kv : String × Fin n) => do
    let j ← State.MarshalJSON h depth (h kv.2)
    pure (kv.1, j)) sm.uniqueStates
  pure (.obj (omitEmptyStr "Comment" sm.comment ++ omitEmptyStr "StartAt" startAt ++
    (if states.isEmpty then [] else [("States", .obj states)]) ++
    (if sm.uniqueStates.length = 1 then [("End", .bool true)] else [])))

/-! ## Constructors and fluent builders

`rand.Int63()` is the parameter `id` of every constructor.  A builder mutates
the object it is called on; here it maps the object to its new value. -/

/-- The zero value of `baseInnerState` with the given name and id. -/
def baseInnerState.new {n : Nat} (name : String) (id : Int) (isEndStateInvalid : Bool) :
    baseInnerState n :=
  { name := name, id := id, next := none, comment := "", inputPath := "", outputPath := "",
    isEndStateInvalid := isEndStateInvalid }

/-- The constructor `NewPassState`. -/
def NewPassState {n : Nat} (name : String) (id : Int) (resultData : Option Value) : State n :=
  .PassState (baseInnerState.new name id false) "" resultData

/-- The constructor `NewChoiceState`: the branches are copied into a fresh slice,
so `Choices` is never the nil slice and encodes as an array. -/
def NewChoiceState {n : Nat} (choiceStateName : String) (id : Int)
    (choices : List (ChoiceBranch n)) : State n :=
  .ChoiceState (baseInnerState.new choiceStateName id true) ([] ++ choices) none

/-- The constructor `NewLambdaTaskState`; the logical resource name is filled in
later by the decorator and starts empty. -/
def NewLambdaTaskState {n : Nat} (stateName : String) (id : Int) : State n :=
  .LambdaTaskState
    { base := baseInnerState.new stateName id false, ResultPath := "", TimeoutSeconds := 0,
      HeartbeatSeconds := 0, Retriers := [], Catchers := none } ""

/-- The constructor `NewWaitDelayState`. -/
def NewWaitDelayState {n : Nat} (stateName : String) (id : Int) (delay : Duration) : State n :=
  .WaitDelay (baseInnerState.new stateName id false) delay

/-- The constructor `NewWaitUntilState`. -/
def NewWaitUntilState {n : Nat} (stateName : String) (id : Int) (waitUntil : Time) : State n :=
  .WaitUntil (baseInnerState.new stateName id false) waitUntil

/-- The constructor `NewWaitDynamicUntilState`. -/
def NewWaitDynamicUntilState {n : Nat} (stateName : String) (id : Int)
    (timestampPath : String) : State n :=
  .WaitDynamicUntil (baseInnerState.new stateName id false) timestampPath

/-- The constructor `NewSuccessState`. -/
def NewSuccessState {n : Nat} (name : String) (id : Int) : State n :=
  .SuccessState (baseInnerState.new name id true)

/-- The constructor `NewFailState`; `cause` is the message of the error, `none` for a nil error. -/
def NewFailState {n : Nat} (failStateName : String) (id : Int) (errorName : String)
    (cause : Option String) : State n :=
  .FailState (baseInnerState.new failStateName id true) errorName cause

/-- The constructor `NewParallelState`. -/
def NewParallelState {n : Nat} (parallelStateName : String) (id : Int)
    (states : StateMachine n) : State n :=
  .ParallelState (baseInnerState.new parallelStateName id false) states "" [] none

/-- A state with its embedded base replaced by `f base`. -/
def State.mapBase {n : Nat} (f : baseInnerState n → baseInnerState n) : State n → State n
  | .PassState b rp r => .PassState (f b) rp r
  | .ChoiceState b cs d => .ChoiceState (f b) cs d
  | .BaseTask t => .BaseTask { t with base := f t.base }
  | .LambdaTaskState t l => .LambdaTaskState { t with base := f t.base } l
  | .WaitDelay b d => .WaitDelay (f b) d
  | .WaitUntil b t => .WaitUntil (f b) t
  | .WaitDynamicUntil b p => .WaitDynamicUntil (f b) p
  | .SuccessState b => .SuccessState (f b)
  | .FailState b e c => .FailState (f b) e c
  | .ParallelState b sm rp rs cs => .ParallelState (f b) sm rp rs cs

/-- The receiver after the call `Next(nextState)`: every type that has the
method stores the argument, except `FailState`, whose method stores nothing.
`ChoiceState` has no such method. -/
def State.Next {n : Nat} (s : State n) (nextState : Ref n) : State n :=
  match s with
  | .FailState _ _ _ => s
  | .ChoiceState _ _ _ => s
  | _ => s.mapBase (fun b => { b with next := nextState })

/-- The receiver after the call `WithComment(comment)`. -/
def State.WithComment {n : Nat} (s : State n) (comment : String) : State n :=
  s.mapBase (fun b => { b with comment := comment })

/-- The receiver after the call `WithInputPath(inputPath)`; the method of
`FailState` stores nothing and `ChoiceState` has no such method. -/
def State.WithInputPath {n : Nat} (s : State n) (inputPath : String) : State n :=
  match s with
  | .FailState _ _ _ => s
  | .ChoiceState _ _ _ => s
  | _ => s.mapBase (fun b => { b with inputPath := inputPath })

/-- The receiver after the call `WithOutputPath(outputPath)`; the method of
`FailState` stores nothing and `ChoiceState` has no such method. -/
def State.WithOutputPath {n : Nat} (s : State n) (outputPath : String) : State n :=
  match s with
  | .FailState _ _ _ => s
  | .ChoiceState _ _ _ => s
  | _ => s.mapBase (fun b => { b with outputPath := outputPath })

/-- The receiver after `ChoiceState.WithDefault(defaultState)`. -/
def State.WithDefault {n : Nat} (s : State n) (defaultState : Ref n) : State n :=
  match s with
  | .ChoiceState b cs _ => .ChoiceState b cs defaultState
  | _ => s

/-- The receiver after `WithResultPath(resultPath)`; the method of `ChoiceState` stores nothing. -/
def State.WithResultPath {n : Nat} (s : State n) (resultPath : String) : State n :=
  match s with
  | .PassState b _ r => .PassState b resultPath r
  | .BaseTask t => .BaseTask { t with ResultPath := resultPath }
  | .LambdaTaskState t l => .LambdaTaskState { t with ResultPath := resultPath } l
  | .ParallelState b sm _ rs cs => .ParallelState b sm resultPath rs cs
  | _ => s

/-- The receiver after `PassState.WithResult(result)`. -/
def State.WithResult {n : Nat} (s : State n) (result : Option Value) : State n :=
  match s with
  | .PassState b rp _ => .PassState b rp result
  | _ => s

/-- The receiver after `WithTimeout(timeout)` of a task. -/
def State.WithTimeout {n : Nat} (s : State n) (timeout : Duration) : State n :=
  match s with
  | .BaseTask t => .BaseTask { t with TimeoutSeconds := timeout }
  | .LambdaTaskState t l => .LambdaTaskState { t with TimeoutSeconds := timeout } l
  | _ => s

/-- The receiver after `WithHeartbeat(pulse)` of a task. -/
def State.WithHeartbeat {n : Nat} (s : State n) (pulse : Duration) : State n :=
  match s with
  | .BaseTask t => .BaseTask { t with HeartbeatSeconds := pulse }
  | .LambdaTaskState t l => .LambdaTaskState { t with HeartbeatSeconds := pulse } l
  | _ => s

/-- The slice `append(catchers, added...)` after a nil slice was replaced by an empty one. -/
def appendCatchers {n : Nat} (catchers : Option (List (TaskCatch n)))
    (added : List (TaskCatch n)) : Option (List (TaskCatch n)) :=
  match catchers with
  | none => some ([] ++ added)
  | some cs => some (cs ++ added)

/-- The receiver after `WithRetriers(retries...)` of a task or a Parallel state. -/
def State.WithRetriers {n : Nat} (s : State n) (retries : List TaskRetry) : State n :=
  match s with
  | .BaseTask t => .BaseTask { t with Retriers := t.Retriers ++ retries }
  | .LambdaTaskState t l => .LambdaTaskState { t with Retriers := t.Retriers ++ retries } l
  | .ParallelState b sm rp rs cs => .ParallelState b sm rp (rs ++ retries) cs
  | _ => s

/-- The receiver after `WithCatchers(catch...)` of a task or a Parallel state. -/
def State.WithCatchers {n : Nat} (s : State n) (added : List (TaskCatch n)) : State n :=
  match s with
  | .BaseTask t => .BaseTask { t with Catchers := appendCatchers t.Catchers added }
  | .LambdaTaskState t l => .LambdaTaskState { t with Catchers := appendCatchers t.Catchers added } l
  | .ParallelState b sm rp rs cs => .ParallelState b sm rp rs (appendCatchers cs added)
  | _ => s

/-- A call of one of the fluent builders on a state object. -/
inductive StateCall (n : Nat) where
  | Next (nextState : Ref n)
  | WithComment (comment : String)
  | WithInputPath (inputPath : String)
  | WithOutputPath (outputPath : String)
  | WithDefault (defaultState : Ref n)
  | WithResultPath (resultPath : String)
  | WithResult (result : Option Value)
  | WithTimeout (timeout : Duration)
  | WithHeartbeat (pulse : Duration)
  | WithRetriers (retries : List TaskRetry)
  | WithCatchers (added : List (TaskCatch n))

/-- The receiver after one builder call; a call of a method the receiver's type
does not have leaves it as it is. -/
def State.call {n : Nat} (s : State n) : StateCall n → State n
  | .Next r => s.Next r
  | .WithComment c => s.WithComment c
  | .WithInputPath p => s.WithInputPath p
  | .WithOutputPath p => s.WithOutputPath p
  | .WithDefault r => s.WithDefault r
  | .WithResultPath p => s.WithResultPath p
  | .WithResult v => s.WithResult v
  | .WithTimeout d => s.WithTimeout d
  | .WithHeartbeat d => s.WithHeartbeat d
  | .WithRetriers rs => s.WithRetriers rs
  | .WithCatchers cs => s.WithCatchers cs

/-- The receiver after a sequence of builder calls, first call first. -/
def State.calls {n : Nat} (s : State n) (cs : List (StateCall n)) : State n :=
  cs.foldl State.call s

/-- The default state after one more call, when it was `d` before. -/
def defaultAfter {n : Nat} (d : Ref n) : StateCall n → Ref n
  | .WithDefault r => r
  | _ => d

/-- The argument of the last `WithDefault` call of a sequence; nil when there is none. -/
def lastDefault {n : Nat} (cs : List (StateCall n)) : Ref n :=
  cs.foldl defaultAfter none

/-- The argument of `Next` after one more call, when it was `d` before. -/
def nextAfter {n : Nat} (d : Ref n) : StateCall n → Ref n
  | .Next r => r
  | _ => d

/-- The argument of the last `Next` call of a sequence; nil when there is none. -/
def lastNext {n : Nat} (cs : List (StateCall n)) : Ref n :=
  cs.foldl nextAfter none

/-! ## The traversal of `NewStateMachine` -/

/-- The methods `AdjacentStates`.  `ChoiceState` has no such method (it is not a
`TransitionState`); the traversal never asks for it. -/
def State.AdjacentStates {n : Nat} : State n → List (Ref n)
  | .FailState _ _ _ => []
  | .ChoiceState _ _ _ => []
  | .BaseTask t =>
    (match t.base.next with
      | some a => [some a]
      | none => []) ++
    (match t.Catchers with
      | some cs => cs.map (fun eachCatcher => eachCatcher.next)
      | none => [])
  | .LambdaTaskState t _ =>
    (match t.base.next with
      | some a => [some a]
      | none => []) ++
    (match t.Catchers with
      | some cs => cs.map (fun eachCatcher => eachCatcher.next)
      | none => [])
  | s =>
    match s.base.next with
    | some a => [some a]
    | none => []

/-- The closure `nodeVisited` of `NewStateMachine`. -/
def nodeVisited {n : Nat} (h : Heap n) (uniqueStates : GoMap (Fin n)) (node : Ref n) : Bool :=
  match node with
  | none => true
  | some a => (uniqueStates.get? (h.Name a)).isSome

/-- The statement `if !nodeVisited(node) { tailStates = append(tailStates, node) }`.
The nil interface counts as visited, so the worklist holds pointers only. -/
def appendUnvisited {n : Nat} (h : Heap n) (uniqueStates : GoMap (Fin n))
    (tailStates : List (Fin n)) (node : Ref n) : List (Fin n) :=
  match node with
  | none => tailStates
  | some a => if nodeVisited h uniqueStates (some a) then tailStates else tailStates ++ [a]

/-- One iteration of the loop `for len(pendingStates) != 0`: the table and the
worklist after `headState` has been taken from the front of the worklist. -/
def visit {n : Nat} (h : Heap n) (uniqueStates : GoMap (Fin n)) (headState : Fin n)
    (tailStates : List (Fin n)) : GoMap (Fin n) × List (Fin n) :=
  let uniqueStates : GoMap (Fin n) := uniqueStates.set (h.Name headState) headState
  match h headState with
  | .ChoiceState _ choices dflt =>
    let tailStates := choices.foldl
      (fun t eachChoice => appendUnvisited h uniqueStates t eachChoice.nextState) tailStates
    (uniqueStates, appendUnvisited h uniqueStates tailStates dflt)
  | stateNode =>
    (uniqueStates, stateNode.AdjacentStates.foldl (appendUnvisited h uniqueStates) tailStates)

/-- The loop of `NewStateMachine`, run for at most `fuel` iterations: `some` of
the final table when the worklist empties within `fuel` iterations. -/
def traverse {n : Nat} (h : Heap n) : Nat → GoMap (Fin n) → List (Fin n) → Option (GoMap (Fin n))
  | _, uniqueStates, [] => some uniqueStates
  | 0, _, _ :: _ => none
  | fuel + 1, uniqueStates, headState :: tailStates =>
    let next := visit h uniqueStates headState tailStates
    traverse h fuel next.1 next.2

/-- The constructor `NewStateMachine` with a non-nil start state, its loop run
for at most `fuel` iterations.  `duplicateStateNames` is created empty and
nothing is ever stored in it. -/
def NewStateMachine {n : Nat} (h : Heap n) (fuel : Nat) (stateMachineName : String)
    (startState : Fin n) : Option (StateMachine n) :=
  let duplicateStateNames : GoMap Bool := []
  match traverse h fuel [] [startState] with
  | none => none
  | some uniqueStates =>
    some { name := stateMachineName, comment := "",
           stateDefinitionError :=
             if duplicateStateNames.length ≠ 0 then some "duplicate state names" else none,
           startAt := some startState, uniqueStates := uniqueStates, roleArn := none }

/-! ## Reachability, and the measures of the traversal -/

/-- The successors of a state, as the traversal rule names them: the branch
targets and the Default of a Choice, the `AdjacentStates` of any other state. -/
def successors {n : Nat} (h : Heap n) (a : Fin n) : List (Ref n) :=
  match h a with
  | .ChoiceState _ choices dflt => choices.map ChoiceBranch.nextState ++ [dflt]
  | s => s.AdjacentStates

/-- The state objects reachable from `start` along successors. -/
inductive Reachable {n : Nat} (h : Heap n) (start : Fin n) : Fin n → Prop where
  | start : Reachable h start start
  | step {a b : Fin n} : Reachable h start a → some b ∈ successors h a → Reachable h start b

/-- The number of state objects whose name is not a key of the table. -/
def unvisitedCount {n : Nat} (h : Heap n) (uniqueStates : GoMap (Fin n)) : Nat :=
  ((Finset.univ : Finset (Fin n)).filter (fun a => nodeVisited h uniqueStates (some a) = false)).card

/-- The number of states at the front of the worklist whose name is a key of the table. -/
def visitedRun {n : Nat} (h : Heap n) (uniqueStates : GoMap (Fin n)) (pending : List (Fin n)) : Nat :=
  (pending.takeWhile (fun a => nodeVisited h uniqueStates (some a))).length

/-- The table and the worklist after `k` iterations of the loop of `NewStateMachine`
(fewer when the worklist empties earlier). -/
def run {n : Nat} (h : Heap n) : Nat → GoMap (Fin n) × List (Fin n) → GoMap (Fin n) × List (Fin n)
  | 0, c => c
  | _ + 1, (uniqueStates, []) => (uniqueStates, [])
  | k + 1, (uniqueStates, headState :: tailStates) =>
    run h k (visit h uniqueStates headState tailStates)

/-- The states taken from the front of the worklist during the first `k` iterations, in order. -/
def dequeued {n : Nat} (h : Heap n) : Nat → GoMap (Fin n) → List (Fin n) → List (Fin n)
  | 0, _, _ => []
  | _ + 1, _, [] => []
  | k + 1, uniqueStates, headState :: tailStates =>
    let next := visit h uniqueStates headState tailStates
    headState :: dequeued h k next.1 next.2

/-- The invariant of the loop of `NewStateMachine`, for the table and the worklist. -/
structure TraversalInv {n : Nat} (h : Heap n) (start : Fin n) (uniqueStates : GoMap (Fin n))
    (pendingStates : List (Fin n)) : Prop where
  entries : ∀ k a, uniqueStates.get? k = some a → h.Name a = k ∧ Reachable h start a
  pending : ∀ a ∈ pendingStates, Reachable h start a
  startSeen : (uniqueStates.get? (h.Name start)).isSome = true ∨ start ∈ pendingStates
  closed : ∀ a, uniqueStates.get? (h.Name a) = some a → ∀ b, some b ∈ successors h a →
    (uniqueStates.get? (h.Name b)).isSome = true ∨ b ∈ pendingStates
  nodup : uniqueStates.keys.Nodup

/-! ## Example graphs -/

/-- Pass `A` leads to Task `B`, which leads to Succeed `C`. -/
def chainHeap : Heap 3 := fun i =>
  match i.val with
  | 0 => (NewPassState "A" 11 none).Next (some 1)
  | 1 => (NewLambdaTaskState "B" 12).Next (some 2)
  | _ => NewSuccessState "C" 13

/-- Pass `A` leads to Choice `C`, whose two branches both lead to Succeed `T`. -/
def convergingHeap : Heap 3 := fun i =>
  match i.val with
  | 0 => (NewPassState "A" 21 none).Next (some 1)
  | 1 => NewChoiceState "C" 22
      [.And [.StringEquals "$.x" "go"] (some 2), .Not (.StringEquals "$.x" "go") (some 2)]
  | _ => NewSuccessState "T" 23

/-- Pass `A` and Pass `B` lead to each other, and Pass `L` leads to itself. -/
def cyclicHeap : Heap 3 := fun i =>
  match i.val with
  | 0 => (NewPassState "A" 31 none).Next (some 1)
  | 1 => (NewPassState "B" 32 none).Next (some 0)
  | _ => (NewPassState "L" 33 none).Next (some 2)

/-- A Parallel state `P` without a successor, and the Succeed state `Inner` of
its nested machine. -/
def parallelHeap : Heap 2 := fun i =>
  match i.val with
  | 0 => NewParallelState "P" 41
      { name := "branch", comment := "", stateDefinitionError := none, startAt := some 1,
        uniqueStates := [("Inner", 1)], roleArn := none }
  | _ => NewSuccessState "Inner" 42

/-- A Choice state `Router` with one branch to the Succeed state `Go` and, after
`WithDefault`, the Fail state `Bad` as its default. -/
def routerHeap : Heap 3 := fun i =>
  match i.val with
  | 0 => (NewChoiceState "Router" 61 [.And [.StringEquals "$.x" "go"] (some 1)]).calls
      [.WithDefault (some 2)]
  | 1 => NewSuccessState "Go" 62
  | _ => NewFailState "Bad" 63 "BadInput" (some "no route")

/-- A Succeed state `Done` on which `Next` was called with the Pass state `After`. -/
def succeedNextHeap : Heap 2 := fun i =>
  match i.val with
  | 0 => (NewSuccessState "Done" 51).Next (some 1)
  | _ => NewPassState "After" 52 none

/-- The machine `NewStateMachine` builds from state `A` of `chainHeap`. -/
def chainMachine : StateMachine 3 :=
  { name := "m", comment := "", stateDefinitionError := none, startAt := some 0,
    uniqueStates := [("A", 0), ("B", 1), ("C", 2)], roleArn := none }

/-- The document of `chainMachine`. -/
def chainDocument : Json :=
  .obj [("StartAt", .str "A"),
    ("States", .obj [
      ("A", .obj [("Type", .str "Pass"), ("Next", .str "B")]),
      ("B", .obj [("Resource", .obj [("Fn::GetAtt", .arr [.str "", .str "Arn"])]),
        ("Type", .str "Task"), ("Next", .str "C")]),
      ("C", .obj [("Type", .str "Succeed")])])]

/-- A Pass state `A` with successor `B`, result path `$.r` and result value `"x"`. -/
def resultPassBase : baseInnerState 3 :=
  { name := "A", id := 71, next := some 1, comment := "", inputPath := "", outputPath := "",
    isEndStateInvalid := false }

/-- The object of the Pass state with base `resultPassBase`. -/
def resultPassObject : Json :=
  .obj [("ResultPath", .str "$.r"), ("Result", .str "x"), ("Type", .str "Pass"),
    ("Next", .str "B")]


/-! ## Retriers, catchers and the names of the comparison types -/

/-- The constructor `NewTaskRetry`. -/
def NewTaskRetry : TaskRetry :=
  { ErrorEquals := [], IntervalSeconds := 0, MaxAttempts := 0, BackoffRate := ⟨0, 0⟩ }

/-- The retrier after `WithErrors(errors...)`. -/
def TaskRetry.WithErrors (tr : TaskRetry) (errors : List StateError) : TaskRetry :=
  { tr with ErrorEquals := tr.ErrorEquals ++ errors }

/-- The retrier after `WithInterval(interval)`. -/
def TaskRetry.WithInterval (tr : TaskRetry) (interval : Duration) : TaskRetry :=
  { tr with IntervalSeconds := interval }

/-- The retrier after `WithMaxAttempts(maxAttempts)`. -/
def TaskRetry.WithMaxAttempts (tr : TaskRetry) (maxAttempts : Int) : TaskRetry :=
  { tr with MaxAttempts := maxAttempts }

/-- The retrier after `WithBackoffRate(backoffRate)`. -/
def TaskRetry.WithBackoffRate (tr : TaskRetry) (backoffRate : Number) : TaskRetry :=
  { tr with BackoffRate := backoffRate }

/-- The constructor `NewTaskCatch(nextState, errors...)`, called with the error
names listed as arguments: with no name the variadic parameter is the nil slice. -/
def NewTaskCatch {n : Nat} (nextState : Ref n) (errors : List StateError) : TaskCatch n :=
  { errorEquals := match errors with
      | [] => none
      | es => some es,
    next := nextState }

/-- One second as a `time.Duration`. -/
def Second : Duration := 1000000000

/-- The name of the Go type of a comparison. -/
def Comparison.typeName : Comparison → String
  | .StringEquals _ _ => "StringEquals"
  | .StringLessThan _ _ => "StringLessThan"
  | .StringGreaterThan _ _ => "StringGreaterThan"
  | .StringLessThanEquals _ _ => "StringLessThanEquals"
  | .StringGreaterThanEquals _ _ => "StringGreaterThanEquals"
  | .NumericEquals _ _ => "NumericEquals"
  | .NumericLessThan _ _ => "NumericLessThan"
  | .NumericGreaterThan _ _ => "NumericGreaterThan"
  | .NumericLessThanEquals _ _ => "NumericLessThanEquals"
  | .NumericGreaterThanEquals _ _ => "NumericGreaterThanEquals"
  | .BooleanEquals _ _ => "BooleanEquals"
  | .TimestampEquals _ _ => "TimestampEquals"
  | .TimestampLessThan _ _ => "TimestampLessThan"
  | .TimestampGreaterThan _ _ => "TimestampGreaterThan"
  | .TimestampLessThanEquals _ _ => "TimestampLessThanEquals"
  | .TimestampGreaterThanEquals _ _ => "TimestampGreaterThanEquals"

/-- The field `Variable` of a comparison. -/
def Comparison.Variable : Comparison → String
  | .StringEquals v _ => v
  | .StringLessThan v _ => v
  | .StringGreaterThan v _ => v
  | .StringLessThanEquals v _ => v
  | .StringGreaterThanEquals v _ => v
  | .NumericEquals v _ => v
  | .NumericLessThan v _ => v
  | .NumericGreaterThan v _ => v
  | .NumericLessThanEquals v _ => v
  | .NumericGreaterThanEquals v _ => v
  | .BooleanEquals v _ => v
  | .TimestampEquals v _ => v
  | .TimestampLessThan v _ => v
  | .TimestampGreaterThan v _ => v
  | .TimestampLessThanEquals v _ => v
  | .TimestampGreaterThanEquals v _ => v

/-- The literal value of a comparison as a JSON value: a string, an integer, the
encoding of the `interface{}` value of `BooleanEquals` (`none` when it has no
encoding), or the RFC3339 text of an instant. -/
def Comparison.literal : Comparison → Option Json
  | .StringEquals _ x => some (.str x)
  | .StringLessThan _ x => some (.str x)
  | .StringGreaterThan _ x => some (.str x)
  | .StringLessThanEquals _ x => some (.str x)
  | .StringGreaterThanEquals _ x => some (.str x)
  | .NumericEquals _ x => some (.num (Number.ofInt x))
  | .NumericLessThan _ x => some (.num (Number.ofInt x))
  | .NumericGreaterThan _ x => some (.num (Number.ofInt x))
  | .NumericLessThanEquals _ x => some (.num (Number.ofInt x))
  | .NumericGreaterThanEquals _ x => some (.num (Number.ofInt x))
  | .BooleanEquals _ x =>
    match x with
    | none => some .null
    | some (.json j) => some j
    | some .unsupported => none
  | .TimestampEquals _ x => some (.str x.FormatRFC3339)
  | .TimestampLessThan _ x => some (.str x.FormatRFC3339)
  | .TimestampGreaterThan _ x => some (.str x.FormatRFC3339)
  | .TimestampLessThanEquals _ x => some (.str x.FormatRFC3339)
  | .TimestampGreaterThanEquals _ x => some (.str x.FormatRFC3339)

/-! ## Example tasks and branches -/

/-- A retrier of `States.ALL` with an interval of ten seconds, three attempts and rate 2. -/
def exampleRetry : TaskRetry :=
  (((NewTaskRetry.WithErrors ["States.ALL"]).WithInterval (10 * Second)).WithMaxAttempts 3).WithBackoffRate
    ⟨2, 0⟩

/-- The Lambda task `Work` (timeout thirty seconds, result path `$.out`, one
retrier, one catcher of `States.ALL` that leads to `Recover`, successor `Done`),
the Succeed state `Done` and the Fail state `Recover`. -/
def taskHeap : Heap 3 := fun i =>
  match i.val with
  | 0 => (NewLambdaTaskState "Work" 81).calls
      [.WithTimeout (30 * Second), .WithResultPath "$.out", .WithRetriers [exampleRetry],
        .WithCatchers [NewTaskCatch (some 2) ["States.ALL"]], .Next (some 1)]
  | 1 => NewSuccessState "Done" 82
  | _ => NewFailState "Recover" 83 "Failed" none

/-- The fields of the task `Work` of `taskHeap`. -/
def workTask : BaseTask 3 :=
  { base := { name := "Work", id := 81, next := some 1, comment := "", inputPath := "",
              outputPath := "", isEndStateInvalid := false },
    ResultPath := "$.out", TimeoutSeconds := 30 * Second, HeartbeatSeconds := 0,
    Retriers := [exampleRetry], Catchers := some [NewTaskCatch (some 2) ["States.ALL"]] }

/-- The object of the task `Work` of `taskHeap`. -/
def workObject : Json :=
  .obj [("TimeoutSeconds", .num ⟨30000000000, 9⟩), ("ResultPath", .str "$.out"),
    ("Retry", .arr []),
    ("Catch", .arr [.obj [("ErrorEquals", .arr [.str "States.ALL"]), ("Next", .str "Recover")]]),
    ("Resource", .obj [("Fn::GetAtt", .arr [.str "", .str "Arn"])]),
    ("Type", .str "Task"), ("Next", .str "Done")]

/-- The object `marshalMergedParams` gives for the task `Work` of `taskHeap`,
the resource `arn:states:run` and the parameters `{"Cluster": "c"}`. -/
def mergedObject : Json :=
  .obj [("TimeoutSeconds", .num ⟨30000000000, 9⟩), ("ResultPath", .str "$.out"),
    ("Retry", .arr []),
    ("Catch", .arr [.obj [("ErrorEquals", .arr [.str "States.ALL"]), ("Next", .str "Recover")]]),
    ("Resource", .str "arn:states:run"), ("Parameters", .obj [("Cluster", .str "c")]),
    ("Type", .str "Task"), ("Next", .str "Done")]

/-- A task whose only catcher has no target. -/
def danglingCatchTask : BaseTask 3 :=
  { workTask with Catchers := some [NewTaskCatch none ["States.ALL"]] }

/-- A second nested machine, which differs from the one of `parallelHeap`. -/
def otherMachine : StateMachine 2 :=
  { name := "other", comment := "", stateDefinitionError := none, startAt := some 0,
    uniqueStates := [("P", 0)], roleArn := none }

/-- The nested machine of the Parallel state of `parallelHeap`. -/
def branchMachine : StateMachine 2 :=
  { name := "branch", comment := "", stateDefinitionError := none, startAt := some 1,
    uniqueStates := [("Inner", 1)], roleArn := none }

/-- A Parallel state `P` with one retrier and one catcher of `States.ALL` that
leads to the Fail state `Recover`. -/
def catchHeap : Heap 2 := fun i =>
  match i.val with
  | 0 => (NewParallelState "P" 91 branchMachine).calls
      [.WithRetriers [exampleRetry], .WithCatchers [NewTaskCatch (some 1) ["States.ALL"]]]
  | _ => NewFailState "Recover" 92 "Failed" none

/-- A Succeed state whose name is the empty string. -/
def unnamedHeap : Heap 1 := fun _ => NewSuccessState "" 93

/-- The object of the Parallel state `P` of `parallelHeap`, whatever its nested machine. -/
def parallelObject : Json :=
  .obj [("Type", .str "Parallel"), ("End", .bool true)]

/-- The object of the Fail state `Recover` of `catchHeap`. -/
def recoverObject : Json :=
  .obj [("Error", .str "Failed"), ("Type", .str "Fail")]

/-- The object of the Parallel state `P` of `catchHeap`. -/
def catchObject : Json :=
  .obj [("Retry", .arr [.obj [("ErrorEquals", .arr [.str "States.ALL"]),
      ("IntervalSeconds", .num ⟨10000000000, 0⟩), ("MaxAttempts", .num ⟨3, 0⟩),
      ("BackoffRate", .num ⟨2, 0⟩)]]),
    ("Catch", .arr [.obj [("ErrorEquals", .arr [.str "States.ALL"]), ("Next", recoverObject)]]),
    ("Type", .str "Parallel"), ("End", .bool true)]

/-! ## Validation, ids, and further example graphs -/

/-- The method `StateMachine.validate`: the stored construction error, if any;
the catcher validation is a TODO comment. -/
def StateMachine.validate {n : Nat} (sm : StateMachine n) : List String :=
  let validationErrors : List String := []
  match sm.stateDefinitionError with
  | some e => validationErrors ++ [e]
  | none => validationErrors

/-- The heap in which the state object at `a` has the id `ids a`, every other
field of every object being the same. -/
def Heap.setIds {n : Nat} (h : Heap n) (ids : Fin n → Int) : Heap n :=
  fun a => (h a).mapBase (fun b => { b with id := ids a })

/-- The grammar rule for the wildcard: a catcher that names `States.ALL` names
nothing else and is the last catcher of the list. -/
def wildcardAloneAndLast {n : Nat} : List (TaskCatch n) → Bool
  | [] => true
  | c :: rest =>
    (match c.errorEquals with
      | some es => !es.contains "States.ALL" || (es == ["States.ALL"] && rest.isEmpty)
      | none => true) && wildcardAloneAndLast rest

/-- The catchers of the task of `wildHeap`: the wildcard comes first and is not alone. -/
def wildCatchers : List (TaskCatch 3) :=
  [NewTaskCatch (some 1) ["States.ALL", "States.Timeout"],
    NewTaskCatch (some 2) ["States.TaskFailed"]]

/-- The fields of the task `Work` of `wildHeap`. -/
def wildTask : BaseTask 3 :=
  { base := { name := "Work", id := 121, next := none, comment := "", inputPath := "",
              outputPath := "", isEndStateInvalid := false },
    ResultPath := "", TimeoutSeconds := 0, HeartbeatSeconds := 0,
    Retriers := [], Catchers := some wildCatchers }

/-- The Lambda task `Work` with the catchers `wildCatchers`, which lead to the
Fail state `Recover` and to the Succeed state that is also named `Recover`. -/
def wildHeap : Heap 3 := fun i =>
  match i.val with
  | 0 => .LambdaTaskState wildTask ""
  | 1 => NewFailState "Recover" 122 "Failed" none
  | _ => NewSuccessState "Recover" 123

/-- The machine `NewStateMachine` builds from the task `Work` of `wildHeap`. -/
def wildMachine : StateMachine 3 :=
  { name := "m", comment := "", stateDefinitionError := none, startAt := some 0,
    uniqueStates := [("Work", 0), ("Recover", 2)], roleArn := none }

/-- The object of the task `Work` of `wildHeap`. -/
def wildObject : Json :=
  .obj [("Catch", .arr [
      .obj [("ErrorEquals", .arr [.str "States.ALL", .str "States.Timeout"]),
        ("Next", .str "Recover")],
      .obj [("ErrorEquals", .arr [.str "States.TaskFailed"]), ("Next", .str "Recover")]]),
    ("Resource", .obj [("Fn::GetAtt", .arr [.str "", .str "Arn"])]),
    ("Type", .str "Task"), ("End", .bool true)]

/-- The nested machine of the Parallel state of `nestedHeap`. -/
def innerMachine : StateMachine 4 :=
  { name := "branch", comment := "", stateDefinitionError := none, startAt := some 3,
    uniqueStates := [("Inner", 3)], roleArn := none }

/-- The base of the Parallel state `P` of `nestedHeap`. -/
def nestedBase : baseInnerState 4 :=
  { name := "P", id := 132, next := some 2, comment := "", inputPath := "", outputPath := "",
    isEndStateInvalid := false }

/-- Pass `A` leads to the Parallel state `P`, which leads to Succeed `Done`; the
Succeed state `Inner` is in the nested machine of `P` only. -/
def nestedHeap : Heap 4 := fun i =>
  match i.val with
  | 0 => (NewPassState "A" 131 none).Next (some 1)
  | 1 => .ParallelState nestedBase innerMachine "" [] none
  | 2 => NewSuccessState "Done" 133
  | _ => NewSuccessState "Inner" 134

/-- Another nested machine for the Parallel state of `nestedHeap`. -/
def emptyMachine : StateMachine 4 :=
  { name := "none", comment := "", stateDefinitionError := none, startAt := none,
    uniqueStates := [], roleArn := none }

/-- The fields of the bare task `Raw` of `rawHeap`. -/
def rawTask : BaseTask 2 :=
  { base := { name := "Raw", id := 142, next := none, comment := "", inputPath := "",
              outputPath := "", isEndStateInvalid := false },
    ResultPath := "", TimeoutSeconds := 0, HeartbeatSeconds := 0, Retriers := [],
    Catchers := none }

/-- Pass `A` leads to the bare `BaseTask` named `Raw`. -/
def rawHeap : Heap 2 := fun i =>
  match i.val with
  | 0 => (NewPassState "A" 141 none).Next (some 1)
  | _ => .BaseTask rawTask

/-- The machine `NewStateMachine` builds from Pass `A` of `rawHeap`. -/
def rawMachine : StateMachine 2 :=
  { name := "m", comment := "", stateDefinitionError := none, startAt := some 0,
    uniqueStates := [("A", 0), ("Raw", 1)], roleArn := none }

/-- Scenario B: Pass `Start` leads to the Choice `Router`, whose one branch
(`StringEquals` on `$.x` with `go`) leads to the Lambda task `Go` and whose
default is the Fail state `Bad`. -/
def scenarioBHeap : Heap 4 := fun i =>
  match i.val with
  | 0 => (NewPassState "Start" 151 none).Next (some 1)
  | 1 => (NewChoiceState "Router" 152 [.And [.StringEquals "$.x" "go"] (some 2)]).WithDefault
      (some 3)
  | 2 => NewLambdaTaskState "Go" 153
  | _ => NewFailState "Bad" 154 "BadInput" none

/-- The object of the Choice `Router` of `scenarioBHeap`. -/
def routerObject : Json :=
  .obj [("Choices", .arr [.obj [("And", .arr [.obj [("Variable", .str "$.x"),
      ("StringEquals", .str "go")]]), ("Next", .str "Go")]]),
    ("Default", .str "Bad"), ("Type", .str "Choice")]

/-- The machine `NewStateMachine` builds from the Parallel state `P` of `catchHeap`. -/
def catchMachine : StateMachine 2 :=
  { name := "m", comment := "", stateDefinitionError := none, startAt := some 0,
    uniqueStates := [("P", 0)], roleArn := none }


/-! ## Reading an RFC3339 timestamp back -/

/-- The value of a decimal digit, as `parseUint` of `time.parseRFC3339` reads it:
none when the byte is outside `'0'..'9'`. -/
def digitValue (c : Char) : Option Nat :=
  if '0' ≤ c ∧ c ≤ '9' then some (c.toNat - '0'.toNat) else none

/-- The closure `parseUint` of `time.parseRFC3339`: the bytes as an unsigned decimal
number, which has to lie in `min..max`. -/
def parseUint (cs : List Char) (min max : Nat) : Option Nat :=
  let x := cs.foldl
    (fun acc c =>
      match acc, digitValue c with
      | some x, some d => some (x * 10 + d)
      | _, _ => none)
    (some 0)
  match x with
  | some x => if x < min ∨ max < x then none else some x
  | none => none

/-- The function `isLeap` of package `time`. -/
def isLeap (year : Int) : Bool :=
  year % 4 = 0 && (year % 100 != 0 || year % 400 = 0)

/-- The function `daysIn` of package `time`. -/
def daysIn (month : Nat) (year : Int) : Nat :=
  if month = 2 ∧ isLeap year then 29
  else
    match month with
    | 1 => 31 | 2 => 28 | 3 => 31 | 4 => 30 | 5 => 31 | 6 => 30
    | 7 => 31 | 8 => 31 | 9 => 30 | 10 => 31 | 11 => 30 | 12 => 31
    | _ => 0

/-- The day count since 1970-01-01 of a civil date, the inverse of `civilFromDays`. -/
def daysFromCivil (y : Int) (m d : Nat) : Int :=
  let y := if m ≤ 2 then y - 1 else y
  let era := y / 400
  let yoe := (y - era * 400).toNat
  let mp := if 2 < m then m - 3 else m + 9
  let doy := (153 * mp + 2) / 5 + d - 1
  let doe := yoe * 365 + yoe / 4 - yoe / 100 + doy
  era * 146097 + doe - 719468

/-- The call `time.Date(year, month, day, hour, min, sec, 0, time.UTC).Unix()` on
fields that are in range. -/
def Date (year : Int) (month day hour min sec : Nat) : Int :=
  daysFromCivil year month day * 86400 + hour * 3600 + min * 60 + sec

/-- The fractional second of `time.parseRFC3339`: a `.` followed by digits, of which
the first nine count; the nanoseconds and the text after the fraction. -/
def parseFraction (s : List Char) : Nat × List Char :=
  match s with
  | '.' :: c :: cs =>
    if (digitValue c).isSome then
      let ds := (c :: cs).takeWhile (fun c => (digitValue c).isSome)
      let rest := (c :: cs).dropWhile (fun c => (digitValue c).isSome)
      let kept := ds.take 9
      let ns := kept.foldl (fun acc c => acc * 10 + (digitValue c).getD 0) 0
      (ns * 10 ^ (9 - kept.length), rest)
    else (0, s)
  | _ => (0, s)

/-- The zone of `time.parseRFC3339`: `Z`, or a sign, two digits of hours, a colon and
two digits of minutes; the offset in seconds east of UTC. -/
def parseZone (s : List Char) : Option Int :=
  if s = ['Z'] then some 0
  else
    match s with
    | [sign, h1, h2, c3, m1, m2] =>
      match parseUint [h1, h2] 0 23, parseUint [m1, m2] 0 59 with
      | some hr, some mm =>
        if (sign = '-' ∨ sign = '+') ∧ c3 = ':' then
          let zoneOffset : Int := ((hr * 60 + mm) * 60 : Nat)
          some (if sign = '-' then -zoneOffset else zoneOffset)
        else none
      | _, _ => none
    | _ => none

/-- The function `time.parseRFC3339`, the strict reader that `time.Parse` tries first
for the layout `time.RFC3339`: an instant when the text is a well-formed timestamp. -/
def parseRFC3339 (s : String) : Option Time :=
  match s.data with
  | y1 :: y2 :: y3 :: y4 :: c4 :: m1 :: m2 :: c7 :: d1 :: d2 :: c10 :: h1 :: h2 :: c13 ::
      n1 :: n2 :: c16 :: s1 :: s2 :: rest =>
    match parseUint [y1, y2, y3, y4] 0 9999, parseUint [m1, m2] 1 12 with
    | some year, some month =>
      match parseUint [d1, d2] 1 (daysIn month year), parseUint [h1, h2] 0 23,
        parseUint [n1, n2] 0 59, parseUint [s1, s2] 0 59 with
      | some day, some hour, some min, some sec =>
        if c4 = '-' ∧ c7 = '-' ∧ c10 = 'T' ∧ c13 = ':' ∧ c16 = ':' then
          let (nsec, rest) := parseFraction rest
          match parseZone rest with
          | some zoneOffset =>
            some ⟨Date year month day hour min sec - zoneOffset, nsec, zoneOffset⟩
          | none => none
        else none
      | _, _, _, _ => none
    | _, _ => none
  | _ => none

/-- The year of an instant in its own zone (`t.Year()`). -/
def Time.Year (t : Time) : Int :=
  (civilFromDays ((t.unix + t.offset) / 86400)).1

/-- An instant half a second past a whole second, in UTC. -/
def halfSecond : Time := ⟨1700000000, 500000000, 0⟩

/-- An instant in a zone 19 minutes and 32 seconds east of UTC. -/
def localMeanTime : Time := ⟨1700000000, 0, 1172⟩

/-- The first second of the year 10000, in UTC. -/
def yearTenThousand : Time := ⟨253402300800, 0, 0⟩

/-- A whole second in a zone five and a half hours east of UTC. -/
def halfHourZone : Time := ⟨1700000000, 0, 19800⟩



/-! ## Machine builders, return values and field accessors -/

/-- The method `StateMachine.Comment`. -/
def StateMachine.Comment {n : Nat} (sm : StateMachine n) (comment : String) : StateMachine n :=
  { sm with comment := comment }

/-- The method `StateMachine.WithRoleArn`; `roleArn` is `none` for the nil interface. -/
def StateMachine.WithRoleArn {n : Nat} (sm : StateMachine n) (roleArn : Option String) :
    StateMachine n :=
  { sm with roleArn := roleArn }

/-- The value the call `Next(nextState)` returns, for the receiver at the address
`self`: the methods of `BaseTask` (which `LambdaTaskState` embeds) and of
`ParallelState` end in `return nextState`, the others in a return of the
receiver.  `ChoiceState` has no such method; the receiver stands for it. -/
def State.NextReturn {n : Nat} (s : State n) (self : Fin n) (nextState : Ref n) : Ref n :=
  match s with
  | .BaseTask _ => nextState
  | .LambdaTaskState _ _ => nextState
  | .ParallelState _ _ _ _ _ => nextState
  | _ => some self

/-- The literal each `MarshalJSON` method hands to `marshalStateJSON` as the state type. -/
def State.stateType {n : Nat} : State n → String
  | .PassState _ _ _ => "Pass"
  | .ChoiceState _ _ _ => "Choice"
  | .BaseTask _ => "Task"
  | .LambdaTaskState _ _ => "Task"
  | .WaitDelay _ _ => "Wait"
  | .WaitUntil _ _ => "Wait"
  | .WaitDynamicUntil _ _ => "Wait"
  | .SuccessState _ => "Succeed"
  | .FailState _ _ _ => "Fail"
  | .ParallelState _ _ _ _ _ => "Parallel"

/-- The field `Retriers` of a task or a Parallel state; other types have none. -/
def State.Retriers {n : Nat} : State n → List TaskRetry
  | .BaseTask t => t.Retriers
  | .LambdaTaskState t _ => t.Retriers
  | .ParallelState _ _ _ rs _ => rs
  | _ => []

/-- The field `Catchers` of a task or a Parallel state, `none` for the nil slice;
other types have none. -/
def State.Catchers {n : Nat} : State n → Option (List (TaskCatch n))
  | .BaseTask t => t.Catchers
  | .LambdaTaskState t _ => t.Catchers
  | .ParallelState _ _ _ _ cs => cs
  | _ => none

/-- Whether a state object is as the constructors and builders leave a Choice and a
Fail state: with no successor stored (`ChoiceState` has no `Next` method and
`FailState.Next` stores nothing). -/
def State.storesNoStraySuccessor {n : Nat} : State n → Bool
  | .ChoiceState b _ _ => b.next.isNone
  | .FailState b _ _ => b.next.isNone
  | _ => true

/-- Whether two decimals denote the same number. -/
def Number.sameValue (x y : Number) : Bool :=
  decide (x.mantissa * 10 ^ y.scale = y.mantissa * 10 ^ x.scale)

/-! ## Graphs with absent targets -/

/-- A Choice `C` whose only branch has no target and whose Default is unset, after
the Pass state `A`; `C` is followed by nothing.  The Lambda task `T` has no `Next`
and one catcher with no target. -/
def absentHeap : Heap 3 := fun i =>
  match i.val with
  | 0 => (NewPassState "A" 101 none).calls [.Next (some 1)]
  | 1 => NewChoiceState "C" 102 [.And [.StringEquals "$.x" "go"] none]
  | _ => (NewLambdaTaskState "T" 103).calls [.WithCatchers [NewTaskCatch none ["States.ALL"]]]

/-- The machine `NewStateMachine` builds from the state `A` of `absentHeap`. -/
def absentMachine : StateMachine 3 :=
  { name := "m", comment := "", stateDefinitionError := none, startAt := some 0,
    uniqueStates := [("A", 0), ("C", 1)], roleArn := none }

/-- The machine `NewStateMachine` builds from the task `T` of `absentHeap`. -/
def absentTaskMachine : StateMachine 3 :=
  { name := "m", comment := "", stateDefinitionError := none, startAt := some 2,
    uniqueStates := [("T", 2)], roleArn := none }

/-- The document of `chainMachine` after `Comment("demo")`. -/
def commentedDocument : Json :=
  .obj [("Comment", .str "demo"), ("StartAt", .str "A"),
    ("States", .obj [
      ("A", .obj [("Type", .str "Pass"), ("Next", .str "B")]),
      ("B", .obj [("Resource", .obj [("Fn::GetAtt", .arr [.str "", .str "Arn"])]),
        ("Type", .str "Task"), ("Next", .str "C")]),
      ("C", .obj [("Type", .str "Succeed")])])]

/-- A Pass state `A` with a comment and an input path. -/
def annotatedPass : State 1 :=
  (NewPassState "A" 104 none).calls [.WithComment "first", .WithInputPath "$.in"]

/-- The object of `annotatedPass`. -/
def annotatedPassObject : Json :=
  .obj [("Type", .str "Pass"), ("Comment", .str "first"), ("InputPath", .str "$.in"),
    ("End", .bool true)]

/-- The Choice `Router`, whose branch leads to the Lambda task `Go` and whose default
is the Fail state `Bad`; `Go` has the successor `Done` and a catcher that leads to
`Bad`. -/
def transitionHeap : Heap 4 := fun i =>
  match i.val with
  | 0 => (NewChoiceState "Router" 111 [.And [.StringEquals "$.x" "go"] (some 1)]).calls
      [.WithDefault (some 3)]
  | 1 => (NewLambdaTaskState "Go" 112).calls
      [.WithCatchers [NewTaskCatch (some 3) ["States.ALL"]], .Next (some 2)]
  | 2 => NewSuccessState "Done" 113
  | _ => NewFailState "Bad" 114 "BadInput" none

/-- The machine `NewStateMachine` builds from the state `Router` of `transitionHeap`. -/
def transitionMachine : StateMachine 4 :=
  { name := "m", comment := "", stateDefinitionError := none, startAt := some 0,
    uniqueStates := [("Router", 0), ("Go", 1), ("Bad", 3), ("Done", 2)], roleArn := none }

/-- The chain `A → X → X → Y`: the second and the third state share the name `X`. -/
def hiddenHeap : Heap 4 := fun i =>
  match i.val with
  | 0 => (NewPassState "A" 121 none).Next (some 1)
  | 1 => (NewPassState "X" 122 none).Next (some 2)
  | 2 => (NewPassState "X" 123 none).Next (some 3)
  | _ => NewSuccessState "Y" 124

/-- The machine `NewStateMachine` builds from the state `A` of `convergingHeap`. -/
def convergingMachine : StateMachine 3 :=
  { name := "m", comment := "", stateDefinitionError := none, startAt := some 0,
    uniqueStates := [("A", 0), ("C", 1), ("T", 2)], roleArn := none }

/-- Two catchers: the first names two errors and leads to `Recover`, the second
names `States.ALL` and leads to `Done`. -/
def orderedCatchers : List (TaskCatch 3) :=
  [NewTaskCatch (some 2) ["States.Timeout", "States.TaskFailed"],
    NewTaskCatch (some 1) ["States.ALL"]]

/-- The task `Work` of `taskHeap` with the catchers `orderedCatchers`. -/
def orderedTask : BaseTask 3 :=
  { workTask with Catchers := some orderedCatchers }

/-- The object of the Lambda task `orderedTask`. -/
def orderedObject : Json :=
  .obj [("TimeoutSeconds", .num ⟨30000000000, 9⟩), ("ResultPath", .str "$.out"),
    ("Retry", .arr []),
    ("Catch", .arr [
      .obj [("ErrorEquals", .arr [.str "States.Timeout", .str "States.TaskFailed"]),
        ("Next", .str "Recover")],
      .obj [("ErrorEquals", .arr [.str "States.ALL"]), ("Next", .str "Done")]]),
    ("Resource", .obj [("Fn::GetAtt", .arr [.str "", .str "Arn"])]),
    ("Type", .str "Task"), ("Next", .str "Done")]

/-- The parameters `{"Cluster": "c", "Count": 9007199254740993}`; the count is
`2 ^ 53 + 1`, which no `float64` holds. -/
def countedParams : Json :=
  .obj [("Cluster", .str "c"), ("Count", .num ⟨9007199254740993, 0⟩)]

/-- The parameters `{"n": 1e400}` (the number a `json.Number`): an object whose
number is out of the range of `float64`. -/
def hugeParams : Json :=
  .obj [("n", .num ⟨10 ^ 400, 0⟩)]

/-- The object `marshalMergedParams` gives for the task `Work` of `taskHeap`, the
resource `arn:states:run` and the parameters `countedParams`. -/
def countedObject : Json :=
  .obj [("TimeoutSeconds", .num ⟨30000000000, 9⟩), ("ResultPath", .str "$.out"),
    ("Retry", .arr []),
    ("Catch", .arr [.obj [("ErrorEquals", .arr [.str "States.ALL"]), ("Next", .str "Recover")]]),
    ("Resource", .str "arn:states:run"),
    ("Parameters", .obj [("Cluster", .str "c"), ("Count", .num ⟨9007199254740992, 0⟩)]),
    ("Type", .str "Task"), ("Next", .str "Done")]

/-! ## The description graph (`describe.go`) -/

/-- The struct `cytoscapeData`. -/
structure cytoscapeData where
  ID : String
  Image : String
  BackgroundColor : String
  Source : String
  Target : String
  Label : String
  DegreeCentrality : Int
  deriving DecidableEq, Repr

/-- The struct `cytoscapeNode`. -/
structure cytoscapeNode where
  Data : cytoscapeData
  Classes : String
  deriving DecidableEq, Repr

/-- The struct `templateResource`. -/
structure templateResource where
  KeyName : String
  Data : String
  deriving DecidableEq, Repr

/-- What `describe.go` calls outside of itself: `sha1Hex` is the hexadecimal SHA-1
digest of the bytes `json.Marshal` gives for a value, `base64` is
`base64.StdEncoding.EncodeToString`, and `files` is the embedded file system read
by `_escFSString` (`none` when the read fails). -/
structure Outside where
  sha1Hex : Json → String
  base64 : String → String
  files : String → Option String

/-- The function `cytoscapeNodeID`: the digest of the JSON encoding of the value. -/
def cytoscapeNodeID (env : Outside) (rawData : Option Value) : Except Err String :=
  match Value.Marshal rawData with
  | .error bytesErr => .error bytesErr
  | .ok bytes => .ok (env.sha1Hex bytes)

/-- The call `strings.TrimLeft(s, cutset)` for a cutset of one character. -/
def trimLeft (s : String) (c : Char) : String :=
  String.mk (s.data.dropWhile (fun x => x == c))

/-- The call `strings.Trim(s, cutset)` for a cutset of one character. -/
def trim (s : String) (c : Char) : String :=
  String.mk ((s.data.dropWhile (fun x => x == c)).reverse.dropWhile (fun x => x == c)).reverse

/-- The function `templateResourceForKey`; the log entries are left out. -/
def templateResourceForKey (env : Outside) (resourceKeyName : String) :
    Option templateResource :=
  let resourcePath := "/resources/describe/" ++ trimLeft resourceKeyName '/'
  match env.files resourcePath with
  | some data =>
    let keyParts := resourcePath.splitOn "/"
    some { KeyName := keyParts.getLast?.getD "", Data := data }
  | none => none

/-- The function `writeNode`: the slice `*nodes` after the call, or the error.  The
label is the name with the double quotes (character 34) trimmed; `nodeColor` is not
used by the function. -/
def writeNode (env : Outside) (nodes : List cytoscapeNode) (nodeName : String)
    (nodeColor : String) (nodeImage : String) : Except Err (List cytoscapeNode) :=
  match cytoscapeNodeID env (some (.json (.str nodeName))) with
  | .error _ => .error (.error ("Failed to create nodeID for entry: " ++ nodeName))
  | .ok nodeID =>
    let appendNode : cytoscapeNode :=
      { Data := { ID := nodeID, Image := "", BackgroundColor := "", Source := "", Target := "",
                  Label := trim nodeName (Char.ofNat 34), DegreeCentrality := 0 },
        Classes := "" }
    let appendNode : cytoscapeNode :=
      if nodeImage ≠ "" then
        match templateResourceForKey env nodeImage with
        | some resourceItem =>
          { appendNode with Data := { appendNode.Data with
              Image := "data:image/svg+xml;base64," ++ env.base64 resourceItem.Data } }
        | none => appendNode
      else appendNode
    .ok (nodes ++ [appendNode])

/-- The function `writeLink`: the slice `*nodes` after the call, or the error;
`random` is the value of `rand.Uint64()`.  When the id of `toNode` fails the
function wraps `nodeSourceErr`, which is nil there, and `errors.Wrapf(nil, ...)`
is nil: it returns no error and appends nothing. -/
def writeLink (env : Outside) (nodes : List cytoscapeNode) (fromNode : String)
    (toNode : String) (label : String) (random : Nat) : Except Err (List cytoscapeNode) :=
  match cytoscapeNodeID env (some (.json (.str fromNode))) with
  | .error _ => .error (.error ("Failed to create nodeID for entry: " ++ fromNode))
  | .ok nodeSource =>
    match cytoscapeNodeID env (some (.json (.str toNode))) with
    | .error _ => .ok nodes
    | .ok nodeTarget =>
      .ok (nodes ++ [{ Data := { ID := toString random, Image := "", BackgroundColor := "",
                                 Source := nodeSource, Target := nodeTarget, Label := label,
                                 DegreeCentrality := 0 },
                       Classes := "" }])


/-! ## Maps -/

theorem GoMap.get?_set {α : Type} (m : GoMap α) (k k1 : String) (v : α) :
    (m.set k v).get? k1 = if k = k1 then some v else m.get? k1 := by
  induction m with
  | nil => simp [GoMap.set, GoMap.get?]
  | cons kv rest ih =>
    obtain ⟨k0, v0⟩ := kv
    by_cases h0 : k0 = k
    · subst h0
      by_cases h1 : k0 = k1 <;> simp [GoMap.set, GoMap.get?, h1]
    · by_cases h1 : k0 = k1
      · subst h1
        have : ¬ k = k0 := fun e => h0 e.symm
        simp [GoMap.set, GoMap.get?, h0, this]
      · simp [GoMap.set, GoMap.get?, h0, h1, ih]

theorem GoMap.get?_isSome_iff {α : Type} (m : GoMap α) (k : String) :
    (m.get? k).isSome = true ↔ k ∈ m.keys := by
  induction m with
  | nil => simp [GoMap.get?, GoMap.keys]
  | cons kv rest ih =>
    obtain ⟨k0, v0⟩ := kv
    by_cases h0 : k0 = k
    · subst h0
      simp [GoMap.get?, GoMap.keys]
    · have : ¬ k = k0 := fun e => h0 e.symm
      simp only [GoMap.keys] at ih
      simp [GoMap.get?, GoMap.keys, h0, this, ih]

theorem GoMap.keys_set_of_mem {α : Type} (m : GoMap α) (k : String) (v : α)
    (hk : k ∈ m.keys) : (m.set k v).keys = m.keys := by
  induction m with
  | nil => simp [GoMap.keys] at hk
  | cons kv rest ih =>
    obtain ⟨k0, v0⟩ := kv
    by_cases h0 : k0 = k
    · subst h0
      simp [GoMap.set, GoMap.keys]
    · have hk1 : k ∈ GoMap.keys rest := by
        simp only [GoMap.keys, List.map_cons, List.mem_cons] at hk
        rcases hk with e | e
        · exact absurd e.symm h0
        · exact e
      have := ih hk1
      simp only [GoMap.keys] at this
      simp [GoMap.set, GoMap.keys, h0, this]

theorem GoMap.keys_set_of_not_mem {α : Type} (m : GoMap α) (k : String) (v : α)
    (hk : k ∉ m.keys) : (m.set k v).keys = m.keys ++ [k] := by
  induction m with
  | nil => simp [GoMap.set, GoMap.keys]
  | cons kv rest ih =>
    obtain ⟨k0, v0⟩ := kv
    have h0 : ¬ k0 = k := by
      intro e
      apply hk
      simp [GoMap.keys, e]
    have hk1 : k ∉ GoMap.keys rest := by
      intro e
      apply hk
      simp only [GoMap.keys, List.map_cons, List.mem_cons]
      exact Or.inr e
    have := ih hk1
    simp only [GoMap.keys] at this
    simp [GoMap.set, GoMap.keys, h0, this]

theorem GoMap.mem_keys_set {α : Type} (m : GoMap α) (k k1 : String) (v : α) :
    k1 ∈ (m.set k v).keys ↔ k1 = k ∨ k1 ∈ m.keys := by
  by_cases hk : k ∈ m.keys
  · rw [GoMap.keys_set_of_mem m k v hk]
    constructor
    · exact Or.inr
    · rintro (e | e)
      · exact e ▸ hk
      · exact e
  · rw [GoMap.keys_set_of_not_mem m k v hk]
    simp [or_comm]

theorem GoMap.nodup_keys_set {α : Type} (m : GoMap α) (k : String) (v : α)
    (hm : m.keys.Nodup) : (m.set k v).keys.Nodup := by
  by_cases hk : k ∈ m.keys
  · rw [GoMap.keys_set_of_mem m k v hk]
    exact hm
  · rw [GoMap.keys_set_of_not_mem m k v hk]
    exact List.Nodup.append hm (List.nodup_singleton k) (by simpa using hk)

theorem GoMap.mem_set {α : Type} (m : GoMap α) (k : String) (v : α) (kv : String × α)
    (hkv : kv ∈ m.set k v) : kv = (k, v) ∨ kv ∈ m := by
  induction m with
  | nil =>
    simp [GoMap.set] at hkv
    exact Or.inl hkv
  | cons kv0 rest ih =>
    obtain ⟨k0, v0⟩ := kv0
    by_cases h0 : k0 = k
    · subst h0
      simp only [GoMap.set, if_true, List.mem_cons] at hkv
      rcases hkv with e | e
      · exact Or.inl e
      · exact Or.inr (List.mem_cons_of_mem _ e)
    · simp only [GoMap.set, h0, if_false, List.mem_cons] at hkv
      rcases hkv with e | e
      · exact Or.inr (e ▸ List.mem_cons_self _ _)
      · rcases ih e with e1 | e1
        · exact Or.inl e1
        · exact Or.inr (List.mem_cons_of_mem _ e1)

/-! ## The traversal -/

theorem GoMap.get?_of_mem {α : Type} (m : GoMap α) (hm : m.keys.Nodup) (k : String) (v : α)
    (hkv : (k, v) ∈ m) : m.get? k = some v := by
  induction m with
  | nil => cases hkv
  | cons kv0 rest ih =>
    obtain ⟨k0, v0⟩ := kv0
    simp only [GoMap.keys, List.map_cons, List.nodup_cons] at hm
    rcases List.mem_cons.1 hkv with e | e
    · cases e
      simp [GoMap.get?]
    · have hne : k0 ≠ k := by
        intro e2
        subst e2
        exact hm.1 (List.mem_map.2 ⟨(k0, v), e, rfl⟩)
      simp only [GoMap.get?, hne, if_false]
      exact ih hm.2 e

theorem nodeVisited_iff {n : Nat} (h : Heap n) (u : GoMap (Fin n)) (a : Fin n) :
    nodeVisited h u (some a) = true ↔ h.Name a ∈ u.keys := by
  simp [nodeVisited, GoMap.get?_isSome_iff]

theorem appendUnvisited_append {n : Nat} (h : Heap n) (u : GoMap (Fin n))
    (tl acc : List (Fin n)) (node : Ref n) :
    appendUnvisited h u (tl ++ acc) node = tl ++ appendUnvisited h u acc node := by
  cases node with
  | none => rfl
  | some a =>
    simp only [appendUnvisited]
    split <;> simp

theorem foldl_appendUnvisited {n : Nat} (h : Heap n) (u : GoMap (Fin n))
    (nodes : List (Ref n)) (tl acc : List (Fin n)) :
    nodes.foldl (appendUnvisited h u) (tl ++ acc) =
      tl ++ nodes.foldl (appendUnvisited h u) acc := by
  induction nodes generalizing acc with
  | nil => rfl
  | cons r rest ih =>
    simp only [List.foldl_cons]
    rw [appendUnvisited_append, ih]

theorem mem_foldl_appendUnvisited {n : Nat} (h : Heap n) (u : GoMap (Fin n))
    (nodes : List (Ref n)) (acc : List (Fin n)) (a : Fin n) :
    a ∈ nodes.foldl (appendUnvisited h u) acc ↔
      a ∈ acc ∨ (some a ∈ nodes ∧ nodeVisited h u (some a) = false) := by
  induction nodes generalizing acc with
  | nil => simp
  | cons r rest ih =>
    simp only [List.foldl_cons, ih, List.mem_cons]
    cases r with
    | none => simp [appendUnvisited]
    | some b =>
      simp only [appendUnvisited]
      by_cases hb : nodeVisited h u (some b) = true
      · simp only [hb, if_true, Option.some.injEq]
        constructor
        · rintro (e | e)
          · exact Or.inl e
          · exact Or.inr ⟨Or.inr e.1, e.2⟩
        · rintro (e | ⟨e | e, e2⟩)
          · exact Or.inl e
          · subst e
            rw [hb] at e2
            cases e2
          · exact Or.inr ⟨e, e2⟩
      · have hb1 : nodeVisited h u (some b) = false := by simpa using hb
        simp only [hb1, Bool.false_eq_true, if_false, List.mem_append, List.mem_singleton,
          Option.some.injEq]
        constructor
        · rintro ((e | e) | e)
          · exact Or.inl e
          · subst e
            exact Or.inr ⟨Or.inl rfl, hb1⟩
          · exact Or.inr ⟨Or.inr e.1, e.2⟩
        · rintro (e | ⟨e | e, e2⟩)
          · exact Or.inl (Or.inl e)
          · exact Or.inl (Or.inr e)
          · exact Or.inr ⟨e, e2⟩

theorem visit_eq {n : Nat} (h : Heap n) (u : GoMap (Fin n)) (hd : Fin n) (tl : List (Fin n)) :
    visit h u hd tl =
      (u.set (h.Name hd) hd,
        tl ++ (successors h hd).foldl (appendUnvisited h (u.set (h.Name hd) hd)) []) := by
  have key : ∀ nodes : List (Ref n),
      nodes.foldl (appendUnvisited h (u.set (h.Name hd) hd)) tl =
        tl ++ nodes.foldl (appendUnvisited h (u.set (h.Name hd) hd)) [] := by
    intro nodes
    simpa using foldl_appendUnvisited h (u.set (h.Name hd) hd) nodes tl []
  unfold visit successors
  cases hs : h hd <;> simp only [] <;> try (rw [key])
  rename_i b choices dflt
  rw [← key, List.foldl_append, List.foldl_map]
  rfl

theorem nodeVisited_set {n : Nat} (h : Heap n) (u : GoMap (Fin n)) (hd a : Fin n) :
    nodeVisited h (u.set (h.Name hd) hd) (some a) = true ↔
      h.Name a = h.Name hd ∨ nodeVisited h u (some a) = true := by
  rw [nodeVisited_iff, nodeVisited_iff, GoMap.mem_keys_set]

theorem nodeVisited_set_of_visited {n : Nat} (h : Heap n) (u : GoMap (Fin n)) (hd : Fin n)
    (hv : nodeVisited h u (some hd) = true) (a : Fin n) :
    nodeVisited h (u.set (h.Name hd) hd) (some a) = nodeVisited h u (some a) := by
  have hk : (u.set (h.Name hd) hd).keys = u.keys :=
    GoMap.keys_set_of_mem u _ hd ((nodeVisited_iff h u hd).1 hv)
  have e : nodeVisited h (u.set (h.Name hd) hd) (some a) = true ↔
      nodeVisited h u (some a) = true := by
    rw [nodeVisited_iff, nodeVisited_iff, hk]
  cases h1 : nodeVisited h (u.set (h.Name hd) hd) (some a) <;>
    cases h2 : nodeVisited h u (some a) <;> simp_all

theorem unvisitedCount_lt {n : Nat} (h : Heap n) (u : GoMap (Fin n)) (hd : Fin n)
    (hv : nodeVisited h u (some hd) = false) :
    unvisitedCount h (u.set (h.Name hd) hd) < unvisitedCount h u := by
  unfold unvisitedCount
  apply Finset.card_lt_card
  rw [Finset.ssubset_iff_of_subset]
  · refine ⟨hd, by simp [hv], ?_⟩
    simp only [Finset.mem_filter, Finset.mem_univ, true_and]
    have : nodeVisited h (u.set (h.Name hd) hd) (some hd) = true :=
      (nodeVisited_set h u hd hd).2 (Or.inl rfl)
    simp [this]
  · intro a
    simp only [Finset.mem_filter, Finset.mem_univ, true_and]
    intro ha
    cases h2 : nodeVisited h u (some a)
    · rfl
    · have := (nodeVisited_set h u hd a).2 (Or.inr h2)
      rw [this] at ha
      cases ha

theorem unvisitedCount_eq {n : Nat} (h : Heap n) (u : GoMap (Fin n)) (hd : Fin n)
    (hv : nodeVisited h u (some hd) = true) :
    unvisitedCount h (u.set (h.Name hd) hd) = unvisitedCount h u := by
  unfold unvisitedCount
  congr 1
  ext a
  simp [nodeVisited_set_of_visited h u hd hv a]

theorem takeWhile_append_of_all_false {α : Type} (p : α → Bool) (xs ys : List α)
    (hys : ∀ y ∈ ys, p y = false) : (xs ++ ys).takeWhile p = xs.takeWhile p := by
  induction xs with
  | nil =>
    cases ys with
    | nil => rfl
    | cons y rest => simp [List.takeWhile, hys y (List.mem_cons_self _ _)]
  | cons x rest ih =>
    simp only [List.cons_append, List.takeWhile_cons, ih]

theorem visitedRun_lt {n : Nat} (h : Heap n) (u : GoMap (Fin n)) (hd : Fin n)
    (tl : List (Fin n)) (hv : nodeVisited h u (some hd) = true) :
    visitedRun h (visit h u hd tl).1 (visit h u hd tl).2 < visitedRun h u (hd :: tl) := by
  rw [visit_eq]
  simp only [visitedRun]
  have hf : (fun a => nodeVisited h (u.set (h.Name hd) hd) (some a)) =
      (fun a => nodeVisited h u (some a)) := by
    funext a
    exact nodeVisited_set_of_visited h u hd hv a
  rw [takeWhile_append_of_all_false]
  · rw [hf]
    simp [List.takeWhile_cons, hv]
  · intro a ha
    exact ((mem_foldl_appendUnvisited h _ _ [] a).1 ha).resolve_left (by simp) |>.2

theorem traverse_terminates {n : Nat} (h : Heap n) (u : GoMap (Fin n)) (q : List (Fin n)) :
    ∃ fuel t, traverse h fuel u q = some t := by
  suffices H : ∀ N p (u : GoMap (Fin n)) (q : List (Fin n)), unvisitedCount h u = N →
      visitedRun h u q = p → ∃ fuel t, traverse h fuel u q = some t from H _ _ u q rfl rfl
  intro N
  induction N using Nat.strong_induction_on with
  | _ N ihN =>
    intro p
    induction p using Nat.strong_induction_on with
    | _ p ihp =>
      intro u q hN hp
      cases q with
      | nil => exact ⟨0, u, by simp [traverse]⟩
      | cons hd tl =>
        have step : ∀ fuel t, traverse h fuel (visit h u hd tl).1 (visit h u hd tl).2 = some t →
            traverse h (fuel + 1) u (hd :: tl) = some t := by
          intro fuel t ht
          simpa [traverse] using ht
        cases hv : nodeVisited h u (some hd)
        · have hlt : unvisitedCount h (visit h u hd tl).1 < N := by
            rw [visit_eq, ← hN]
            exact unvisitedCount_lt h u hd hv
          obtain ⟨fuel, t, ht⟩ := ihN _ hlt _ _ _ rfl rfl
          exact ⟨fuel + 1, t, step fuel t ht⟩
        · have heq : unvisitedCount h (visit h u hd tl).1 = N := by
            rw [visit_eq, ← hN]
            exact unvisitedCount_eq h u hd hv
          have hlt : visitedRun h (visit h u hd tl).1 (visit h u hd tl).2 < p := by
            rw [← hp]
            exact visitedRun_lt h u hd tl hv
          obtain ⟨fuel, t, ht⟩ := ihp _ hlt _ _ heq rfl
          exact ⟨fuel + 1, t, step fuel t ht⟩

theorem traverse_mono {n : Nat} (h : Heap n) (fuel : Nat) (u : GoMap (Fin n))
    (q : List (Fin n)) (t : GoMap (Fin n)) (ht : traverse h fuel u q = some t) (k : Nat) :
    traverse h (fuel + k) u q = some t := by
  induction fuel generalizing u q with
  | zero =>
    cases q with
    | nil =>
      simp only [traverse] at ht ⊢
      exact ht
    | cons hd tl => simp [traverse] at ht
  | succ fuel ih =>
    cases q with
    | nil =>
      simp only [traverse] at ht ⊢
      exact ht
    | cons hd tl =>
      have e : fuel + 1 + k = (fuel + k) + 1 := by omega
      rw [e]
      simp only [traverse] at ht ⊢
      exact ih _ _ ht

theorem TraversalInv.init {n : Nat} (h : Heap n) (start : Fin n) :
    TraversalInv h start [] [start] where
  entries := by
    intro k a hk
    simp [GoMap.get?] at hk
  pending := by
    intro a ha
    rw [List.mem_singleton] at ha
    exact ha ▸ Reachable.start
  startSeen := Or.inr (List.mem_singleton.2 rfl)
  closed := by
    intro a ha
    simp [GoMap.get?] at ha
  nodup := by simp [GoMap.keys]

theorem TraversalInv.visit {n : Nat} (h : Heap n) (start : Fin n) (u : GoMap (Fin n))
    (hd : Fin n) (tl : List (Fin n)) (inv : TraversalInv h start u (hd :: tl)) :
    TraversalInv h start (visit h u hd tl).1 (visit h u hd tl).2 := by
  have hhd : Reachable h start hd := inv.pending hd (List.mem_cons_self _ _)
  have grow : ∀ k, (u.get? k).isSome = true →
      ((u.set (h.Name hd) hd).get? k).isSome = true := by
    intro k hk
    rw [GoMap.get?_set]
    split
    · rfl
    · exact hk
  have self : ((u.set (h.Name hd) hd).get? (h.Name hd)).isSome = true := by
    rw [GoMap.get?_set]
    simp
  rw [visit_eq]
  refine ⟨?_, ?_, ?_, ?_, ?_⟩
  · intro k a hk
    rw [GoMap.get?_set] at hk
    split at hk
    · rename_i e
      cases hk
      exact ⟨e, hhd⟩
    · exact inv.entries k a hk
  · intro a ha
    rcases List.mem_append.1 ha with e | e
    · exact inv.pending a (List.mem_cons_of_mem _ e)
    · have := ((mem_foldl_appendUnvisited h _ _ [] a).1 e).resolve_left (by simp)
      exact Reachable.step hhd this.1
  · rcases inv.startSeen with e | e
    · exact Or.inl (grow _ e)
    · rcases List.mem_cons.1 e with e1 | e1
      · exact Or.inl (e1 ▸ self)
      · exact Or.inr (List.mem_append_left _ e1)
  · intro a ha b hb
    have old : (u.get? (h.Name b)).isSome = true ∨ b ∈ hd :: tl →
        ((u.set (h.Name hd) hd).get? (h.Name b)).isSome = true ∨
          b ∈ tl ++ (successors h hd).foldl (appendUnvisited h (u.set (h.Name hd) hd)) [] := by
      rintro (e | e)
      · exact Or.inl (grow _ e)
      · rcases List.mem_cons.1 e with e1 | e1
        · exact Or.inl (e1 ▸ self)
        · exact Or.inr (List.mem_append_left _ e1)
    rw [GoMap.get?_set] at ha
    split at ha
    · cases ha
      cases hv : nodeVisited h (u.set (h.Name hd) hd) (some b)
      · refine Or.inr (List.mem_append_right _ ?_)
        exact (mem_foldl_appendUnvisited h _ _ [] b).2 (Or.inr ⟨hb, hv⟩)
      · exact Or.inl (by simpa [nodeVisited] using hv)
    · exact old (inv.closed a ha b hb)
  · exact GoMap.nodup_keys_set u _ hd inv.nodup

theorem TraversalInv.traverse {n : Nat} (h : Heap n) (start : Fin n) (fuel : Nat)
    (u : GoMap (Fin n)) (q : List (Fin n)) (t : GoMap (Fin n))
    (inv : TraversalInv h start u q) (ht : traverse h fuel u q = some t) :
    TraversalInv h start t [] := by
  induction fuel generalizing u q with
  | zero =>
    cases q with
    | nil =>
      simp only [Step.traverse, Option.some.injEq] at ht
      exact ht ▸ inv
    | cons hd tl => simp [Step.traverse] at ht
  | succ fuel ih =>
    cases q with
    | nil =>
      simp only [Step.traverse, Option.some.injEq] at ht
      exact ht ▸ inv
    | cons hd tl =>
      simp only [Step.traverse] at ht
      exact ih _ _ (TraversalInv.visit h start u hd tl inv) ht

theorem TraversalInv.mem_keys_iff {n : Nat} (h : Heap n) (start : Fin n) (t : GoMap (Fin n))
    (inv : TraversalInv h start t [])
    (hdistinct : ∀ a b, Reachable h start a → Reachable h start b → h.Name a = h.Name b → a = b)
    (k : String) : k ∈ t.keys ↔ ∃ a, Reachable h start a ∧ h.Name a = k := by
  have found : ∀ b, Reachable h start b → (t.get? (h.Name b)).isSome = true →
      t.get? (h.Name b) = some b := by
    intro b hb hsome
    obtain ⟨c, hc⟩ := Option.isSome_iff_exists.1 hsome
    have := inv.entries _ _ hc
    rw [hc, hdistinct c b this.2 hb this.1]
  have all : ∀ a, Reachable h start a → t.get? (h.Name a) = some a := by
    intro a ha
    induction ha with
    | start => exact found start Reachable.start (inv.startSeen.resolve_right (by simp))
    | step ha hb ih =>
      exact found _ (Reachable.step ha hb) ((inv.closed _ ih _ hb).resolve_right (by simp))
  constructor
  · intro hk
    obtain ⟨a, ha⟩ := Option.isSome_iff_exists.1 ((GoMap.get?_isSome_iff t k).2 hk)
    exact ⟨a, (inv.entries k a ha).2, (inv.entries k a ha).1⟩
  · rintro ⟨a, ha, rfl⟩
    exact (GoMap.get?_isSome_iff t _).1 (by rw [all a ha]; rfl)

theorem NewStateMachine_eq_some {n : Nat} (h : Heap n) (fuel : Nat) (name : String)
    (start : Fin n) (sm : StateMachine n) (hsm : NewStateMachine h fuel name start = some sm) :
    traverse h fuel [] [start] = some sm.uniqueStates ∧ sm.startAt = some start ∧
      sm.comment = "" ∧ sm.name = name := by
  unfold NewStateMachine at hsm
  cases ht : traverse h fuel [] [start] with
  | none => simp [ht] at hsm
  | some t =>
    simp only [ht, Option.some.injEq] at hsm
    subst hsm
    exact ⟨rfl, rfl, rfl, rfl⟩

theorem NewStateMachine_terminates {n : Nat} (h : Heap n) (name : String) (start : Fin n) :
    ∃ fuel sm, ∀ k, NewStateMachine h (fuel + k) name start = some sm := by
  obtain ⟨fuel, t, ht⟩ := traverse_terminates h [] [start]
  refine ⟨fuel, (⟨name, "", none, some start, t, none⟩ : StateMachine n), fun k => ?_⟩
  unfold NewStateMachine
  rw [traverse_mono h fuel [] [start] t ht k]
  rfl

theorem mapE_keys {α : Type} (f : α → Except Err Json) (m : GoMap α) (states : GoMap Json)
    (hm : mapE (fun (kv : String × α) => do
      let j ← f kv.2
      pure (kv.1, j)) m = .ok states) : GoMap.keys states = GoMap.keys m := by
  induction m generalizing states with
  | nil =>
    simp only [mapE, Except.ok.injEq] at hm
    subst hm
    rfl
  | cons kv rest ih =>
    unfold mapE at hm
    cases hf : f kv.2 with
    | error e =>
      simp only [hf, bind, Except.bind] at hm
      cases hm
    | ok j =>
      simp only [hf, bind, Except.bind, pure, Except.pure] at hm
      split at hm
      · cases hm
      · rename_i ys hr
        simp only [Except.ok.injEq] at hm
        subst hm
        have := ih ys hr
        simp only [GoMap.keys] at this
        simp [GoMap.keys, this]

/-- The loop with a bound on its iterations gives the table that `run` reaches,
when the worklist of `run` is empty after that many iterations. -/
theorem traverse_eq_run {n : Nat} (h : Heap n) (fuel : Nat) (u : GoMap (Fin n))
    (q : List (Fin n)) :
    traverse h fuel u q =
      if (run h fuel (u, q)).2 = [] then some (run h fuel (u, q)).1 else none := by
  induction fuel generalizing u q with
  | zero => cases q <;> simp [traverse, run]
  | succ fuel ih =>
    cases q with
    | nil => simp [traverse, run]
    | cons hd tl =>
      simp only [traverse, run]
      exact ih _ _

/-- The traversal of a two-state cycle and of a self-loop ends after one
iteration per state. -/
theorem cyclicHeap_traversal :
    traverse cyclicHeap 2 [] [0] = some [("A", 0), ("B", 1)] ∧
    traverse cyclicHeap 1 [] [2] = some [("L", 2)] := by
  decide

/-! ## Serialization lemmas -/

/-- The members of the object `marshalStateJSON` returns, key by key. -/
theorem marshalStateJSON_get? {n : Nat} (h : Heap n) (bis : baseInnerState n)
    (stateType : String) (data : Option (GoMap Json)) :
    ∃ d, bis.marshalStateJSON h stateType data = .ok (.obj d) ∧ ∀ k, GoMap.get? d k =
      if "End" = k ∧ bis.isEndStateInvalid = false ∧ bis.next = none then some (.bool true)
      else if "OutputPath" = k ∧ bis.outputPath ≠ "" then some (.str bis.outputPath)
      else if "InputPath" = k ∧ bis.inputPath ≠ "" then some (.str bis.inputPath)
      else if "Comment" = k ∧ bis.comment ≠ "" then some (.str bis.comment)
      else if "Next" = k ∧ bis.next ≠ none then bis.next.map (fun a => Json.str (h.Name a))
      else if "Type" = k then some (.str stateType)
      else GoMap.get? (data.getD []) k := by
  refine ⟨_, rfl, fun k => ?_⟩
  cases hdat : data <;> cases hn : bis.next <;> cases he : bis.isEndStateInvalid <;>
    by_cases hc : bis.comment = "" <;> by_cases hi : bis.inputPath = "" <;>
    by_cases ho : bis.outputPath = "" <;>
    simp only [baseInnerState.marshalStateJSON, GoMap.get?_set, hc, hi, ho, hn, he, GoMap.get?,
      Option.getD, Option.isNone, Option.map, ne_eq, not_true_eq_false, not_false_eq_true,
      if_true, if_false, Bool.not_false, Bool.not_true, Bool.and_true, Bool.and_false,
      Bool.true_and, Bool.false_and, and_true, and_false, Bool.false_eq_true,
      reduceCtorEq] <;>
    split_ifs <;> first | rfl | (subst_vars; simp_all)

theorem additionalParams_get? {n : Nat} (h : Heap n) (bt : BaseTask n) (p : GoMap Json)
    (hp : bt.additionalParams h = .ok p) (k : String)
    (hk : k ∉ ["TimeoutSeconds", "HeartbeatSeconds", "ResultPath", "Retry", "Catch"]) :
    GoMap.get? p k = none := by
  simp only [List.mem_cons, List.mem_singleton, List.not_mem_nil, or_false, not_or] at hk
  obtain ⟨h1, h2, h3, h4, h5⟩ := hk
  have h1 : ¬ "TimeoutSeconds" = k := fun e => h1 e.symm
  have h2 : ¬ "HeartbeatSeconds" = k := fun e => h2 e.symm
  have h3 : ¬ "ResultPath" = k := fun e => h3 e.symm
  have h4 : ¬ "Retry" = k := fun e => h4 e.symm
  have h5 : ¬ "Catch" = k := fun e => h5 e.symm
  unfold BaseTask.additionalParams at hp
  simp only [bind, Except.bind, pure, Except.pure] at hp
  split at hp
  · simp only [Except.ok.injEq] at hp
    subst hp
    split_ifs <;> simp [GoMap.get?_set, GoMap.get?, h1, h2, h3, h4]
  · split at hp
    · cases hp
    · simp only [Except.ok.injEq] at hp
      subst hp
      split_ifs <;> simp [GoMap.get?_set, GoMap.get?, h1, h2, h3, h4, h5]

/-- Every `MarshalJSON` that succeeds ends in `marshalStateJSON`, called with
additional data that has none of the members `marshalStateJSON` writes. -/
theorem marshalWith_ok {n : Nat} (h : Heap n) (ms : Fin n → Except Err Json) (s : State n)
    (out : Json) (hout : s.marshalWith h ms = .ok out) :
    ∃ stateType data, s.base.marshalStateJSON h stateType data = .ok out ∧
      ∀ k ∈ ["Type", "Next", "End", "Comment", "InputPath", "OutputPath"],
        GoMap.get? (data.getD []) k = none := by
  cases s with
  | PassState b rp r =>
    cases r with
    | none =>
      simp only [State.marshalWith, bind, Except.bind, pure, Except.pure] at hout
      refine ⟨_, _, hout, ?_⟩
      intro k hk
      simp only [List.mem_cons, List.mem_singleton, List.not_mem_nil, or_false] at hk
      rcases hk with rfl | rfl | rfl | rfl | rfl | rfl <;>
        split_ifs <;> simp [GoMap.get?_set, GoMap.get?]
    | some v =>
      cases hv : Value.Marshal (some v) with
      | error e => simp [State.marshalWith, bind, Except.bind, hv] at hout
      | ok j =>
        simp only [State.marshalWith, bind, Except.bind, pure, Except.pure, hv] at hout
        refine ⟨_, _, hout, ?_⟩
        intro k hk
        simp only [List.mem_cons, List.mem_singleton, List.not_mem_nil, or_false] at hk
        rcases hk with rfl | rfl | rfl | rfl | rfl | rfl <;>
          split_ifs <;> simp [GoMap.get?_set, GoMap.get?]
  | ChoiceState b cs d =>
    cases hcs : mapE (ChoiceBranch.MarshalJSON h) cs with
    | error e => simp [State.marshalWith, bind, Except.bind, hcs] at hout
    | ok js =>
      simp only [State.marshalWith, bind, Except.bind, pure, Except.pure, hcs] at hout
      refine ⟨_, _, hout, ?_⟩
      intro k hk
      simp only [List.mem_cons, List.mem_singleton, List.not_mem_nil, or_false] at hk
      rcases hk with rfl | rfl | rfl | rfl | rfl | rfl <;>
        cases d <;> simp [GoMap.get?_set, GoMap.get?]
  | BaseTask t => simp [State.marshalWith] at hout
  | LambdaTaskState t l =>
    cases hp : t.additionalParams h with
    | error e => simp [State.marshalWith, bind, Except.bind, hp] at hout
    | ok p =>
      simp only [State.marshalWith, bind, Except.bind, pure, Except.pure, hp] at hout
      refine ⟨_, _, hout, ?_⟩
      intro k hk
      simp only [List.mem_cons, List.mem_singleton, List.not_mem_nil, or_false] at hk
      rcases hk with rfl | rfl | rfl | rfl | rfl | rfl <;>
        simp [GoMap.get?_set, additionalParams_get? h t p hp]
  | WaitDelay b d =>
    simp only [State.marshalWith] at hout
    refine ⟨_, _, hout, ?_⟩
    intro k hk
    simp only [List.mem_cons, List.mem_singleton, List.not_mem_nil, or_false] at hk
    rcases hk with rfl | rfl | rfl | rfl | rfl | rfl <;> simp [GoMap.set, GoMap.get?]
  | WaitUntil b t =>
    simp only [State.marshalWith] at hout
    refine ⟨_, _, hout, ?_⟩
    intro k hk
    simp only [List.mem_cons, List.mem_singleton, List.not_mem_nil, or_false] at hk
    rcases hk with rfl | rfl | rfl | rfl | rfl | rfl <;> simp [GoMap.set, GoMap.get?]
  | WaitDynamicUntil b p =>
    simp only [State.marshalWith] at hout
    refine ⟨_, _, hout, ?_⟩
    intro k hk
    simp only [List.mem_cons, List.mem_singleton, List.not_mem_nil, or_false] at hk
    rcases hk with rfl | rfl | rfl | rfl | rfl | rfl <;> simp [GoMap.set, GoMap.get?]
  | SuccessState b =>
    simp only [State.marshalWith] at hout
    refine ⟨_, _, hout, ?_⟩
    intro k _
    simp [GoMap.get?]
  | FailState b e c =>
    cases c with
    | none =>
      simp only [State.marshalWith] at hout
      refine ⟨_, _, hout, ?_⟩
      intro k hk
      simp only [List.mem_cons, List.mem_singleton, List.not_mem_nil, or_false] at hk
      rcases hk with rfl | rfl | rfl | rfl | rfl | rfl <;> simp [GoMap.set, GoMap.get?]
    | some msg =>
      simp only [State.marshalWith] at hout
      refine ⟨_, _, hout, ?_⟩
      intro k hk
      simp only [List.mem_cons, List.mem_singleton, List.not_mem_nil, or_false] at hk
      rcases hk with rfl | rfl | rfl | rfl | rfl | rfl <;> simp [GoMap.set, GoMap.get?]
  | ParallelState b sm rp rs cs =>
    cases cs with
    | none =>
      simp only [State.marshalWith, bind, Except.bind, pure, Except.pure] at hout
      refine ⟨_, _, hout, ?_⟩
      intro k hk
      simp only [List.mem_cons, List.mem_singleton, List.not_mem_nil, or_false] at hk
      rcases hk with rfl | rfl | rfl | rfl | rfl | rfl <;>
        split_ifs <;> simp [GoMap.get?_set, GoMap.get?]
    | some l =>
      cases hl : mapE (TaskCatch.MarshalJSON ms) l with
      | error e => simp [State.marshalWith, bind, Except.bind, hl] at hout
      | ok js =>
        simp only [State.marshalWith, bind, Except.bind, pure, Except.pure, hl] at hout
        refine ⟨_, _, hout, ?_⟩
        intro k hk
        simp only [List.mem_cons, List.mem_singleton, List.not_mem_nil, or_false] at hk
        rcases hk with rfl | rfl | rfl | rfl | rfl | rfl <;>
          split_ifs <;> simp [GoMap.get?_set, GoMap.get?]

theorem MarshalJSON_ok {n : Nat} (h : Heap n) (depth : Nat) (s : State n)
    (out : Json) (hout : State.MarshalJSON h depth s = .ok out) :
    ∃ stateType data, s.base.marshalStateJSON h stateType data = .ok out ∧
      ∀ k ∈ ["Type", "Next", "End", "Comment", "InputPath", "OutputPath"],
        GoMap.get? (data.getD []) k = none := by
  cases depth with
  | zero => exact marshalWith_ok h _ s out hout
  | succ d => exact marshalWith_ok h _ s out hout

/-- The members `Next` and `End` of a serialized state. -/
theorem MarshalJSON_Next_End {n : Nat} (h : Heap n) (depth : Nat) (s : State n)
    (out : Json) (hout : State.MarshalJSON h depth s = .ok out) :
    out.field? "Next" = s.base.next.map (fun a => Json.str (h.Name a)) ∧
    out.field? "End" =
      if s.base.isEndStateInvalid = false ∧ s.base.next = none then some (.bool true) else none := by
  obtain ⟨ty, data, hm, hdata⟩ := MarshalJSON_ok h depth s out hout
  obtain ⟨d, hd, hget⟩ := marshalStateJSON_get? h s.base ty data
  rw [hm] at hd
  cases hd
  have hN := hdata "Next" (by simp)
  have hE := hdata "End" (by simp)
  refine ⟨?_, ?_⟩
  · simp only [Json.field?, hget, hN]
    cases s.base.next <;> simp
  · simp only [Json.field?, hget, hE]
    simp

/-! ## Builder calls -/

theorem choice_calls {n : Nat} (choices : List (ChoiceBranch n)) (cs : List (StateCall n))
    (b : baseInnerState n) (d : Ref n) :
    ∃ b1, (State.ChoiceState b choices d).calls cs =
        .ChoiceState b1 choices (cs.foldl defaultAfter d) ∧
      b1.next = b.next ∧ b1.isEndStateInvalid = b.isEndStateInvalid ∧ b1.name = b.name := by
  induction cs generalizing b d with
  | nil => exact ⟨b, rfl, rfl, rfl, rfl⟩
  | cons c rest ih =>
    have step : ∃ b0, (State.ChoiceState b choices d).call c =
        .ChoiceState b0 choices (defaultAfter d c) ∧
        b0.next = b.next ∧ b0.isEndStateInvalid = b.isEndStateInvalid ∧ b0.name = b.name := by
      cases c <;> exact ⟨_, rfl, rfl, rfl, rfl⟩
    obtain ⟨b0, e0, h1, h2, h3⟩ := step
    obtain ⟨b1, e1, g1, g2, g3⟩ := ih b0 (defaultAfter d c)
    refine ⟨b1, ?_, g1.trans h1, g2.trans h2, g3.trans h3⟩
    simp only [State.calls, List.foldl_cons] at e1 ⊢
    rw [e0, e1]

theorem fail_calls {n : Nat} (errorName : String) (cause : Option String)
    (cs : List (StateCall n)) (b : baseInnerState n) :
    ∃ b1, (State.FailState b errorName cause).calls cs = .FailState b1 errorName cause ∧
      b1.next = b.next ∧ b1.isEndStateInvalid = b.isEndStateInvalid ∧ b1.name = b.name := by
  induction cs generalizing b with
  | nil => exact ⟨b, rfl, rfl, rfl, rfl⟩
  | cons c rest ih =>
    have step : ∃ b0, (State.FailState b errorName cause).call c =
        .FailState b0 errorName cause ∧
        b0.next = b.next ∧ b0.isEndStateInvalid = b.isEndStateInvalid ∧ b0.name = b.name := by
      cases c <;> exact ⟨_, rfl, rfl, rfl, rfl⟩
    obtain ⟨b0, e0, h1, h2, h3⟩ := step
    obtain ⟨b1, e1, g1, g2, g3⟩ := ih b0
    refine ⟨b1, ?_, g1.trans h1, g2.trans h2, g3.trans h3⟩
    simp only [State.calls, List.foldl_cons] at e1 ⊢
    rw [e0, e1]

theorem parallel_calls {n : Nat} (states : StateMachine n) (cs : List (StateCall n))
    (b : baseInnerState n) (rp : String) (rs : List TaskRetry)
    (cat : Option (List (TaskCatch n))) :
    ∃ b1 rp1 rs1 cat1, (State.ParallelState b states rp rs cat).calls cs =
        .ParallelState b1 states rp1 rs1 cat1 ∧
      b1.next = cs.foldl nextAfter b.next ∧ b1.isEndStateInvalid = b.isEndStateInvalid ∧
      b1.name = b.name := by
  induction cs generalizing b rp rs cat with
  | nil => exact ⟨b, rp, rs, cat, rfl, rfl, rfl, rfl⟩
  | cons c rest ih =>
    have step : ∃ b0 rp0 rs0 cat0, (State.ParallelState b states rp rs cat).call c =
        .ParallelState b0 states rp0 rs0 cat0 ∧
        b0.next = nextAfter b.next c ∧ b0.isEndStateInvalid = b.isEndStateInvalid ∧
        b0.name = b.name := by
      cases c <;> exact ⟨_, _, _, _, rfl, rfl, rfl, rfl⟩
    obtain ⟨b0, rp0, rs0, cat0, e0, h1, h2, h3⟩ := step
    obtain ⟨b1, rp1, rs1, cat1, e1, g1, g2, g3⟩ := ih b0 rp0 rs0 cat0
    refine ⟨b1, rp1, rs1, cat1, ?_, ?_, g2.trans h2, g3.trans h3⟩
    · simp only [State.calls, List.foldl_cons] at e1 ⊢
      rw [e0, e1]
    · rw [g1, h1]
      rfl

theorem mapE_forall₂ {α β : Type} (f : α → Except Err β) (xs : List α) (ys : List β)
    (hm : mapE f xs = .ok ys) : List.Forall₂ (fun x y => f x = .ok y) xs ys := by
  induction xs generalizing ys with
  | nil =>
    simp only [mapE, Except.ok.injEq] at hm
    subst hm
    exact List.Forall₂.nil
  | cons x rest ih =>
    unfold mapE at hm
    cases hf : f x with
    | error e => simp [hf] at hm
    | ok y =>
      cases hr : mapE f rest with
      | error e => simp [hf, hr] at hm
      | ok zs =>
        simp only [hf, hr, Except.ok.injEq] at hm
        subst hm
        exact List.Forall₂.cons hf (ih zs hr)

/-! ## The claims -/

/-- C1: in a graph whose distinct reachable state objects have distinct names,
`NewStateMachine` returns, and the keys of its table are exactly the names of
the states reachable from the start state along `successors` (the branch targets
and the Default of a Choice, the `AdjacentStates` of any other state). -/
theorem C1_table_keys_are_reachable_names {n : Nat} (h : Heap n) (name : String)
    (start : Fin n)
    (hdistinct : ∀ a b, Reachable h start a → Reachable h start b → h.Name a = h.Name b → a = b) :
    (∃ fuel sm, NewStateMachine h fuel name start = some sm) ∧
    ∀ fuel sm, NewStateMachine h fuel name start = some sm →
      ∀ k, k ∈ sm.uniqueStates.keys ↔ ∃ a, Reachable h start a ∧ h.Name a = k := by
  refine ⟨?_, ?_⟩
  · obtain ⟨fuel, sm, hsm⟩ := NewStateMachine_terminates h name start
    exact ⟨fuel + 0, sm, hsm 0⟩
  · intro fuel sm hsm k
    have ht := (NewStateMachine_eq_some h fuel name start sm hsm).1
    exact TraversalInv.mem_keys_iff h start _
      (TraversalInv.traverse h start fuel [] [start] _ (TraversalInv.init h start) ht) hdistinct k

/-- C1 at the chain `A → B → C`, whose three names are distinct. -/
theorem C1_table_keys_are_reachable_names_witness :
    (∀ a b : Fin 3, chainHeap.Name a = chainHeap.Name b → a = b) ∧
    ((∃ fuel sm, NewStateMachine chainHeap fuel "m" 0 = some sm) ∧
    ∀ fuel sm, NewStateMachine chainHeap fuel "m" 0 = some sm →
      ∀ k, k ∈ sm.uniqueStates.keys ↔ ∃ a, Reachable chainHeap 0 a ∧ chainHeap.Name a = k) :=
  ⟨by decide, C1_table_keys_are_reachable_names chainHeap "m" 0
    (fun a b _ _ => (by decide : ∀ a b : Fin 3, chainHeap.Name a = chainHeap.Name b → a = b) a b)⟩

/-- C2: the loop of `NewStateMachine` ends on every graph of finitely many state
objects, whatever its cycles, self-loops and converging paths: some number of
iterations empties the worklist, and every larger number gives the same machine. -/
theorem C2_traversal_terminates {n : Nat} (h : Heap n) (name : String) (start : Fin n) :
    ∃ fuel sm, ∀ k, NewStateMachine h (fuel + k) name start = some sm :=
  NewStateMachine_terminates h name start

theorem mem_of_get? {α : Type} (m : GoMap α) (k : String) (v : α)
    (hget : m.get? k = some v) : (k, v) ∈ m := by
  induction m with
  | nil => simp [GoMap.get?] at hget
  | cons kv0 rest ih =>
    obtain ⟨k0, v0⟩ := kv0
    by_cases hk : k0 = k
    · simp only [GoMap.get?, hk, if_true, Option.some.injEq] at hget
      subst hget
      rw [hk]
      exact List.mem_cons_self _ _
    · simp only [GoMap.get?, hk, if_false] at hget
      exact List.mem_cons_of_mem _ (ih hget)

theorem filter_value_length {n : Nat} (h : Heap n) (a : Fin n) (m : GoMap (Fin n))
    (hm : m.keys.Nodup) (hall : ∀ kv ∈ m, h.Name kv.2 = kv.1) (hmem : (h.Name a, a) ∈ m) :
    (m.filter (fun kv => decide (kv.2 = a))).length = 1 := by
  induction m with
  | nil => cases hmem
  | cons kv0 rest ih =>
    obtain ⟨k0, v0⟩ := kv0
    simp only [GoMap.keys, List.map_cons, List.nodup_cons] at hm
    by_cases hv : v0 = a
    · have hk0 : h.Name a = k0 := by
        have := hall (k0, v0) (List.mem_cons_self _ _)
        rw [hv] at this
        exact this
      have hrest : rest.filter (fun kv => decide (kv.2 = a)) = [] := by
        rw [List.filter_eq_nil_iff]
        intro kv hkv
        simp only [decide_eq_true_eq]
        intro e
        have hn := hall kv (List.mem_cons_of_mem _ hkv)
        rw [e, hk0] at hn
        exact hm.1 (List.mem_map.2 ⟨kv, hkv, hn.symm⟩)
      simp [List.filter_cons, hv, hrest]
    · have hmem2 : (h.Name a, a) ∈ rest := by
        rcases List.mem_cons.1 hmem with e | e
        · exact absurd (Prod.mk.inj e).2.symm hv
        · exact e
      simp only [List.filter_cons, hv, decide_False, Bool.false_eq_true, if_false]
      exact ih hm.2 (fun kv hkv => hall kv (List.mem_cons_of_mem _ hkv)) hmem2

/-- In a table with distinct keys whose entries are keyed by their name, a state that
is the entry of its name is the value of exactly one entry. -/
theorem table_filter_length {n : Nat} (h : Heap n) (m : GoMap (Fin n)) (hm : m.keys.Nodup)
    (hkeyed : ∀ k b, m.get? k = some b → h.Name b = k) (a : Fin n)
    (hget : m.get? (h.Name a) = some a) :
    (m.filter (fun kv => decide (kv.2 = a))).length = 1 :=
  filter_value_length h a m hm
    (fun kv hkv => hkeyed kv.1 kv.2 (GoMap.get?_of_mem m hm kv.1 kv.2 hkv))
    (mem_of_get? m _ _ hget)

/-- C3 fails as stated: with two Choice branches that lead to the same state `T`,
`T` is appended twice; after three iterations `T` is a key of the table and still
in the worklist, and `T` is taken from the worklist twice.  And in the chain
`A → X → X → Y`, whose second and third state share the name `X`, the state `Y` is
reachable and is not recorded: the third state is never appended. -/
theorem C3_visited_state_in_worklist :
    (run convergingHeap 3 ([], [0]) = ([("A", 0), ("C", 1), ("T", 2)], [2]) ∧
      nodeVisited convergingHeap [("A", 0), ("C", 1), ("T", 2)] (some 2) = true ∧
      dequeued convergingHeap 4 [] [0] = [0, 1, 2, 2]) ∧
    (hiddenHeap.Name 1 = hiddenHeap.Name 2 ∧ Reachable hiddenHeap 0 3 ∧
      (∀ k, traverse hiddenHeap (2 + k) [] [0] = some [("A", 0), ("X", 1)]) ∧
      hiddenHeap.Name 3 ∉ GoMap.keys [("A", (0 : Fin 4)), ("X", 1)]) := by
  refine ⟨by decide, by decide, ?_, fun k => ?_, by decide⟩
  · exact Reachable.step (Reachable.step (Reachable.step Reachable.start
      (by decide : some (1 : Fin 4) ∈ successors hiddenHeap 0))
      (by decide : some (2 : Fin 4) ∈ successors hiddenHeap 1))
      (by decide : some (3 : Fin 4) ∈ successors hiddenHeap 2)
  · exact traverse_mono hiddenHeap 2 [] [0] _ (by decide) k

/-- C3, amended: on every graph `NewStateMachine` returns, its table holds each
recorded name once, and every entry is a state reachable from the start state,
keyed by its name.  When distinct reachable states have distinct names every
reachable state is recorded: the entry of its name is that state, and its name is
in the table exactly once, also when several paths lead to the state.  Every state
an iteration appends to the worklist has a name that is not a key of the table at
that moment. -/
theorem C3_one_entry_per_name {n : Nat} (h : Heap n) (name : String) (start : Fin n) :
    (∃ fuel sm, NewStateMachine h fuel name start = some sm) ∧
    (∀ fuel sm, NewStateMachine h fuel name start = some sm →
      sm.uniqueStates.keys.Nodup ∧
      (∀ k a, sm.uniqueStates.get? k = some a → Reachable h start a ∧ h.Name a = k) ∧
      ((∀ a b, Reachable h start a → Reachable h start b → h.Name a = h.Name b → a = b) →
        ∀ a, Reachable h start a →
          sm.uniqueStates.get? (h.Name a) = some a ∧
          sm.uniqueStates.keys.count (h.Name a) = 1 ∧
          (sm.uniqueStates.filter (fun kv => decide (kv.2 = a))).length = 1)) ∧
    ∀ (u : GoMap (Fin n)) (hd : Fin n) (tl : List (Fin n)),
      ∃ added, (visit h u hd tl).2 = tl ++ added ∧
        ∀ a ∈ added, nodeVisited h (visit h u hd tl).1 (some a) = false := by
  refine ⟨?_, ?_, ?_⟩
  · obtain ⟨fuel, sm, hsm⟩ := NewStateMachine_terminates h name start
    exact ⟨fuel + 0, sm, hsm 0⟩
  · intro fuel sm hsm
    have ht := (NewStateMachine_eq_some h fuel name start sm hsm).1
    have inv := TraversalInv.traverse h start fuel [] [start] _ (TraversalInv.init h start) ht
    refine ⟨inv.nodup, fun k a hk => ⟨(inv.entries k a hk).2, (inv.entries k a hk).1⟩, ?_⟩
    intro hdistinct a ha
    have hmem : h.Name a ∈ sm.uniqueStates.keys :=
      (TraversalInv.mem_keys_iff h start _ inv hdistinct (h.Name a)).2 ⟨a, ha, rfl⟩
    have hget : sm.uniqueStates.get? (h.Name a) = some a := by
      have hs := (GoMap.get?_isSome_iff _ _).2 hmem
      cases hb : sm.uniqueStates.get? (h.Name a) with
      | none => rw [hb] at hs; cases hs
      | some b =>
        obtain ⟨hn, hr⟩ := inv.entries _ _ hb
        rw [hdistinct b a hr ha hn]
    refine ⟨hget, List.count_eq_one_of_mem inv.nodup hmem, ?_⟩
    exact table_filter_length h sm.uniqueStates inv.nodup
      (fun k b hb => (inv.entries k b hb).1) a hget
  · intro u hd tl
    rw [visit_eq]
    refine ⟨_, rfl, fun a ha => ?_⟩
    exact (((mem_foldl_appendUnvisited h _ _ [] a).1 ha).resolve_left (by simp)).2

/-- C3, amended, at the Choice whose two branches lead to the same state `T`: the
three names are distinct, and the table holds `T` once. -/
theorem C3_one_entry_per_name_witness :
    (NewStateMachine convergingHeap 4 "m" 0 = some convergingMachine ∧
      convergingMachine.uniqueStates = [("A", 0), ("C", 1), ("T", 2)] ∧
      ∀ a b : Fin 3, convergingHeap.Name a = convergingHeap.Name b → a = b) ∧
    (∀ a, Reachable convergingHeap 0 a →
      convergingMachine.uniqueStates.get? (convergingHeap.Name a) = some a ∧
      convergingMachine.uniqueStates.keys.count (convergingHeap.Name a) = 1 ∧
      (convergingMachine.uniqueStates.filter (fun kv => decide (kv.2 = a))).length = 1) :=
  ⟨⟨rfl, rfl, by decide⟩,
    ((C3_one_entry_per_name convergingHeap "m" 0).2.1 4 convergingMachine rfl).2.2
      (fun a b _ _ => (by decide :
        ∀ a b : Fin 3, convergingHeap.Name a = convergingHeap.Name b → a = b) a b)⟩

/-- C4: when the start state has a non-empty name, the document of the machine
`NewStateMachine` returns has `StartAt` equal to that name and a `States` object
whose keys are the keys of the table. -/
theorem C4_document_StartAt_and_States {n : Nat} (h : Heap n) (fuel : Nat) (name : String)
    (start : Fin n) (sm : StateMachine n) (depth : Nat) (doc : Json)
    (hsm : NewStateMachine h fuel name start = some sm) (hname : h.Name start ≠ "")
    (hdoc : StateMachine.MarshalJSON h depth sm = .ok doc) :
    doc.field? "StartAt" = some (.str (h.Name start)) ∧
    ∃ states, doc.field? "States" = some (.obj states) ∧
      GoMap.keys states = sm.uniqueStates.keys := by
  obtain ⟨ht, hstart, hcomment, -⟩ := NewStateMachine_eq_some h fuel name start sm hsm
  have inv := TraversalInv.traverse h start fuel [] [start] _ (TraversalInv.init h start) ht
  have hmem : h.Name start ∈ sm.uniqueStates.keys :=
    (GoMap.get?_isSome_iff _ _).1 (inv.startSeen.resolve_right (by simp))
  unfold StateMachine.MarshalJSON at hdoc
  simp only [hstart, refName, bind, Except.bind, hcomment] at hdoc
  split at hdoc
  · cases hdoc
  · rename_i states hstates
    have hkeys := mapE_keys (fun a => State.MarshalJSON h depth (h a)) sm.uniqueStates states hstates
    have hne : states ≠ [] := by
      intro e
      rw [e] at hkeys
      rw [← hkeys] at hmem
      simp [GoMap.keys] at hmem
    simp only [pure, Except.pure, Except.ok.injEq] at hdoc
    subst hdoc
    obtain ⟨kv, rest, rfl⟩ := List.exists_cons_of_ne_nil hne
    refine ⟨?_, kv :: rest, ?_, hkeys⟩
    · simp [Json.field?, omitEmptyStr, hname, GoMap.get?]
    · simp [Json.field?, omitEmptyStr, hname, GoMap.get?]

/-- C4 at the chain `A → B → C`. -/
theorem C4_document_StartAt_and_States_witness :
    (NewStateMachine chainHeap 3 "m" 0 = some chainMachine ∧ chainHeap.Name 0 ≠ "" ∧
      StateMachine.MarshalJSON chainHeap 0 chainMachine = .ok chainDocument) ∧
    (chainDocument.field? "StartAt" = some (.str (chainHeap.Name 0)) ∧
    ∃ states, chainDocument.field? "States" = some (.obj states) ∧
      GoMap.keys states = chainMachine.uniqueStates.keys) :=
  ⟨⟨rfl, by decide, rfl⟩,
    C4_document_StartAt_and_States chainHeap 3 "m" 0 chainMachine 0 chainDocument rfl
      (by decide) rfl⟩

/-- C5: the object of every state that serializes has the member `Next`, with the
successor's name, exactly when a successor is set, and the member `End`, with
the value true, exactly when no successor is set and `isEndStateInvalid` is
false; it never has both. -/
theorem C5_Next_and_End_exclusive {n : Nat} (h : Heap n) (depth : Nat) (s : State n)
    (out : Json) (hout : State.MarshalJSON h depth s = .ok out) :
    out.field? "Next" = s.base.next.map (fun a => Json.str (h.Name a)) ∧
    out.field? "End" =
      (if s.base.isEndStateInvalid = false ∧ s.base.next = none then some (.bool true) else none) ∧
    ¬ ((out.field? "Next").isSome = true ∧ (out.field? "End").isSome = true) := by
  obtain ⟨hN, hE⟩ := MarshalJSON_Next_End h depth s out hout
  refine ⟨hN, hE, ?_⟩
  rw [hN, hE]
  cases s.base.next <;> simp

/-- C5 at the Pass state `A` of the chain, whose successor is `B`. -/
theorem C5_Next_and_End_exclusive_witness :
    State.MarshalJSON chainHeap 0 (chainHeap 0) =
      .ok (.obj [("Type", .str "Pass"), ("Next", .str "B")]) ∧
    ((Json.obj [("Type", .str "Pass"), ("Next", .str "B")]).field? "Next" =
      (chainHeap 0).base.next.map (fun a => Json.str (chainHeap.Name a)) ∧
    (Json.obj [("Type", .str "Pass"), ("Next", .str "B")]).field? "End" =
      (if (chainHeap 0).base.isEndStateInvalid = false ∧ (chainHeap 0).base.next = none
        then some (.bool true) else none) ∧
    ¬ (((Json.obj [("Type", .str "Pass"), ("Next", .str "B")]).field? "Next").isSome = true ∧
      ((Json.obj [("Type", .str "Pass"), ("Next", .str "B")]).field? "End").isSome = true)) :=
  ⟨rfl, C5_Next_and_End_exclusive chainHeap 0 (chainHeap 0) _ rfl⟩

/-- C6 fails as stated for Parallel: a Parallel state built by `NewParallelState`
on which `Next` was never called serializes with the member `End`. -/
theorem C6_Parallel_without_successor_has_End :
    parallelHeap 0 = NewParallelState "P" 41
      ⟨"branch", "", none, some 1, [("Inner", 1)], none⟩ ∧
    State.MarshalJSON parallelHeap 0 (parallelHeap 0) =
      .ok (.obj [("Type", .str "Parallel"), ("End", .bool true)]) ∧
    (Json.obj [("Type", .str "Parallel"), ("End", .bool true)]).field? "End" =
      some (.bool true) :=
  ⟨rfl, rfl, rfl⟩

/-- C6, amended: a Choice state built by `NewChoiceState` serializes without the
member `End`, whatever builders are called on it; a Parallel state built by
`NewParallelState` serializes `End: true` exactly when its last `Next` call (if
any) left it without a successor, and without `End` otherwise. -/
theorem C6_End_of_Choice_and_Parallel {n : Nat} (h : Heap n) (depth : Nat) (name : String)
    (id : Int) (calls : List (StateCall n)) :
    (∀ choices out,
      State.MarshalJSON h depth ((NewChoiceState name id choices).calls calls) = .ok out →
        out.field? "End" = none) ∧
    (∀ states out,
      State.MarshalJSON h depth ((NewParallelState name id states).calls calls) = .ok out →
        out.field? "End" = if lastNext calls = none then some (.bool true) else none) := by
  refine ⟨?_, ?_⟩
  · intro choices out hout
    obtain ⟨b1, e1, h1, h2, -⟩ :=
      choice_calls ([] ++ choices) calls (baseInnerState.new name id true) none
    have hE := (MarshalJSON_Next_End h depth _ out hout).2
    rw [show NewChoiceState name id choices =
      State.ChoiceState (baseInnerState.new name id true) ([] ++ choices) none from rfl, e1] at hE
    rw [hE]
    simp only [State.base, h2, baseInnerState.new]
    simp
  · intro states out hout
    obtain ⟨b1, rp1, rs1, cat1, e1, h1, h2, -⟩ :=
      parallel_calls states calls (baseInnerState.new name id false) "" [] none
    have hE := (MarshalJSON_Next_End h depth _ out hout).2
    rw [show NewParallelState name id states =
      State.ParallelState (baseInnerState.new name id false) states "" [] none from rfl, e1] at hE
    rw [hE]
    simp only [State.base, h1, h2, baseInnerState.new, lastNext]
    simp

/-- C6, amended, at the Choice state `Router` and at the Parallel state `P`. -/
theorem C6_End_of_Choice_and_Parallel_witness :
    (State.MarshalJSON routerHeap 0
        ((NewChoiceState "Router" 61 [.And [.StringEquals "$.x" "go"] (some 1)]).calls
          [.WithDefault (some 2)]) =
      .ok (.obj [("Choices", .arr [.obj [("And", .arr [.obj [("Variable", .str "$.x"),
          ("StringEquals", .str "go")]]), ("Next", .str "Go")]]),
        ("Default", .str "Bad"), ("Type", .str "Choice")]) ∧
      (Json.obj [("Choices", .arr [.obj [("And", .arr [.obj [("Variable", .str "$.x"),
          ("StringEquals", .str "go")]]), ("Next", .str "Go")]]),
        ("Default", .str "Bad"), ("Type", .str "Choice")]).field? "End" = none) ∧
    (State.MarshalJSON parallelHeap 0
        ((NewParallelState "P" 41 ⟨"branch", "", none, some 1, [("Inner", 1)], none⟩).calls []) =
      .ok (.obj [("Type", .str "Parallel"), ("End", .bool true)]) ∧
      (Json.obj [("Type", .str "Parallel"), ("End", .bool true)]).field? "End" =
        if lastNext ([] : List (StateCall 2)) = none then some (.bool true) else none) :=
  ⟨⟨rfl, (C6_End_of_Choice_and_Parallel routerHeap 0 "Router" 61 [.WithDefault (some 2)]).1
      [.And [.StringEquals "$.x" "go"] (some 1)] _ rfl⟩,
    ⟨rfl, (C6_End_of_Choice_and_Parallel parallelHeap 0 "P" 41 []).2
      ⟨"branch", "", none, some 1, [("Inner", 1)], none⟩ _ rfl⟩⟩

/-- C7 fails on the code: a Succeed state built by `NewSuccessState` on which
`Next` is called afterwards serializes with the member `Next`. -/
theorem C7_Succeed_after_Next_has_Next :
    succeedNextHeap 0 = (NewSuccessState "Done" 51).calls [.Next (some 1)] ∧
    State.MarshalJSON succeedNextHeap 0 (succeedNextHeap 0) =
      .ok (.obj [("Type", .str "Succeed"), ("Next", .str "After")]) ∧
    (Json.obj [("Type", .str "Succeed"), ("Next", .str "After")]).field? "Next" =
      some (.str "After") :=
  ⟨rfl, rfl, rfl⟩

/-- C8: a Fail state built by `NewFailState(name, errorName, cause)` serializes,
whatever builders (`Next` included) are called on it afterwards, and its object
has `Type` equal to `Fail`, `Error` equal to `errorName`, `Cause` equal to the
message of the cause exactly when a cause is present, and neither `Next` nor `End`. -/
theorem C8_Fail_serialization {n : Nat} (h : Heap n) (depth : Nat) (name : String) (id : Int)
    (errorName : String) (cause : Option String) (calls : List (StateCall n)) :
    ∃ out, State.MarshalJSON h depth ((NewFailState name id errorName cause).calls calls) =
        .ok out ∧
      out.field? "Type" = some (.str "Fail") ∧
      out.field? "Error" = some (.str errorName) ∧
      out.field? "Cause" = cause.map Json.str ∧
      out.field? "Next" = none ∧ out.field? "End" = none := by
  cases cause with
  | none =>
    obtain ⟨b1, e1, h1, h2, -⟩ :=
      fail_calls errorName none calls (baseInnerState.new name id true)
    rw [show NewFailState name id errorName none =
      State.FailState (baseInnerState.new name id true) errorName none from rfl, e1]
    have hm : State.MarshalJSON h depth (State.FailState b1 errorName none) =
        b1.marshalStateJSON h "Fail" (some (GoMap.set [] "Error" (.str errorName))) := by
      cases depth <;> rfl
    obtain ⟨d, hd, hget⟩ :=
      marshalStateJSON_get? h b1 "Fail" (some (GoMap.set [] "Error" (.str errorName)))
    have hn : b1.next = none := h1
    have hi : b1.isEndStateInvalid = true := h2
    refine ⟨.obj d, hm.trans hd, ?_, ?_, ?_, ?_, ?_⟩ <;>
      simp [Json.field?, hget, hn, hi, GoMap.set, GoMap.get?]
  | some msg =>
    obtain ⟨b1, e1, h1, h2, -⟩ :=
      fail_calls errorName (some msg) calls (baseInnerState.new name id true)
    rw [show NewFailState name id errorName (some msg) =
      State.FailState (baseInnerState.new name id true) errorName (some msg) from rfl, e1]
    have hm : State.MarshalJSON h depth (State.FailState b1 errorName (some msg)) =
        b1.marshalStateJSON h "Fail"
          (some (GoMap.set (GoMap.set [] "Error" (.str errorName)) "Cause" (.str msg))) := by
      cases depth <;> rfl
    obtain ⟨d, hd, hget⟩ := marshalStateJSON_get? h b1 "Fail"
      (some (GoMap.set (GoMap.set [] "Error" (.str errorName)) "Cause" (.str msg)))
    have hn : b1.next = none := h1
    have hi : b1.isEndStateInvalid = true := h2
    refine ⟨.obj d, hm.trans hd, ?_, ?_, ?_, ?_, ?_⟩ <;>
      simp [Json.field?, hget, hn, hi, GoMap.set, GoMap.get?]

/-- C9: the object of a Choice state built by `NewChoiceState(name, choices...)`,
after any builder calls, has `Type` equal to `Choice`, a `Choices` array with
one entry per supplied branch in the supplied order (entry `i` is the encoding
of branch `i`), `Default` equal to the name of the state the last `WithDefault`
call supplied, absent when there was no such call or it supplied nil, and no
`End`. -/
theorem C9_Choice_serialization {n : Nat} (h : Heap n) (depth : Nat) (name : String) (id : Int)
    (choices : List (ChoiceBranch n)) (calls : List (StateCall n)) (out : Json)
    (hout : State.MarshalJSON h depth ((NewChoiceState name id choices).calls calls) = .ok out) :
    out.field? "Type" = some (.str "Choice") ∧
    (∃ entries, out.field? "Choices" = some (.arr entries) ∧
      List.Forall₂ (fun c e => ChoiceBranch.MarshalJSON h c = .ok e) choices entries) ∧
    out.field? "Default" = (lastDefault calls).map (fun a => Json.str (h.Name a)) ∧
    out.field? "End" = none := by
  obtain ⟨b1, e1, h1, h2, -⟩ :=
    choice_calls ([] ++ choices) calls (baseInnerState.new name id true) none
  rw [show NewChoiceState name id choices =
    State.ChoiceState (baseInnerState.new name id true) ([] ++ choices) none from rfl, e1,
    List.nil_append] at hout
  have hn : b1.next = none := h1
  have hi : b1.isEndStateInvalid = true := h2
  have hw : State.marshalWith h (match depth with
      | 0 => fun _ => .error .depth
      | d + 1 => fun a => State.MarshalJSON h d (h a))
      (State.ChoiceState b1 choices (List.foldl defaultAfter none calls)) = .ok out := by
    cases depth <;> exact hout
  cases hcs : mapE (ChoiceBranch.MarshalJSON h) choices with
  | error e => simp [State.marshalWith, bind, Except.bind, hcs] at hw
  | ok entries =>
    simp only [State.marshalWith, bind, Except.bind, pure, Except.pure, hcs] at hw
    have hfa := mapE_forall₂ _ _ _ hcs
    cases hdef : List.foldl defaultAfter none calls with
    | none =>
      rw [hdef] at hw
      obtain ⟨d, hd, hget⟩ := marshalStateJSON_get? h b1 "Choice"
        (some (GoMap.set [] "Choices" (.arr entries)))
      simp only at hw
      rw [hw] at hd
      cases hd
      refine ⟨?_, ⟨entries, ?_, hfa⟩, ?_, ?_⟩ <;>
        simp [Json.field?, hget, hn, hi, GoMap.set, GoMap.get?, lastDefault, hdef]
    | some a =>
      rw [hdef] at hw
      obtain ⟨d, hd, hget⟩ := marshalStateJSON_get? h b1 "Choice"
        (some (GoMap.set (GoMap.set [] "Choices" (.arr entries)) "Default" (.str (h.Name a))))
      simp only at hw
      rw [hw] at hd
      cases hd
      refine ⟨?_, ⟨entries, ?_, hfa⟩, ?_, ?_⟩ <;>
        simp [Json.field?, hget, hn, hi, GoMap.set, GoMap.get?, lastDefault, hdef]

/-- C9 at the Choice state `Router`: one branch to `Go`, default `Bad`. -/
theorem C9_Choice_serialization_witness :
    State.MarshalJSON routerHeap 0
        ((NewChoiceState "Router" 61 [.And [.StringEquals "$.x" "go"] (some 1)]).calls
          [.WithDefault (some 2)]) =
      .ok (.obj [("Choices", .arr [.obj [("And", .arr [.obj [("Variable", .str "$.x"),
          ("StringEquals", .str "go")]]), ("Next", .str "Go")]]),
        ("Default", .str "Bad"), ("Type", .str "Choice")]) ∧
    ((Json.obj [("Choices", .arr [.obj [("And", .arr [.obj [("Variable", .str "$.x"),
          ("StringEquals", .str "go")]]), ("Next", .str "Go")]]),
        ("Default", .str "Bad"), ("Type", .str "Choice")]).field? "Type" =
      some (.str "Choice") ∧
    (∃ entries, (Json.obj [("Choices", .arr [.obj [("And", .arr [.obj [("Variable", .str "$.x"),
          ("StringEquals", .str "go")]]), ("Next", .str "Go")]]),
        ("Default", .str "Bad"), ("Type", .str "Choice")]).field? "Choices" =
        some (.arr entries) ∧
      List.Forall₂ (fun c e => ChoiceBranch.MarshalJSON routerHeap c = .ok e)
        [.And [.StringEquals "$.x" "go"] (some 1)] entries) ∧
    (Json.obj [("Choices", .arr [.obj [("And", .arr [.obj [("Variable", .str "$.x"),
          ("StringEquals", .str "go")]]), ("Next", .str "Go")]]),
        ("Default", .str "Bad"), ("Type", .str "Choice")]).field? "Default" =
      (lastDefault [StateCall.WithDefault (some (2 : Fin 3))]).map
        (fun a => Json.str (routerHeap.Name a)) ∧
    (Json.obj [("Choices", .arr [.obj [("And", .arr [.obj [("Variable", .str "$.x"),
          ("StringEquals", .str "go")]]), ("Next", .str "Go")]]),
        ("Default", .str "Bad"), ("Type", .str "Choice")]).field? "End" = none) :=
  ⟨rfl, C9_Choice_serialization routerHeap 0 "Router" 61
    [.And [.StringEquals "$.x" "go"] (some 1)] [.WithDefault (some 2)] _ rfl⟩

/-- C10: the object of a Pass state has `Type` equal to `Pass`, `ResultPath`
exactly when the result path is not the empty string, `Result`, holding the
encoding of the supplied value, exactly when the result value is not nil, and
`Next` and `End` as every state does. -/
theorem C10_Pass_serialization {n : Nat} (h : Heap n) (depth : Nat) (b : baseInnerState n)
    (resultPath : String) (result : Option Value) (out : Json)
    (hout : State.MarshalJSON h depth (.PassState b resultPath result) = .ok out) :
    out.field? "Type" = some (.str "Pass") ∧
    out.field? "ResultPath" = (if resultPath = "" then none else some (.str resultPath)) ∧
    (result = none → out.field? "Result" = none) ∧
    (∀ v, result = some v →
      ∃ j, Value.Marshal (some v) = .ok j ∧ out.field? "Result" = some j) ∧
    out.field? "Next" = b.next.map (fun a => Json.str (h.Name a)) ∧
    out.field? "End" =
      if b.isEndStateInvalid = false ∧ b.next = none then some (.bool true) else none := by
  obtain ⟨hN, hE⟩ := MarshalJSON_Next_End h depth _ out hout
  have hw : State.marshalWith h (match depth with
      | 0 => fun _ => .error .depth
      | d + 1 => fun a => State.MarshalJSON h d (h a))
      (State.PassState b resultPath result) = .ok out := by
    cases depth <;> exact hout
  refine ⟨?_, ?_, ?_, ?_, hN, hE⟩
  all_goals
    cases result with
    | none =>
      simp only [State.marshalWith, bind, Except.bind, pure, Except.pure] at hw
      obtain ⟨d, hd, hget⟩ := marshalStateJSON_get? h b "Pass"
        (some (if resultPath ≠ "" then GoMap.set [] "ResultPath" (.str resultPath) else []))
      rw [hw] at hd
      cases hd
      by_cases hrp : resultPath = "" <;>
        simp [Json.field?, hget, hrp, GoMap.set, GoMap.get?]
    | some v =>
      cases hv : Value.Marshal (some v) with
      | error e => simp [State.marshalWith, bind, Except.bind, hv] at hw
      | ok j =>
        simp only [State.marshalWith, bind, Except.bind, pure, Except.pure, hv] at hw
        obtain ⟨d, hd, hget⟩ := marshalStateJSON_get? h b "Pass"
          (some (GoMap.set (if resultPath ≠ "" then GoMap.set [] "ResultPath" (.str resultPath)
            else []) "Result" j))
        rw [hw] at hd
        cases hd
        by_cases hrp : resultPath = "" <;>
          simp [Json.field?, hget, hrp, GoMap.set, GoMap.get?, hv]

/-- C10 at a Pass state with successor `B`, result path `$.r` and result value `"x"`. -/
theorem C10_Pass_serialization_witness :
    State.MarshalJSON chainHeap 0
        (.PassState resultPassBase "$.r" (some (.json (.str "x")))) = .ok resultPassObject ∧
    (resultPassObject.field? "Type" = some (.str "Pass") ∧
    resultPassObject.field? "ResultPath" = (if "$.r" = "" then none else some (.str "$.r")) ∧
    ((some (Value.json (.str "x")) = none) → resultPassObject.field? "Result" = none) ∧
    (∀ v, some (Value.json (.str "x")) = some v →
      ∃ j, Value.Marshal (some v) = .ok j ∧ resultPassObject.field? "Result" = some j) ∧
    resultPassObject.field? "Next" =
      resultPassBase.next.map (fun a => Json.str (chainHeap.Name a)) ∧
    resultPassObject.field? "End" =
      if resultPassBase.isEndStateInvalid = false ∧ resultPassBase.next = none
        then some (.bool true) else none) :=
  ⟨rfl, C10_Pass_serialization chainHeap 0 resultPassBase "$.r" (some (.json (.str "x")))
    resultPassObject rfl⟩

/-! ## Tasks, retriers and catchers -/

/-- A member that `marshalStateJSON` does not write is the member of the additional data. -/
theorem marshalStateJSON_other {n : Nat} (h : Heap n) (bis : baseInnerState n)
    (stateType : String) (data : Option (GoMap Json)) (out : Json)
    (hout : bis.marshalStateJSON h stateType data = .ok out) (k : String)
    (hk : k ∉ ["Type", "Next", "End", "Comment", "InputPath", "OutputPath"]) :
    out.field? k = GoMap.get? (data.getD []) k := by
  obtain ⟨d, hd, hget⟩ := marshalStateJSON_get? h bis stateType data
  rw [hout] at hd
  cases hd
  simp only [List.mem_cons, List.mem_singleton, List.not_mem_nil, or_false, not_or] at hk
  obtain ⟨h1, h2, h3, h4, h5, h6⟩ := hk
  have h1 : ¬ "Type" = k := fun e => h1 e.symm
  have h2 : ¬ "Next" = k := fun e => h2 e.symm
  have h3 : ¬ "End" = k := fun e => h3 e.symm
  have h4 : ¬ "Comment" = k := fun e => h4 e.symm
  have h5 : ¬ "InputPath" = k := fun e => h5 e.symm
  have h6 : ¬ "OutputPath" = k := fun e => h6 e.symm
  simp [Json.field?, hget, h1, h2, h3, h4, h5, h6]

/-- The catch entry `additionalParams` builds for a catcher with target `a`. -/
theorem catchEntries_forall₂ {n : Nat} (h : Heap n) (catchers : List (TaskCatch n))
    (entries : List Json)
    (hm : mapE (fun (eachCatcher : TaskCatch n) => do
      let name ← refName h eachCatcher.next
      pure (Json.obj [("ErrorEquals", marshalErrors eachCatcher.errorEquals),
        ("Next", .str name)])) catchers = .ok entries) :
    List.Forall₂ (fun c e => ∃ a, c.next = some a ∧
      e = Json.obj [("ErrorEquals", marshalErrors c.errorEquals), ("Next", .str (h.Name a))])
      catchers entries := by
  refine List.Forall₂.imp ?_ (mapE_forall₂ _ _ _ hm)
  intro c e hce
  cases hn : c.next with
  | none => simp [hn, refName, bind, Except.bind] at hce
  | some a =>
    simp only [hn, refName, bind, Except.bind, pure, Except.pure, Except.ok.injEq] at hce
    exact ⟨a, rfl, hce.symm⟩

/-- The members of the map `additionalParams` returns. -/
theorem additionalParams_members {n : Nat} (h : Heap n) (bt : BaseTask n) (p : GoMap Json)
    (hp : bt.additionalParams h = .ok p) :
    GoMap.get? p "TimeoutSeconds" =
      (if bt.TimeoutSeconds = 0 then none else some (.num (Duration.Seconds bt.TimeoutSeconds))) ∧
    GoMap.get? p "HeartbeatSeconds" =
      (if bt.HeartbeatSeconds = 0 then none
        else some (.num (Duration.Seconds bt.HeartbeatSeconds))) ∧
    GoMap.get? p "ResultPath" = (if bt.ResultPath = "" then none else some (.str bt.ResultPath)) ∧
    GoMap.get? p "Retry" = (if bt.Retriers.length = 0 then none else some (.arr [])) ∧
    (bt.Catchers = none → GoMap.get? p "Catch" = none) ∧
    (∀ catchers, bt.Catchers = some catchers → ∃ entries,
      GoMap.get? p "Catch" = some (.arr entries) ∧
      List.Forall₂ (fun c e => ∃ a, c.next = some a ∧
        e = Json.obj [("ErrorEquals", marshalErrors c.errorEquals), ("Next", .str (h.Name a))])
        catchers entries) := by
  unfold BaseTask.additionalParams at hp
  have hT : (!(Duration.Seconds bt.TimeoutSeconds).isZero) = true ↔ ¬ bt.TimeoutSeconds = 0 := by
    simp [Duration.Seconds, Number.isZero]
  have hH : (!(Duration.Seconds bt.HeartbeatSeconds).isZero) = true ↔
      ¬ bt.HeartbeatSeconds = 0 := by
    simp [Duration.Seconds, Number.isZero]
  simp only [hT, hH] at hp
  cases hc : bt.Catchers with
  | none =>
    simp only [hc, pure, Except.pure, Except.ok.injEq] at hp
    subst hp
    by_cases h1 : bt.TimeoutSeconds = 0 <;> by_cases h2 : bt.HeartbeatSeconds = 0 <;>
      by_cases h3 : bt.ResultPath = "" <;> by_cases h4 : bt.Retriers.length = 0 <;>
      simp [h1, h2, h3, h4, GoMap.get?_set, GoMap.get?]
  | some cs =>
    simp only [hc, bind, Except.bind, pure, Except.pure] at hp
    split at hp
    · cases hp
    · rename_i entries hentries
      simp only [Except.ok.injEq] at hp
      subst hp
      have hfa := catchEntries_forall₂ h cs entries hentries
      by_cases h1 : bt.TimeoutSeconds = 0 <;> by_cases h2 : bt.HeartbeatSeconds = 0 <;>
        by_cases h3 : bt.ResultPath = "" <;> by_cases h4 : bt.Retriers.length = 0 <;>
        simp [h1, h2, h3, h4, GoMap.get?_set, GoMap.get?, hfa]

theorem lambda_marshal {n : Nat} (h : Heap n) (depth : Nat) (t : BaseTask n) (l : String)
    (out : Json) (hout : State.MarshalJSON h depth (.LambdaTaskState t l) = .ok out) :
    ∃ p, t.additionalParams h = .ok p ∧
      t.base.marshalStateJSON h "Task" (some (GoMap.set p "Resource" (getAttArn l))) = .ok out := by
  have hw : State.marshalWith h (match depth with
      | 0 => fun _ => .error .depth
      | d + 1 => fun a => State.MarshalJSON h d (h a)) (State.LambdaTaskState t l) = .ok out := by
    cases depth <;> exact hout
  cases hp : t.additionalParams h with
  | error e => simp [State.marshalWith, bind, Except.bind, hp] at hw
  | ok p =>
    simp only [State.marshalWith, bind, Except.bind, hp] at hw
    exact ⟨p, rfl, hw⟩

theorem unmarshalGeneric_obj (depth : Nat) (j : Json) (m : GoMap Json)
    (hj : unmarshalGeneric depth j = .ok (.obj m)) : ∃ kvs, j = .obj kvs := by
  cases j with
  | obj kvs => exact ⟨kvs, rfl⟩
  | null => cases depth <;> simp [unmarshalGeneric] at hj
  | bool b => cases depth <;> simp [unmarshalGeneric] at hj
  | str x => cases depth <;> simp [unmarshalGeneric] at hj
  | num x =>
    cases hx : x.viaFloat64 <;> cases depth <;> simp [unmarshalGeneric, hx] at hj
  | arr xs =>
    cases depth with
    | zero => simp [unmarshalGeneric] at hj
    | succ d =>
      cases hm : mapE (unmarshalGeneric d) xs <;> simp [unmarshalGeneric, hm] at hj

theorem merged_marshal {n : Nat} (h : Heap n) (t : BaseTask n) (resourceType : String)
    (params : Option Value) (out : Json)
    (hout : t.marshalMergedParams h resourceType params = .ok out) :
    ∃ p m, t.additionalParams h = .ok p ∧ Value.generic params = .ok (.obj m) ∧
      t.base.marshalStateJSON h "Task"
        (some (GoMap.set (GoMap.set p "Resource" (.str resourceType)) "Parameters" (.obj m))) =
        .ok out := by
  unfold BaseTask.marshalMergedParams at hout
  cases hv : Value.Marshal params with
  | error e => simp [hv] at hout
  | ok j =>
    cases hu : unmarshalGeneric maxNestingDepth j with
    | error e => simp [hv, hu] at hout
    | ok u =>
      have hg : Value.generic params = .ok u := by
        unfold Value.generic
        rw [hv]
        exact hu
      cases u with
      | obj m =>
        cases hp : t.additionalParams h with
        | error e => simp [hv, hu, bind, Except.bind, hp] at hout
        | ok p =>
          simp only [hv, hu, bind, Except.bind, hp] at hout
          exact ⟨p, m, rfl, hg, hout⟩
      | null => simp [hv, hu] at hout
      | bool b => simp [hv, hu] at hout
      | num x => simp [hv, hu] at hout
      | str x => simp [hv, hu] at hout
      | arr xs => simp [hv, hu] at hout

/-- The members a task object takes from `additionalParams`, on both ways a task
is serialized. -/
theorem task_members {n : Nat} (h : Heap n) (depth : Nat) (t : BaseTask n) (l : String)
    (resourceType : String) (params : Option Value) (out : Json)
    (hout : State.MarshalJSON h depth (.LambdaTaskState t l) = .ok out ∨
      t.marshalMergedParams h resourceType params = .ok out) :
    ∃ p, t.additionalParams h = .ok p ∧
      ∀ k ∈ ["TimeoutSeconds", "HeartbeatSeconds", "ResultPath", "Retry", "Catch"],
        out.field? k = GoMap.get? p k := by
  rcases hout with hout | hout
  · obtain ⟨p, hp, hm⟩ := lambda_marshal h depth t l out hout
    refine ⟨p, hp, fun k hk => ?_⟩
    simp only [List.mem_cons, List.mem_singleton, List.not_mem_nil, or_false] at hk
    rw [marshalStateJSON_other h _ _ _ out hm k (by rcases hk with rfl | rfl | rfl | rfl | rfl <;> simp)]
    rcases hk with rfl | rfl | rfl | rfl | rfl <;> simp [GoMap.get?_set]
  · obtain ⟨p, m, hp, -, hm⟩ := merged_marshal h t resourceType params out hout
    refine ⟨p, hp, fun k hk => ?_⟩
    simp only [List.mem_cons, List.mem_singleton, List.not_mem_nil, or_false] at hk
    rw [marshalStateJSON_other h _ _ _ out hm k (by rcases hk with rfl | rfl | rfl | rfl | rfl <;> simp)]
    rcases hk with rfl | rfl | rfl | rfl | rfl <;> simp [GoMap.get?_set]

/-- C11: the object of a task, serialized as a Lambda task or through
`marshalMergedParams`, has `TimeoutSeconds` exactly when the timeout is not
zero, `HeartbeatSeconds` exactly when the heartbeat is not zero, each holding
the duration in seconds, and `ResultPath` exactly when the result path is not
the empty string. -/
theorem C11_Task_optional_members {n : Nat} (h : Heap n) (depth : Nat) (t : BaseTask n)
    (l : String) (resourceType : String) (params : Option Value) (out : Json)
    (hout : State.MarshalJSON h depth (.LambdaTaskState t l) = .ok out ∨
      t.marshalMergedParams h resourceType params = .ok out) :
    out.field? "TimeoutSeconds" =
      (if t.TimeoutSeconds = 0 then none else some (.num (Duration.Seconds t.TimeoutSeconds))) ∧
    out.field? "HeartbeatSeconds" =
      (if t.HeartbeatSeconds = 0 then none
        else some (.num (Duration.Seconds t.HeartbeatSeconds))) ∧
    out.field? "ResultPath" = (if t.ResultPath = "" then none else some (.str t.ResultPath)) := by
  obtain ⟨p, hp, hk⟩ := task_members h depth t l resourceType params out hout
  obtain ⟨h1, h2, h3, -⟩ := additionalParams_members h t p hp
  rw [hk "TimeoutSeconds" (by simp), hk "HeartbeatSeconds" (by simp), hk "ResultPath" (by simp)]
  exact ⟨h1, h2, h3⟩

/-- C11 at the task `Work`: a timeout of thirty seconds, no heartbeat, result path `$.out`. -/
theorem C11_Task_optional_members_witness :
    (State.MarshalJSON taskHeap 0 (.LambdaTaskState workTask "") = .ok workObject ∨
      workTask.marshalMergedParams taskHeap "" none = .ok workObject) ∧
    (workObject.field? "TimeoutSeconds" =
      (if workTask.TimeoutSeconds = 0 then none
        else some (.num (Duration.Seconds workTask.TimeoutSeconds))) ∧
    workObject.field? "HeartbeatSeconds" =
      (if workTask.HeartbeatSeconds = 0 then none
        else some (.num (Duration.Seconds workTask.HeartbeatSeconds))) ∧
    workObject.field? "ResultPath" =
      (if workTask.ResultPath = "" then none else some (.str workTask.ResultPath))) :=
  ⟨Or.inl rfl, C11_Task_optional_members taskHeap 0 workTask "" "" none workObject (Or.inl rfl)⟩

/-- C12 fails on the code: the task `Work` has one retrier, and the `Retry`
member of its object is the empty array; the struct encoding of the retrier,
which a Parallel state writes, is not in it. -/
theorem C12_Task_Retry_is_empty :
    taskHeap 0 = .LambdaTaskState workTask "" ∧
    workTask.Retriers.length = 1 ∧
    State.MarshalJSON taskHeap 0 (taskHeap 0) = .ok workObject ∧
    workObject.field? "Retry" = some (.arr []) ∧
    workTask.marshalMergedParams taskHeap "arn:states:run"
      (some (.json (.obj [("Cluster", .str "c")]))) = .ok mergedObject ∧
    mergedObject.field? "Retry" = some (.arr []) :=
  ⟨rfl, rfl, rfl, rfl, rfl, rfl⟩

theorem mapE_ok_of_forall {α β : Type} (f : α → Except Err β) (xs : List α)
    (hf : ∀ x ∈ xs, ∃ y, f x = .ok y) : ∃ ys, mapE f xs = .ok ys := by
  induction xs with
  | nil => exact ⟨[], rfl⟩
  | cons x rest ih =>
    obtain ⟨y, hy⟩ := hf x (List.mem_cons_self _ _)
    obtain ⟨ys, hys⟩ := ih (fun z hz => hf z (List.mem_cons_of_mem _ hz))
    exact ⟨y :: ys, by simp [mapE, hy, hys]⟩

/-- `additionalParams` returns when every catcher has a target. -/
theorem additionalParams_ok {n : Nat} (h : Heap n) (bt : BaseTask n)
    (htargets : ∀ cs, bt.Catchers = some cs → ∀ c ∈ cs, c.next ≠ none) :
    ∃ p, bt.additionalParams h = .ok p := by
  unfold BaseTask.additionalParams
  cases hc : bt.Catchers with
  | none => exact ⟨_, rfl⟩
  | some cs =>
    obtain ⟨ys, hys⟩ := mapE_ok_of_forall (fun (eachCatcher : TaskCatch n) => do
      let name ← refName h eachCatcher.next
      pure (Json.obj [("ErrorEquals", marshalErrors eachCatcher.errorEquals),
        ("Next", .str name)])) cs (by
        intro c hcmem
        cases hn : c.next with
        | none => exact absurd hn (htargets cs hc c hcmem)
        | some a =>
          exact ⟨Json.obj [("ErrorEquals", marshalErrors c.errorEquals),
            ("Next", .str (h.Name a))], by simp [hn, refName, bind, Except.bind, pure, Except.pure]⟩)
    simp only [bind, Except.bind, pure, Except.pure] at hys ⊢
    rw [hys]
    exact ⟨_, rfl⟩

/-- A Lambda task serializes when every catcher has a target. -/
theorem lambda_marshal_ok {n : Nat} (h : Heap n) (depth : Nat) (t : BaseTask n) (l : String)
    (htargets : ∀ cs, t.Catchers = some cs → ∀ c ∈ cs, c.next ≠ none) :
    ∃ out, State.MarshalJSON h depth (.LambdaTaskState t l) = .ok out := by
  obtain ⟨p, hp⟩ := additionalParams_ok h t htargets
  obtain ⟨d, hd, -⟩ :=
    marshalStateJSON_get? h t.base "Task" (some (GoMap.set p "Resource" (getAttArn l)))
  refine ⟨.obj d, ?_⟩
  cases depth <;> simp only [State.MarshalJSON, State.marshalWith, bind, Except.bind, hp, hd]

/-- C13: a Lambda task whose catchers `c1..cn` all have a target serializes, and
the `Catch` member of its object, as of the object `marshalMergedParams` gives,
is an array with exactly `n` entries in the same order, entry `i` being the
object with `ErrorEquals` holding the array of the error names of `ci` as strings
in their order (JSON null for a catcher that holds the nil slice, one built with no
error name) and `Next` holding the name of the target of `ci`. -/
theorem C13_Task_Catch_entries {n : Nat} (h : Heap n) (depth : Nat) (t : BaseTask n)
    (l : String) (catchers : List (TaskCatch n)) (hc : t.Catchers = some catchers)
    (htargets : ∀ c ∈ catchers, c.next ≠ none) :
    (∃ out entries, State.MarshalJSON h depth (.LambdaTaskState t l) = .ok out ∧
      out.field? "Catch" = some (.arr entries) ∧ entries.length = catchers.length ∧
      List.Forall₂ (fun c e => ∃ a, c.next = some a ∧
        e = Json.obj [("ErrorEquals", (match c.errorEquals with
            | some names => Json.arr (names.map Json.str)
            | none => Json.null)),
          ("Next", .str (h.Name a))])
        catchers entries) ∧
    ∀ resourceType params out, t.marshalMergedParams h resourceType params = .ok out →
      ∃ entries, out.field? "Catch" = some (.arr entries) ∧
        entries.length = catchers.length ∧
        List.Forall₂ (fun c e => ∃ a, c.next = some a ∧
          e = Json.obj [("ErrorEquals", (match c.errorEquals with
              | some names => Json.arr (names.map Json.str)
              | none => Json.null)),
            ("Next", .str (h.Name a))])
          catchers entries := by
  have conv : ∀ entries, List.Forall₂ (fun (c : TaskCatch n) e => ∃ a, c.next = some a ∧
        e = Json.obj [("ErrorEquals", marshalErrors c.errorEquals), ("Next", .str (h.Name a))])
        catchers entries →
      List.Forall₂ (fun (c : TaskCatch n) e => ∃ a, c.next = some a ∧
        e = Json.obj [("ErrorEquals", (match c.errorEquals with
            | some names => Json.arr (names.map Json.str)
            | none => Json.null)),
          ("Next", .str (h.Name a))])
        catchers entries := by
    intro entries hfa
    refine List.Forall₂.imp ?_ hfa
    rintro c e ⟨a, ha, he⟩
    refine ⟨a, ha, ?_⟩
    rw [he]
    cases c.errorEquals <;> rfl
  refine ⟨?_, ?_⟩
  · obtain ⟨out, hout⟩ := lambda_marshal_ok h depth t l (by
      intro cs hcs c hcmem
      rw [hc] at hcs
      cases hcs
      exact htargets c hcmem)
    obtain ⟨p, hp, hk⟩ := task_members h depth t l "" none out (Or.inl hout)
    obtain ⟨entries, he, hfa⟩ := (additionalParams_members h t p hp).2.2.2.2.2 catchers hc
    exact ⟨out, entries, hout, by rw [hk "Catch" (by simp), he], hfa.length_eq.symm,
      conv entries hfa⟩
  · intro resourceType params out hout
    obtain ⟨p, hp, hk⟩ := task_members h 0 t l resourceType params out (Or.inr hout)
    obtain ⟨entries, he, hfa⟩ := (additionalParams_members h t p hp).2.2.2.2.2 catchers hc
    exact ⟨entries, by rw [hk "Catch" (by simp), he], hfa.length_eq.symm, conv entries hfa⟩

/-- C13 at a task with two catchers: the first names `States.Timeout` and
`States.TaskFailed` and leads to `Recover`, the second names `States.ALL` and leads
to `Done`; the `Catch` array of its object holds the two entries in that order,
each with its error names in their order. -/
theorem C13_Task_Catch_entries_witness :
    (orderedTask.Catchers = some orderedCatchers ∧
      (∀ c ∈ orderedCatchers, c.next ≠ none) ∧
      State.MarshalJSON taskHeap 0 (.LambdaTaskState orderedTask "") = .ok orderedObject ∧
      orderedObject.field? "Catch" = some (.arr [
        .obj [("ErrorEquals", .arr [.str "States.Timeout", .str "States.TaskFailed"]),
          ("Next", .str "Recover")],
        .obj [("ErrorEquals", .arr [.str "States.ALL"]), ("Next", .str "Done")]])) ∧
    ((∃ out entries, State.MarshalJSON taskHeap 0 (.LambdaTaskState orderedTask "") = .ok out ∧
      out.field? "Catch" = some (.arr entries) ∧ entries.length = orderedCatchers.length ∧
      List.Forall₂ (fun c e => ∃ a, c.next = some a ∧
        e = Json.obj [("ErrorEquals", (match c.errorEquals with
            | some names => Json.arr (names.map Json.str)
            | none => Json.null)),
          ("Next", .str (taskHeap.Name a))])
        orderedCatchers entries) ∧
    ∀ resourceType params out,
      orderedTask.marshalMergedParams taskHeap resourceType params = .ok out →
      ∃ entries, out.field? "Catch" = some (.arr entries) ∧
        entries.length = orderedCatchers.length ∧
        List.Forall₂ (fun c e => ∃ a, c.next = some a ∧
          e = Json.obj [("ErrorEquals", (match c.errorEquals with
              | some names => Json.arr (names.map Json.str)
              | none => Json.null)),
            ("Next", .str (taskHeap.Name a))])
          orderedCatchers entries) :=
  ⟨⟨rfl, by simp [orderedCatchers, NewTaskCatch], rfl, rfl⟩,
    C13_Task_Catch_entries taskHeap 0 orderedTask "" orderedCatchers rfl
      (by simp [orderedCatchers, NewTaskCatch])⟩

/-- C14 fails on the code: two Parallel states built by `NewParallelState` that
differ only in their nested machine have the same object, and the object has
none of the members `StartAt`, `States` and `Branches`. -/
theorem C14_Parallel_object_omits_nested_machine :
    branchMachine.startAt ≠ otherMachine.startAt ∧
    State.MarshalJSON parallelHeap 0 (NewParallelState "P" 41 branchMachine) = .ok parallelObject ∧
    State.MarshalJSON parallelHeap 0 (NewParallelState "P" 41 otherMachine) = .ok parallelObject ∧
    parallelObject.field? "StartAt" = none ∧ parallelObject.field? "States" = none ∧
    parallelObject.field? "Branches" = none :=
  ⟨by decide, rfl, rfl, rfl, rfl, rfl⟩

/-- C15 fails on the code: the `Next` member of a catch entry of a Parallel state
is the whole object of the target state, not its name. -/
theorem C15_Parallel_Catch_Next_is_an_object :
    catchHeap 0 = (NewParallelState "P" 91 branchMachine).calls
      [.WithRetriers [exampleRetry], .WithCatchers [NewTaskCatch (some 1) ["States.ALL"]]] ∧
    State.MarshalJSON catchHeap 1 (catchHeap 0) = .ok catchObject ∧
    catchObject.field? "Catch" =
      some (.arr [.obj [("ErrorEquals", .arr [.str "States.ALL"]), ("Next", recoverObject)]]) ∧
    State.MarshalJSON catchHeap 0 (catchHeap 1) = .ok recoverObject ∧
    catchHeap.Name 1 = "Recover" :=
  ⟨rfl, rfl, rfl, rfl, rfl⟩

/-- C16: each of the three Wait states serializes, its object has `Type` equal
to `Wait`, and of the members `Seconds`, `Timestamp` and `TimestampPath` it has
exactly one: `Seconds` (the delay in seconds) for `WaitDelay`, `Timestamp` (the
RFC3339 text of the instant) for `WaitUntil`, `TimestampPath` (the path) for
`WaitDynamicUntil`. -/
theorem C16_Wait_serialization {n : Nat} (h : Heap n) (depth : Nat) (b : baseInnerState n)
    (delay : Duration) (timestamp : Time) (timestampPath : String) :
    (∃ out, State.MarshalJSON h depth (.WaitDelay b delay) = .ok out ∧
      out.field? "Type" = some (.str "Wait") ∧
      out.field? "Seconds" = some (.num (Duration.Seconds delay)) ∧
      out.field? "Timestamp" = none ∧ out.field? "TimestampPath" = none) ∧
    (∃ out, State.MarshalJSON h depth (.WaitUntil b timestamp) = .ok out ∧
      out.field? "Type" = some (.str "Wait") ∧
      out.field? "Seconds" = none ∧
      out.field? "Timestamp" = some (.str timestamp.FormatRFC3339) ∧
      out.field? "TimestampPath" = none) ∧
    (∃ out, State.MarshalJSON h depth (.WaitDynamicUntil b timestampPath) = .ok out ∧
      out.field? "Type" = some (.str "Wait") ∧
      out.field? "Seconds" = none ∧ out.field? "Timestamp" = none ∧
      out.field? "TimestampPath" = some (.str timestampPath)) := by
  refine ⟨?_, ?_, ?_⟩
  · obtain ⟨d, hd, hget⟩ := marshalStateJSON_get? h b "Wait"
      (some (GoMap.set [] "Seconds" (.num (Duration.Seconds delay))))
    have hm : State.MarshalJSON h depth (.WaitDelay b delay) = .ok (.obj d) := by
      cases depth <;> exact hd
    refine ⟨.obj d, hm, ?_, ?_, ?_, ?_⟩ <;> simp [Json.field?, hget, GoMap.set, GoMap.get?]
  · obtain ⟨d, hd, hget⟩ := marshalStateJSON_get? h b "Wait"
      (some (GoMap.set [] "Timestamp" (.str timestamp.FormatRFC3339)))
    have hm : State.MarshalJSON h depth (.WaitUntil b timestamp) = .ok (.obj d) := by
      cases depth <;> exact hd
    refine ⟨.obj d, hm, ?_, ?_, ?_, ?_⟩ <;> simp [Json.field?, hget, GoMap.set, GoMap.get?]
  · obtain ⟨d, hd, hget⟩ := marshalStateJSON_get? h b "Wait"
      (some (GoMap.set [] "TimestampPath" (.str timestampPath)))
    have hm : State.MarshalJSON h depth (.WaitDynamicUntil b timestampPath) = .ok (.obj d) := by
      cases depth <;> exact hd
    refine ⟨.obj d, hm, ?_, ?_, ?_, ?_⟩ <;> simp [Json.field?, hget, GoMap.set, GoMap.get?]

set_option maxRecDepth 20000 in
/-- C17 fails as stated: the parameters `{}` are an object, as is their generic
form, and for a task with a catcher that has no target `marshalMergedParams` gives
no object: the call `eachCatcher.next.Name()` of `additionalParams` panics.  And
the parameters `{"n": 1e400}` are encoded as an object and have no generic form:
the number does not fit a `float64`, `json.Unmarshal` fails and so does the call. -/
theorem C17_object_params_and_no_result :
    (Value.Marshal (some (.json (.obj []))) = .ok (.obj []) ∧
      Value.generic (some (.json (.obj []))) = .ok (.obj []) ∧
      danglingCatchTask.Catchers = some [NewTaskCatch none ["States.ALL"]] ∧
      danglingCatchTask.marshalMergedParams taskHeap "arn:states:run"
          (some (.json (.obj []))) =
        .error (.panic "invalid memory address or nil pointer dereference")) ∧
    (Value.Marshal (some (.json hugeParams)) = .ok hugeParams ∧
      Value.generic (some (.json hugeParams)) =
        .error (.error "json: cannot unmarshal number into Go value of type float64") ∧
      workTask.marshalMergedParams taskHeap "arn:states:run" (some (.json hugeParams)) =
        .error (.error "attempting to unmarshall params")) :=
  ⟨⟨rfl, rfl, rfl, rfl⟩, ⟨rfl, rfl, rfl⟩⟩

/-- C17, amended: for a task whose catchers all have a target,
`marshalMergedParams(resourceType, params)` returns an object exactly when the
generic JSON form of `params` (its encoding decoded into an `interface{}`) is an
object; then the object has `Type` equal to `Task`, `Resource` equal to
`resourceType` and `Parameters` equal to the form of `params`.  The form is an
object only when the encoding of `params` is one: for an array, a string, a number,
a boolean and null the call fails. -/
theorem C17_marshalMergedParams {n : Nat} (h : Heap n) (bt : BaseTask n)
    (resourceType : String) (params : Option Value)
    (htargets : ∀ cs, bt.Catchers = some cs → ∀ c ∈ cs, c.next ≠ none) :
    ((∃ out, bt.marshalMergedParams h resourceType params = .ok out) ↔
      ∃ m, Value.generic params = .ok (.obj m)) ∧
    (∀ m, Value.generic params = .ok (.obj m) →
      ∃ out, bt.marshalMergedParams h resourceType params = .ok out ∧
        out.field? "Type" = some (.str "Task") ∧
        out.field? "Resource" = some (.str resourceType) ∧
        out.field? "Parameters" = some (.obj m)) ∧
    (∀ m, Value.generic params = .ok (.obj m) →
      ∃ kvs, Value.Marshal params = .ok (.obj kvs)) ∧
    ∀ j, Value.Marshal params = .ok j → (∀ kvs, j ≠ .obj kvs) →
      ∃ e, bt.marshalMergedParams h resourceType params = .error e := by
  have key : ∀ m, Value.generic params = .ok (.obj m) →
      ∃ out, bt.marshalMergedParams h resourceType params = .ok out ∧
        out.field? "Type" = some (.str "Task") ∧
        out.field? "Resource" = some (.str resourceType) ∧
        out.field? "Parameters" = some (.obj m) := by
    intro m hm
    obtain ⟨p, hp⟩ := additionalParams_ok h bt htargets
    obtain ⟨d, hd, hget⟩ := marshalStateJSON_get? h bt.base "Task"
      (some (GoMap.set (GoMap.set p "Resource" (.str resourceType)) "Parameters" (.obj m)))
    have hout : bt.marshalMergedParams h resourceType params = .ok (.obj d) := by
      unfold Value.generic at hm
      unfold BaseTask.marshalMergedParams
      cases hv : Value.Marshal params with
      | error e => simp [hv] at hm
      | ok j =>
        simp only [hv] at hm
        simp only [hm, bind, Except.bind, hp]
        exact hd
    refine ⟨.obj d, hout, ?_, ?_, ?_⟩ <;> simp [Json.field?, hget, GoMap.get?_set]
  have hobj : ∀ m, Value.generic params = .ok (.obj m) →
      ∃ kvs, Value.Marshal params = .ok (.obj kvs) := by
    intro m hm
    unfold Value.generic at hm
    cases hv : Value.Marshal params with
    | error e => simp [hv] at hm
    | ok j =>
      simp only [hv] at hm
      obtain ⟨kvs, rfl⟩ := unmarshalGeneric_obj _ j m hm
      exact ⟨kvs, rfl⟩
  refine ⟨⟨?_, ?_⟩, key, hobj, ?_⟩
  · rintro ⟨out, hout⟩
    obtain ⟨p, m, -, hm, -⟩ := merged_marshal h bt resourceType params out hout
    exact ⟨m, hm⟩
  · rintro ⟨m, hm⟩
    obtain ⟨out, hout, -⟩ := key m hm
    exact ⟨out, hout⟩
  · intro j hj hne
    cases hr : bt.marshalMergedParams h resourceType params with
    | error e => exact ⟨e, rfl⟩
    | ok out =>
      exfalso
      obtain ⟨p, m, -, hm, -⟩ := merged_marshal h bt resourceType params out hr
      obtain ⟨kvs, hk⟩ := hobj m hm
      rw [hj] at hk
      cases hk
      exact hne kvs rfl

set_option maxRecDepth 20000 in
/-- C17, amended, at the task `Work`, whose one catcher leads to `Recover`, with the
parameters `{"Cluster": "c", "Count": 9007199254740993}`: the count is decoded into
a `float64` and the object holds 9007199254740992. -/
theorem C17_marshalMergedParams_witness :
    ((∀ cs, workTask.Catchers = some cs → ∀ c ∈ cs, c.next ≠ none) ∧
      Value.generic (some (.json countedParams)) =
        .ok (.obj [("Cluster", .str "c"), ("Count", .num ⟨9007199254740992, 0⟩)]) ∧
      workTask.marshalMergedParams taskHeap "arn:states:run" (some (.json countedParams)) =
        .ok countedObject ∧
      countedObject.field? "Parameters" =
        some (.obj [("Cluster", .str "c"), ("Count", .num ⟨9007199254740992, 0⟩)])) ∧
    (((∃ out, workTask.marshalMergedParams taskHeap "arn:states:run"
        (some (.json countedParams)) = .ok out) ↔
      ∃ m, Value.generic (some (.json countedParams)) = .ok (.obj m)) ∧
    (∀ m, Value.generic (some (.json countedParams)) = .ok (.obj m) →
      ∃ out, workTask.marshalMergedParams taskHeap "arn:states:run"
          (some (.json countedParams)) = .ok out ∧
        out.field? "Type" = some (.str "Task") ∧
        out.field? "Resource" = some (.str "arn:states:run") ∧
        out.field? "Parameters" = some (.obj m)) ∧
    (∀ m, Value.generic (some (.json countedParams)) = .ok (.obj m) →
      ∃ kvs, Value.Marshal (some (.json countedParams)) = .ok (.obj kvs)) ∧
    ∀ j, Value.Marshal (some (.json countedParams)) = .ok j → (∀ kvs, j ≠ .obj kvs) →
      ∃ e, workTask.marshalMergedParams taskHeap "arn:states:run"
        (some (.json countedParams)) = .error e) :=
  ⟨⟨by
      intro cs hcs c hc
      have e : cs = [NewTaskCatch (some 2) ["States.ALL"]] := by
        have : workTask.Catchers = some [NewTaskCatch (some 2) ["States.ALL"]] := rfl
        rw [this] at hcs
        exact (Option.some.inj hcs).symm
      subst e
      simp only [List.mem_singleton] at hc
      subst hc
      simp [NewTaskCatch], rfl, rfl, rfl⟩,
    C17_marshalMergedParams taskHeap workTask "arn:states:run"
      (some (.json countedParams)) (by
        intro cs hcs c hc
        have e : cs = [NewTaskCatch (some 2) ["States.ALL"]] := by
          have : workTask.Catchers = some [NewTaskCatch (some 2) ["States.ALL"]] := rfl
          rw [this] at hcs
          exact (Option.some.inj hcs).symm
        subst e
        simp only [List.mem_singleton] at hc
        subst hc
        simp [NewTaskCatch])⟩

/-- C18: `MarshalJSON` of a bare `BaseTask` returns its error and no object,
whatever the fields of the task. -/
theorem C18_BaseTask_MarshalJSON_fails {n : Nat} (h : Heap n) (depth : Nat) (t : BaseTask n) :
    State.MarshalJSON h depth (.BaseTask t) = .error (.error
      "step.BaseTask doesn't support direct JSON serialization. Prefer using an embedding Task type (eg: TaskState, FargateTaskState)") ∧
    ∀ out, State.MarshalJSON h depth (.BaseTask t) ≠ .ok out := by
  have e : State.MarshalJSON h depth (.BaseTask t) = .error (.error
      "step.BaseTask doesn't support direct JSON serialization. Prefer using an embedding Task type (eg: TaskState, FargateTaskState)") := by
    cases depth <;> rfl
  refine ⟨e, fun out hout => ?_⟩
  rw [e] at hout
  cases hout

/-- C19: a comparison whose literal value has a JSON encoding serializes to the
object with exactly the two members `Variable`, holding its variable path, and
the member named after its type, holding the literal value; the two names
differ.  A `BooleanEquals` whose value has no encoding gives the error of the
encoder. -/
theorem C19_Comparison_serialization (c : Comparison) :
    c.MarshalJSON =
      (match c.literal with
        | some v => .ok (.obj [("Variable", .str c.Variable), (c.typeName, v)])
        | none => .error (.error "json: unsupported type")) ∧
    c.typeName ≠ "Variable" := by
  cases c with
  | BooleanEquals v x =>
    refine ⟨?_, by simp [Comparison.typeName]⟩
    cases x with
    | none => rfl
    | some y => cases y <;> rfl
  | _ => exact ⟨rfl, by simp [Comparison.typeName]⟩

/-- C20 fails as stated: an `And` (and an `Or`) branch with one comparison and a
target whose name is the empty string serializes without the member `Next`,
which is tagged `omitempty`. -/
theorem C20_And_Or_unnamed_target_has_no_Next :
    unnamedHeap.Name 0 = "" ∧
    ChoiceBranch.MarshalJSON unnamedHeap (.And [.StringEquals "$.x" "go"] (some 0)) =
      .ok (.obj [("And", .arr [.obj [("Variable", .str "$.x"), ("StringEquals", .str "go")]])]) ∧
    (Json.obj [("And", .arr [.obj [("Variable", .str "$.x"),
      ("StringEquals", .str "go")]])]).field? "Next" = none ∧
    ChoiceBranch.MarshalJSON unnamedHeap (.Or [.StringEquals "$.x" "go"] (some 0)) =
      .ok (.obj [("Or", .arr [.obj [("Variable", .str "$.x"), ("StringEquals", .str "go")]])]) ∧
    (Json.obj [("Or", .arr [.obj [("Variable", .str "$.x"),
      ("StringEquals", .str "go")]])]).field? "Next" = none :=
  ⟨rfl, rfl, rfl, rfl, rfl⟩

/-- C20, amended: an `And` (resp. `Or`) branch with a non-empty comparison list
and a target whose name is not the empty string serializes to the object with
exactly the members `And` (resp. `Or`), holding the encodings of the comparisons
in order, and `Next`, holding the name of the target; a `Not` branch with a
target serializes to the object with exactly the members `Not`, holding the
encoding of its comparison, and `Next`, holding the name of the target. -/
theorem C20_branch_serialization {n : Nat} (h : Heap n) (a : Fin n) :
    (∀ cmps out, cmps ≠ [] → h.Name a ≠ "" →
      ChoiceBranch.MarshalJSON h (.And cmps (some a)) = .ok out →
      ∃ entries, List.Forall₂ (fun c e => Comparison.MarshalJSON c = .ok e) cmps entries ∧
        out = .obj [("And", .arr entries), ("Next", .str (h.Name a))]) ∧
    (∀ cmps out, cmps ≠ [] → h.Name a ≠ "" →
      ChoiceBranch.MarshalJSON h (.Or cmps (some a)) = .ok out →
      ∃ entries, List.Forall₂ (fun c e => Comparison.MarshalJSON c = .ok e) cmps entries ∧
        out = .obj [("Or", .arr entries), ("Next", .str (h.Name a))]) ∧
    (∀ cmp out, ChoiceBranch.MarshalJSON h (.Not cmp (some a)) = .ok out →
      ∃ e, Comparison.MarshalJSON cmp = .ok e ∧
        out = .obj [("Not", e), ("Next", .str (h.Name a))]) := by
  have nonempty : ∀ (cmps : List Comparison) (entries : List Json), cmps ≠ [] →
      List.Forall₂ (fun c e => Comparison.MarshalJSON c = .ok e) cmps entries →
      entries.isEmpty = false := by
    intro cmps entries hne hfa
    cases hfa with
    | nil => exact absurd rfl hne
    | cons _ _ => rfl
  refine ⟨?_, ?_, ?_⟩
  · intro cmps out hne hname hout
    cases hcs : mapE Comparison.MarshalJSON cmps with
    | error e => simp [ChoiceBranch.MarshalJSON, refName, bind, Except.bind, hcs] at hout
    | ok entries =>
      have hfa := mapE_forall₂ _ _ _ hcs
      simp only [ChoiceBranch.MarshalJSON, refName, bind, Except.bind, hcs, pure, Except.pure,
        nonempty cmps entries hne hfa, omitEmptyStr, hname, if_false, Bool.false_eq_true,
        Except.ok.injEq, List.singleton_append] at hout
      exact ⟨entries, hfa, hout.symm⟩
  · intro cmps out hne hname hout
    cases hcs : mapE Comparison.MarshalJSON cmps with
    | error e => simp [ChoiceBranch.MarshalJSON, refName, bind, Except.bind, hcs] at hout
    | ok entries =>
      have hfa := mapE_forall₂ _ _ _ hcs
      simp only [ChoiceBranch.MarshalJSON, refName, bind, Except.bind, hcs, pure, Except.pure,
        nonempty cmps entries hne hfa, omitEmptyStr, hname, if_false, Bool.false_eq_true,
        Except.ok.injEq, List.singleton_append] at hout
      exact ⟨entries, hfa, hout.symm⟩
  · intro cmp out hout
    cases hc : Comparison.MarshalJSON cmp with
    | error e => simp [ChoiceBranch.MarshalJSON, refName, bind, Except.bind, hc] at hout
    | ok e =>
      simp only [ChoiceBranch.MarshalJSON, refName, bind, Except.bind, hc, pure, Except.pure,
        Except.ok.injEq] at hout
      exact ⟨e, rfl, hout.symm⟩

/-- C20, amended, at branches of `routerHeap` that lead to the state `Go`. -/
theorem C20_branch_serialization_witness :
    (∃ entries,
      List.Forall₂ (fun c e => Comparison.MarshalJSON c = .ok e)
        [Comparison.StringEquals "$.x" "go"] entries ∧
      Json.obj [("And", .arr [.obj [("Variable", .str "$.x"), ("StringEquals", .str "go")]]),
        ("Next", .str "Go")] = .obj [("And", .arr entries), ("Next", .str (routerHeap.Name 1))]) ∧
    (∃ entries,
      List.Forall₂ (fun c e => Comparison.MarshalJSON c = .ok e)
        [Comparison.NumericLessThan "$.n" 3] entries ∧
      Json.obj [("Or", .arr [.obj [("Variable", .str "$.n"), ("NumericLessThan", .num ⟨3, 0⟩)]]),
        ("Next", .str "Go")] = .obj [("Or", .arr entries), ("Next", .str (routerHeap.Name 1))]) ∧
    (∃ e, Comparison.MarshalJSON (.BooleanEquals "$.b" (some (.json (.bool true)))) = .ok e ∧
      Json.obj [("Not", .obj [("Variable", .str "$.b"), ("BooleanEquals", .bool true)]),
        ("Next", .str "Go")] = .obj [("Not", e), ("Next", .str (routerHeap.Name 1))]) :=
  ⟨(C20_branch_serialization routerHeap 1).1 [.StringEquals "$.x" "go"] _ (by simp) (by decide) rfl,
    (C20_branch_serialization routerHeap 1).2.1 [.NumericLessThan "$.n" 3] _ (by simp) (by decide)
      rfl,
    (C20_branch_serialization routerHeap 1).2.2 (.BooleanEquals "$.b" (some (.json (.bool true))))
      _ rfl⟩

/-! ## Colliding names, validation and nested machines -/

/-- C23: `validate` returns the empty list for every machine `NewStateMachine`
returns, whether or not reachable states share a name and whatever the catch
lists are; and a Lambda task serializes its catch list entry by entry in the
given order, whether or not the list obeys the wildcard rule. -/
theorem C23_validate_is_empty {n : Nat} (h : Heap n) (fuel : Nat) (name : String)
    (start : Fin n) (sm : StateMachine n)
    (hsm : NewStateMachine h fuel name start = some sm) :
    sm.validate = [] ∧
    ∀ depth (t : BaseTask n) (l : String) (catchers : List (TaskCatch n)) (out : Json),
      t.Catchers = some catchers →
      State.MarshalJSON h depth (.LambdaTaskState t l) = .ok out →
      ∃ entries, out.field? "Catch" = some (.arr entries) ∧
        List.Forall₂ (fun c e => ∃ a, c.next = some a ∧
          e = Json.obj [("ErrorEquals", marshalErrors c.errorEquals), ("Next", .str (h.Name a))])
          catchers entries := by
  refine ⟨?_, ?_⟩
  · have ht := (NewStateMachine_eq_some h fuel name start sm hsm).1
    unfold NewStateMachine at hsm
    rw [ht] at hsm
    simp only [Option.some.injEq] at hsm
    rw [← hsm]
    rfl
  · intro depth t l catchers out hc hout
    obtain ⟨p, hp, hk⟩ := task_members h depth t l "" none out (Or.inl hout)
    obtain ⟨entries, he, hfa⟩ := (additionalParams_members h t p hp).2.2.2.2.2 catchers hc
    exact ⟨entries, by rw [hk "Catch" (by simp), he], hfa⟩

/-- C23 at the task `Work` of `wildHeap`: its two catcher targets share the name
`Recover`, and its first catcher names the wildcard together with another error. -/
theorem C23_validate_is_empty_witness :
    (NewStateMachine wildHeap 3 "m" 0 = some wildMachine ∧
      wildHeap.Name 1 = wildHeap.Name 2 ∧ wildcardAloneAndLast wildCatchers = false ∧
      State.MarshalJSON wildHeap 0 (.LambdaTaskState wildTask "") = .ok wildObject) ∧
    (wildMachine.validate = [] ∧
    ∀ depth (t : BaseTask 3) (l : String) (catchers : List (TaskCatch 3)) (out : Json),
      t.Catchers = some catchers →
      State.MarshalJSON wildHeap depth (.LambdaTaskState t l) = .ok out →
      ∃ entries, out.field? "Catch" = some (.arr entries) ∧
        List.Forall₂ (fun c e => ∃ a, c.next = some a ∧
          e = Json.obj [("ErrorEquals", marshalErrors c.errorEquals),
            ("Next", .str (wildHeap.Name a))])
          catchers entries) :=
  ⟨⟨rfl, by decide, by decide, rfl⟩, C23_validate_is_empty wildHeap 3 "m" 0 wildMachine rfl⟩

/-- The traversal reads a heap only through the names and the successors of its states. -/
theorem traverse_congr {n : Nat} (h h2 : Heap n) (hN : ∀ a, h2.Name a = h.Name a)
    (hS : ∀ a, successors h2 a = successors h a) (fuel : Nat) (u : GoMap (Fin n))
    (q : List (Fin n)) : traverse h2 fuel u q = traverse h fuel u q := by
  have hV : ∀ (u : GoMap (Fin n)) (r : Ref n), nodeVisited h2 u r = nodeVisited h u r := by
    intro u r
    cases r with
    | none => rfl
    | some a => simp only [nodeVisited, hN]
  have hA : ∀ (u : GoMap (Fin n)), appendUnvisited h2 u = appendUnvisited h u := by
    intro u
    funext tl r
    cases r with
    | none => rfl
    | some a => simp only [appendUnvisited, hV]
  have hvisit : ∀ (u : GoMap (Fin n)) (hd : Fin n) (tl : List (Fin n)),
      visit h2 u hd tl = visit h u hd tl := by
    intro u hd tl
    rw [visit_eq, visit_eq, hN, hS, hA]
  induction fuel generalizing u q with
  | zero => cases q <;> rfl
  | succ fuel ih =>
    cases q with
    | nil => rfl
    | cons hd tl =>
      simp only [traverse, hvisit]
      exact ih _ _

/-- C24: replacing the nested machine of a Parallel state `P` by any other
machine leaves every machine `NewStateMachine` builds on the heap unchanged;
the successors of `P` are its `Next` alone, and every entry of a table is a
state reachable from the start state along successors, so a state that is
reachable only through the nested machine of `P` is in no outer table. -/
theorem C24_nested_machine_is_opaque {n : Nat} (h : Heap n) (p : Fin n)
    (b : baseInnerState n) (states other : StateMachine n) (resultPath : String)
    (retriers : List TaskRetry) (catchers : Option (List (TaskCatch n)))
    (hp : h p = .ParallelState b states resultPath retriers catchers) :
    (∀ fuel name start,
      NewStateMachine (Function.update h p (.ParallelState b other resultPath retriers catchers))
        fuel name start = NewStateMachine h fuel name start) ∧
    successors h p = (match b.next with
      | some a => [some a]
      | none => []) ∧
    ∀ fuel name start sm, NewStateMachine h fuel name start = some sm →
      ∀ k a, sm.uniqueStates.get? k = some a → Reachable h start a := by
  refine ⟨?_, ?_, ?_⟩
  · intro fuel name start
    have hN : ∀ a, Heap.Name
        (Function.update h p (.ParallelState b other resultPath retriers catchers)) a =
        h.Name a := by
      intro a
      by_cases ha : a = p
      · subst ha
        simp [Heap.Name, hp, State.Name, State.base]
      · simp [Heap.Name, Function.update_noteq ha]
    have hS : ∀ a, successors
        (Function.update h p (.ParallelState b other resultPath retriers catchers)) a =
        successors h a := by
      intro a
      by_cases ha : a = p
      · subst ha
        simp [successors, hp, State.AdjacentStates, State.base]
      · simp [successors, Function.update_noteq ha]
    unfold NewStateMachine
    rw [traverse_congr h _ hN hS]
  · simp [successors, hp, State.AdjacentStates, State.base]
  · intro fuel name start sm hsm k a hk
    have ht := (NewStateMachine_eq_some h fuel name start sm hsm).1
    exact ((TraversalInv.traverse h start fuel [] [start] _ (TraversalInv.init h start)
      ht).entries k a hk).2

/-- C24 at the Parallel state `P` of `nestedHeap`, whose nested machine holds `Inner`. -/
theorem C24_nested_machine_is_opaque_witness :
    nestedHeap 1 = .ParallelState nestedBase innerMachine "" [] none ∧
    ((∀ fuel name start,
      NewStateMachine (Function.update nestedHeap 1 (.ParallelState nestedBase emptyMachine "" []
        none)) fuel name start = NewStateMachine nestedHeap fuel name start) ∧
    successors nestedHeap 1 = (match nestedBase.next with
      | some a => [some a]
      | none => []) ∧
    ∀ fuel name start sm, NewStateMachine nestedHeap fuel name start = some sm →
      ∀ k a, sm.uniqueStates.get? k = some a → Reachable nestedHeap start a) :=
  ⟨rfl, C24_nested_machine_is_opaque nestedHeap 1 nestedBase innerMachine emptyMachine "" []
    none rfl⟩

/-! ## The id is not serialized -/

theorem Name_setIds {n : Nat} (h : Heap n) (ids : Fin n → Int) (a : Fin n) :
    (h.setIds ids).Name a = h.Name a := by
  simp only [Heap.Name, Heap.setIds, State.Name]
  cases h a <;> rfl

theorem refName_setIds {n : Nat} (h : Heap n) (ids : Fin n → Int) (r : Ref n) :
    refName (h.setIds ids) r = refName h r := by
  cases r with
  | none => rfl
  | some a => simp only [refName, Name_setIds]

theorem marshalStateJSON_setIds {n : Nat} (h : Heap n) (ids : Fin n → Int)
    (b : baseInnerState n) (i : Int) (stateType : String) (data : Option (GoMap Json)) :
    baseInnerState.marshalStateJSON (h.setIds ids) { b with id := i } stateType data =
      b.marshalStateJSON h stateType data := by
  simp only [baseInnerState.marshalStateJSON, Name_setIds]

theorem ChoiceBranch_MarshalJSON_setIds {n : Nat} (h : Heap n) (ids : Fin n → Int) :
    ChoiceBranch.MarshalJSON (h.setIds ids) = ChoiceBranch.MarshalJSON h := by
  funext c
  cases c <;> simp only [ChoiceBranch.MarshalJSON, refName_setIds]

theorem additionalParams_setIds {n : Nat} (h : Heap n) (ids : Fin n → Int) (t : BaseTask n)
    (i : Int) :
    BaseTask.additionalParams (h.setIds ids) { t with base := { t.base with id := i } } =
      t.additionalParams h := by
  simp only [BaseTask.additionalParams, refName_setIds]

theorem marshalWith_setIds {n : Nat} (h : Heap n) (ids : Fin n → Int)
    (ms : Fin n → Except Err Json) (s : State n) (i : Int) :
    State.marshalWith (h.setIds ids) ms (s.mapBase (fun b => { b with id := i })) =
      s.marshalWith h ms := by
  cases s <;>
    simp only [State.mapBase, State.marshalWith, marshalStateJSON_setIds,
      ChoiceBranch_MarshalJSON_setIds, additionalParams_setIds, Name_setIds]

theorem MarshalJSON_setIds {n : Nat} (h : Heap n) (ids : Fin n → Int) (depth : Nat)
    (s : State n) (i : Int) :
    State.MarshalJSON (h.setIds ids) depth (s.mapBase (fun b => { b with id := i })) =
      State.MarshalJSON h depth s := by
  induction depth generalizing s i with
  | zero => exact marshalWith_setIds h ids _ s i
  | succ d ih =>
    simp only [State.MarshalJSON]
    have : (fun a => State.MarshalJSON (h.setIds ids) d ((h.setIds ids) a)) =
        (fun a => State.MarshalJSON h d (h a)) := by
      funext a
      exact ih (h a) (ids a)
    rw [this]
    exact marshalWith_setIds h ids _ s i

/-- C25: the serialized output does not depend on the ids.  In the heap with any
other ids, a state with any other id serializes to the same result as the state
itself, and a machine serializes to the same result. -/
theorem C25_id_is_not_serialized {n : Nat} (h : Heap n) (ids : Fin n → Int) (depth : Nat) :
    (∀ (s : State n) (i : Int),
      State.MarshalJSON (h.setIds ids) depth (s.mapBase (fun b => { b with id := i })) =
        State.MarshalJSON h depth s) ∧
    ∀ sm : StateMachine n,
      StateMachine.MarshalJSON (h.setIds ids) depth sm = StateMachine.MarshalJSON h depth sm := by
  refine ⟨fun s i => MarshalJSON_setIds h ids depth s i, fun sm => ?_⟩
  have : (fun (kv : String × Fin n) => (do
      let j ← State.MarshalJSON (h.setIds ids) depth ((h.setIds ids) kv.2)
      pure (kv.1, j) : Except Err (String × Json))) =
      (fun (kv : String × Fin n) => (do
      let j ← State.MarshalJSON h depth (h kv.2)
      pure (kv.1, j) : Except Err (String × Json))) := by
    funext kv
    have e : State.MarshalJSON (h.setIds ids) depth ((h.setIds ids) kv.2) =
        State.MarshalJSON h depth (h kv.2) := MarshalJSON_setIds h ids depth (h kv.2) (ids kv.2)
    rw [e]
  simp only [StateMachine.MarshalJSON, refName_setIds, this]

/-! ## All or nothing, and the scenarios -/

theorem mapE_ok_iff {α β : Type} (f : α → Except Err β) (xs : List α) :
    (∃ ys, mapE f xs = .ok ys) ↔ ∀ x ∈ xs, ∃ y, f x = .ok y := by
  refine ⟨?_, mapE_ok_of_forall f xs⟩
  rintro ⟨ys, hys⟩
  have hfa := mapE_forall₂ f xs ys hys
  clear hys
  induction hfa with
  | nil => simp
  | cons hxy _ ih =>
    intro x hx
    rcases List.mem_cons.1 hx with e | e
    · exact ⟨_, e ▸ hxy⟩
    · exact ih x e

/-- C26: a machine serializes to a document exactly when its start state is not
nil and every state of its table serializes; if one state of the table does not
serialize, the machine gives an error and no document. -/
theorem C26_all_or_nothing {n : Nat} (h : Heap n) (depth : Nat) (sm : StateMachine n) :
    ((∃ doc, StateMachine.MarshalJSON h depth sm = .ok doc) ↔
      (sm.startAt ≠ none ∧
        ∀ kv ∈ sm.uniqueStates, ∃ j, State.MarshalJSON h depth (h kv.2) = .ok j)) ∧
    ∀ kv ∈ sm.uniqueStates, ∀ e, State.MarshalJSON h depth (h kv.2) = .error e →
      ∃ e2, StateMachine.MarshalJSON h depth sm = .error e2 := by
  have key : (∃ doc, StateMachine.MarshalJSON h depth sm = .ok doc) ↔
      (sm.startAt ≠ none ∧
        ∀ kv ∈ sm.uniqueStates, ∃ j, State.MarshalJSON h depth (h kv.2) = .ok j) := by
    have hentry : ∀ kv : String × Fin n,
        (∃ y, (do
          let j ← State.MarshalJSON h depth (h kv.2)
          pure (kv.1, j) : Except Err (String × Json)) = .ok y) ↔
        ∃ j, State.MarshalJSON h depth (h kv.2) = .ok j := by
      intro kv
      cases hs : State.MarshalJSON h depth (h kv.2) with
      | error e => simp [bind, Except.bind]
      | ok j => simp [bind, Except.bind, pure, Except.pure]
    have hall := mapE_ok_iff (fun (kv : String × Fin n) => (do
      let j ← State.MarshalJSON h depth (h kv.2)
      pure (kv.1, j) : Except Err (String × Json))) sm.uniqueStates
    simp only [hentry] at hall
    rw [← hall]
    unfold StateMachine.MarshalJSON
    cases hstart : sm.startAt with
    | none => simp [refName, bind, Except.bind]
    | some a =>
      simp only [refName, bind, Except.bind, pure, Except.pure, ne_eq, reduceCtorEq,
        not_false_eq_true, true_and]
      constructor
      · rintro ⟨doc, hdoc⟩
        split at hdoc
        · cases hdoc
        · rename_i ys hys
          exact ⟨ys, hys⟩
      · rintro ⟨ys, hys⟩
        rw [hys]
        exact ⟨_, rfl⟩
  refine ⟨key, ?_⟩
  intro kv hkv e he
  cases hres : StateMachine.MarshalJSON h depth sm with
  | error e2 => exact ⟨e2, rfl⟩
  | ok doc =>
    obtain ⟨j, hj⟩ := (key.1 ⟨doc, hres⟩).2 kv hkv
    rw [he] at hj
    cases hj

/-- C26 at the machine of `rawHeap`, whose table holds the bare `BaseTask` named `Raw`. -/
theorem C26_all_or_nothing_witness :
    (("Raw", (1 : Fin 2)) ∈ rawMachine.uniqueStates ∧
      State.MarshalJSON rawHeap 0 (rawHeap 1) = .error (.error
        "step.BaseTask doesn't support direct JSON serialization. Prefer using an embedding Task type (eg: TaskState, FargateTaskState)")) ∧
    ∃ e2, StateMachine.MarshalJSON rawHeap 0 rawMachine = .error e2 :=
  ⟨⟨by simp [rawMachine], rfl⟩,
    (C26_all_or_nothing rawHeap 0 rawMachine).2 ("Raw", 1) (by simp [rawMachine]) _ rfl⟩

/-- C27 (Scenario A): from Pass `A`, with `A → B → C`, `NewStateMachine` builds
the table with exactly the keys `A`, `B` and `C`; the object of `A` has `Next`
equal to `B` and no `End`, that of the task `B` has `Next` equal to `C` and no
`End`, and that of `C` has `Type` equal to `Succeed`. -/
theorem C27_scenario_A :
    (∀ k, NewStateMachine chainHeap (3 + k) "m" 0 = some chainMachine) ∧
    chainMachine.uniqueStates.keys = ["A", "B", "C"] ∧
    (∃ a, State.MarshalJSON chainHeap 0 (chainHeap 0) = .ok a ∧
      a.field? "Next" = some (.str "B") ∧ a.field? "End" = none) ∧
    (∃ b, State.MarshalJSON chainHeap 0 (chainHeap 1) = .ok b ∧
      b.field? "Next" = some (.str "C") ∧ b.field? "End" = none) ∧
    (∃ c, State.MarshalJSON chainHeap 0 (chainHeap 2) = .ok c ∧
      c.field? "Type" = some (.str "Succeed")) := by
  refine ⟨fun k => ?_, rfl, ⟨_, rfl, rfl, rfl⟩, ⟨_, rfl, rfl, rfl⟩, ⟨_, rfl, rfl⟩⟩
  have ht : traverse chainHeap 3 [] [0] = some [("A", 0), ("B", 1), ("C", 2)] := by decide
  unfold NewStateMachine
  rw [traverse_mono chainHeap 3 [] [0] _ ht k]
  rfl

/-- C28 (Scenario B): the object of the Choice `Router` has a `Choices` array of
length 1 and `Default` equal to `Bad`, and the table of the machine built from
`Start`, in which `Router` is traversed, has the keys `Go` and `Bad`. -/
theorem C28_scenario_B :
    State.MarshalJSON scenarioBHeap 0 (scenarioBHeap 1) = .ok routerObject ∧
    (∃ entries, routerObject.field? "Choices" = some (.arr entries) ∧ entries.length = 1) ∧
    routerObject.field? "Default" = some (.str "Bad") ∧
    (∀ k, ∃ sm, NewStateMachine scenarioBHeap (4 + k) "m" 0 = some sm ∧
      sm.uniqueStates.keys = ["Start", "Router", "Go", "Bad"] ∧
      "Go" ∈ sm.uniqueStates.keys ∧ "Bad" ∈ sm.uniqueStates.keys) := by
  refine ⟨rfl, ⟨_, rfl, rfl⟩, rfl, fun k => ?_⟩
  have ht : traverse scenarioBHeap 4 [] [0] =
      some [("Start", 0), ("Router", 1), ("Go", 2), ("Bad", 3)] := by decide
  refine ⟨⟨"m", "", none, some 0, [("Start", 0), ("Router", 1), ("Go", 2), ("Bad", 3)], none⟩,
    ?_, rfl, by decide, by decide⟩
  unfold NewStateMachine
  rw [traverse_mono scenarioBHeap 4 [] [0] _ ht k]
  rfl

/-- C29: `AdjacentStates` of a task, bare or Lambda, is its `Next` successor, when
one is set, followed by the target of every catcher in catcher order; with no
successor and no catcher it is the empty list. -/
theorem C29_Task_AdjacentStates {n : Nat} (t : BaseTask n) (l : String) :
    (State.BaseTask t).AdjacentStates =
      (t.base.next.toList.map some) ++ ((t.Catchers.getD []).map TaskCatch.next) ∧
    (State.LambdaTaskState t l).AdjacentStates = (State.BaseTask t).AdjacentStates ∧
    (t.base.next = none → t.Catchers.getD [] = [] → (State.BaseTask t).AdjacentStates = []) := by
  refine ⟨?_, rfl, ?_⟩
  · cases hn : t.base.next <;> cases hc : t.Catchers <;>
      simp [State.AdjacentStates, hn, hc]
  · intro hn hc
    cases hc2 : t.Catchers with
    | none => simp [State.AdjacentStates, hn, hc2]
    | some cs =>
      rw [hc2] at hc
      simp only [Option.getD_some] at hc
      simp [State.AdjacentStates, hn, hc2, hc]

/-- C29 at a task with no successor and no catcher. -/
theorem C29_Task_AdjacentStates_witness :
    (rawTask.base.next = none ∧ rawTask.Catchers.getD [] = []) ∧
    (State.BaseTask rawTask).AdjacentStates = [] :=
  ⟨⟨rfl, rfl⟩, (C29_Task_AdjacentStates rawTask "").2.2 rfl rfl⟩

/-- C30 fails on the code: the Parallel state `P` has a catcher whose target is
the state `Recover`, the table of the machine built from `P` holds `P` alone,
and `AdjacentStates` of `P` is empty; the same catcher on a task puts
`Recover` in the table. -/
theorem C30_Parallel_catcher_target_not_in_table :
    catchHeap 0 = (NewParallelState "P" 91 branchMachine).calls
      [.WithRetriers [exampleRetry], .WithCatchers [NewTaskCatch (some 1) ["States.ALL"]]] ∧
    catchHeap.Name 1 = "Recover" ∧
    (catchHeap 0).AdjacentStates = [] ∧
    NewStateMachine catchHeap 1 "m" 0 = some catchMachine ∧
    catchMachine.uniqueStates.keys = ["P"] ∧
    "Recover" ∉ catchMachine.uniqueStates.keys ∧
    traverse taskHeap 3 [] [0] = some [("Work", 0), ("Done", 1), ("Recover", 2)] := by
  refine ⟨rfl, rfl, rfl, rfl, rfl, by decide, by decide⟩



/-! ## RFC3339 round trip -/

set_option linter.all false


theorem toDigitsCore_step (fuel n : Nat) (ds : List Char) (h : n < fuel) :
    Nat.toDigitsCore 10 fuel n ds =
      if n / 10 = 0 then Nat.digitChar (n % 10) :: ds
      else Nat.toDigitsCore 10 (fuel - 1) (n / 10) (Nat.digitChar (n % 10) :: ds) := by
  cases fuel with
  | zero => omega
  | succ f => rw [Nat.toDigitsCore]; simp

theorem toDigits_four (v : Nat) (h : v < 10000) :
    Nat.toDigits 10 v =
      if v < 10 then [Nat.digitChar (v % 10)]
      else if v < 100 then [Nat.digitChar (v / 10 % 10), Nat.digitChar (v % 10)]
      else if v < 1000 then
        [Nat.digitChar (v / 100 % 10), Nat.digitChar (v / 10 % 10), Nat.digitChar (v % 10)]
      else [Nat.digitChar (v / 1000), Nat.digitChar (v / 100 % 10), Nat.digitChar (v / 10 % 10),
        Nat.digitChar (v % 10)] := by
  have e1 : v / 10 / 10 = v / 100 := by omega
  have e2 : v / 100 / 10 = v / 1000 := by omega
  have e3 : v / 1000 / 10 = 0 := by omega
  have e4 : v / 1000 % 10 = v / 1000 := by omega
  unfold Nat.toDigits
  rw [toDigitsCore_step _ _ _ (by omega)]
  by_cases h1 : v < 10
  · have : v / 10 = 0 := by omega
    simp [this, h1]
  · have n1 : v / 10 ≠ 0 := by omega
    simp only [n1, if_false, h1]
    rw [toDigitsCore_step _ _ _ (by omega)]
    by_cases h2 : v < 100
    · have : v / 100 = 0 := by omega
      simp [e1, this, h2]
    · have n2 : v / 100 ≠ 0 := by omega
      simp only [e1, n2, if_false, h2]
      rw [toDigitsCore_step _ _ _ (by omega)]
      by_cases h3 : v < 1000
      · have : v / 1000 = 0 := by omega
        simp [e2, this, h3]
      · have n3 : v / 1000 ≠ 0 := by omega
        simp only [e2, n3, if_false, h3]
        rw [toDigitsCore_step _ _ _ (by omega)]
        simp [e3, e4]

/-- The four digits of a year below 10000. -/
theorem pad4_data (v : Nat) (h : v < 10000) :
    (pad 4 v).data = [Nat.digitChar (v / 1000), Nat.digitChar (v / 100 % 10),
      Nat.digitChar (v / 10 % 10), Nat.digitChar (v % 10)] := by
  have hs : toString v = String.mk (Nat.toDigits 10 v) := rfl
  unfold pad
  simp only [hs, toDigits_four v h]
  by_cases h1 : v < 10
  · have a : v / 1000 = 0 := by omega
    have b : v / 100 % 10 = 0 := by omega
    have c : v / 10 % 10 = 0 := by omega
    simp [h1, a, b, c, String.length]; decide
  · by_cases h2 : v < 100
    · have a : v / 1000 = 0 := by omega
      have b : v / 100 % 10 = 0 := by omega
      simp [h1, h2, a, b, String.length]; decide
    · by_cases h3 : v < 1000
      · have a : v / 1000 = 0 := by omega
        simp [h1, h2, h3, a, String.length]; decide
      · simp [h1, h2, h3, String.length]

/-- The two digits of a field below 100. -/
theorem pad2_data :
    ∀ v, v < 100 → (pad 2 v).data = [Nat.digitChar (v / 10), Nat.digitChar (v % 10)] := by
  decide

theorem digitValue_digitChar : ∀ a, a < 10 → digitValue (Nat.digitChar a) = some a := by
  decide

theorem parseUint_two (v lo hi : Nat) (h : v < 100) (hlo : lo ≤ v) (hhi : v ≤ hi) :
    parseUint [Nat.digitChar (v / 10), Nat.digitChar (v % 10)] lo hi = some v := by
  have a := digitValue_digitChar (v / 10) (by omega)
  have b := digitValue_digitChar (v % 10) (by omega)
  simp [parseUint, a, b]
  omega

theorem parseUint_four (v : Nat) (h : v < 10000) :
    parseUint [Nat.digitChar (v / 1000), Nat.digitChar (v / 100 % 10),
      Nat.digitChar (v / 10 % 10), Nat.digitChar (v % 10)] 0 9999 = some v := by
  have a := digitValue_digitChar (v / 1000) (by omega)
  have b := digitValue_digitChar (v / 100 % 10) (by omega)
  have c := digitValue_digitChar (v / 10 % 10) (by omega)
  have d := digitValue_digitChar (v % 10) (by omega)
  simp [parseUint, a, b, c, d]
  omega

theorem yoe_bounds (doe : Nat) (h : doe < 146097) (yoe : Nat)
    (hy : yoe = (doe - doe / 1460 + doe / 36524 - doe / 146096) / 365) :
    365 * yoe + yoe / 4 - yoe / 100 ≤ doe ∧ doe - (365 * yoe + yoe / 4 - yoe / 100) ≤ 365 ∧
      yoe ≤ 399 := by
  obtain ⟨e, he⟩ : ∃ e, e = doe / 36524 := ⟨_, rfl⟩
  have he4 : e ≤ 4 := by omega
  obtain ⟨c, hc⟩ : ∃ c, c = yoe / 100 := ⟨_, rfl⟩
  have hc4 : c ≤ 4 := by omega
  interval_cases e <;> interval_cases c <;> omega

theorem yoe_upper (doe : Nat) (h : doe < 146097) (yoe : Nat)
    (hy : yoe = (doe - doe / 1460 + doe / 36524 - doe / 146096) / 365) :
    yoe = 399 ∨ doe < 365 * (yoe + 1) + (yoe + 1) / 4 - (yoe + 1) / 100 := by
  obtain ⟨e, he⟩ : ∃ e, e = doe / 36524 := ⟨_, rfl⟩
  have he4 : e ≤ 4 := by omega
  obtain ⟨c, hc⟩ : ∃ c, c = (yoe + 1) / 100 := ⟨_, rfl⟩
  have hc4 : c ≤ 4 := by omega
  interval_cases e <;> interval_cases c <;> omega

theorem yoe_leap (doe : Nat) (h : doe < 146097) (yoe : Nat)
    (hy : yoe = (doe - doe / 1460 + doe / 36524 - doe / 146096) / 365)
    (hd : doe - (365 * yoe + yoe / 4 - yoe / 100) = 365) :
    (yoe + 1) % 4 = 0 ∧ ((yoe + 1) % 100 ≠ 0 ∨ yoe + 1 = 400) := by
  have hb := yoe_bounds doe h yoe hy
  have hu := yoe_upper doe h yoe hy
  clear hy
  obtain ⟨e, he⟩ : ∃ e, e = yoe / 100 := ⟨_, rfl⟩
  have he4 : e ≤ 3 := by omega
  obtain ⟨c, hc⟩ : ∃ c, c = (yoe + 1) / 100 := ⟨_, rfl⟩
  have hc4 : c ≤ 4 := by omega
  interval_cases e <;> interval_cases c <;> omega

theorem isLeap_of_yoe (yoe : Nat) (era : Int)
    (h : (yoe + 1) % 4 = 0 ∧ ((yoe + 1) % 100 ≠ 0 ∨ yoe + 1 = 400)) :
    isLeap ((yoe : Int) + era * 400 + 1) = true := by
  obtain ⟨h4, h100⟩ := h
  have a : ((yoe : Int) + era * 400 + 1) % 4 = 0 := by omega
  rcases h100 with h100 | h400
  · have b : ((yoe : Int) + era * 400 + 1) % 100 ≠ 0 := by omega
    simp [isLeap, a, b]
  · have b : ((yoe : Int) + era * 400 + 1) % 400 = 0 := by omega
    simp [isLeap, a, b]

/-- A day count and its civil date: the month and the day are in range for the
calendar, and the date counts back to the same day. -/
theorem civilFromDays_valid (days : Int) :
    ∃ y m d, civilFromDays days = (y, m, d) ∧ 1 ≤ m ∧ m ≤ 12 ∧ 1 ≤ d ∧ d ≤ daysIn m y ∧
      d ≤ 31 ∧ daysFromCivil y m d = days := by
  obtain ⟨era, hera⟩ : ∃ era, era = (days + 719468) / 146097 := ⟨_, rfl⟩
  obtain ⟨doe, hdoe⟩ : ∃ doe, doe = (days + 719468 - era * 146097).toNat := ⟨_, rfl⟩
  obtain ⟨yoe, hyoe⟩ :
    ∃ yoe, yoe = (doe - doe / 1460 + doe / 36524 - doe / 146096) / 365 := ⟨_, rfl⟩
  obtain ⟨doy, hdoy⟩ : ∃ doy, doy = doe - (365 * yoe + yoe / 4 - yoe / 100) := ⟨_, rfl⟩
  obtain ⟨mp, hmp⟩ : ∃ mp, mp = (5 * doy + 2) / 153 := ⟨_, rfl⟩
  obtain ⟨d, hd⟩ : ∃ d, d = doy - (153 * mp + 2) / 5 + 1 := ⟨_, rfl⟩
  obtain ⟨m, hm⟩ : ∃ m, m = if mp < 10 then mp + 3 else mp - 9 := ⟨_, rfl⟩
  have hc : civilFromDays days =
      (if m ≤ 2 then (yoe : Int) + era * 400 + 1 else (yoe : Int) + era * 400, m, d) := by
    subst hm hd hmp hdoy hyoe hdoe hera
    rfl
  have hlt : doe < 146097 := by omega
  have hz : (doe : Int) = days + 719468 - era * 146097 := by omega
  have hb := yoe_bounds doe hlt yoe hyoe
  have hdoy365 : doy ≤ 365 := by omega
  have hmp11 : mp ≤ 11 := by omega
  have hstart : (153 * mp + 2) / 5 ≤ doy := by omega
  have hd31 : d ≤ 31 := by omega
  have hm1 : 1 ≤ m := by rw [hm]; split <;> omega
  have hm12 : m ≤ 12 := by rw [hm]; split <;> omega
  have hdays : d ≤ daysIn m (if m ≤ 2 then (yoe : Int) + era * 400 + 1 else (yoe : Int) + era * 400) := by
    by_cases h11 : mp = 11
    · have hm2 : m = 2 := by rw [hm, h11]; rfl
      rw [hm2]
      simp only [show (2 : Nat) ≤ 2 from le_refl _, if_true]
      by_cases hl : doy = 365
      · have := isLeap_of_yoe yoe era (yoe_leap doe hlt yoe hyoe (by omega))
        simp only [daysIn, this]
        simp
        omega
      · unfold daysIn
        split
        · omega
        · simp only []
          omega
    · have h10 : mp ≤ 10 := by omega
      clear hc hyoe hb
      interval_cases mp <;> simp at hm <;> subst hm <;> simp [daysIn] <;> omega
  have hback : daysFromCivil
      (if m ≤ 2 then (yoe : Int) + era * 400 + 1 else (yoe : Int) + era * 400) m d = days := by
    have hy : (if m ≤ 2 then (if m ≤ 2 then (yoe : Int) + era * 400 + 1 else (yoe : Int) + era * 400) - 1
        else (if m ≤ 2 then (yoe : Int) + era * 400 + 1 else (yoe : Int) + era * 400)) =
        (yoe : Int) + era * 400 := by
      split <;> omega
    have he : ((yoe : Int) + era * 400) / 400 = era := by omega
    have hy2 : ((yoe : Int) + era * 400 - era * 400).toNat = yoe := by omega
    have hmp2 : (if 2 < m then m - 3 else m + 9) = mp := by
      rw [hm]; split <;> split <;> omega
    simp only [daysFromCivil, hy, he, hy2, hmp2]
    omega
  exact ⟨_, m, d, hc, hm1, hm12, by omega, hdays, hd31, hback⟩

/-- The reader on a text made of in-range fields. -/
theorem parseRFC3339_fields (y m d hh mi ss : Nat) (zs : List Char) (off : Int)
    (hy : y < 10000) (hm1 : 1 ≤ m) (hm : m ≤ 12) (hd1 : 1 ≤ d) (hd : d ≤ daysIn m y)
    (hd31 : d ≤ 31) (hhh : hh ≤ 23) (hmi : mi ≤ 59) (hss : ss ≤ 59)
    (hfr : parseFraction zs = (0, zs)) (hz : parseZone zs = some off) :
    parseRFC3339 (String.mk
      (Nat.digitChar (y / 1000) :: Nat.digitChar (y / 100 % 10) :: Nat.digitChar (y / 10 % 10) ::
        Nat.digitChar (y % 10) :: '-' :: Nat.digitChar (m / 10) :: Nat.digitChar (m % 10) ::
        '-' :: Nat.digitChar (d / 10) :: Nat.digitChar (d % 10) :: 'T' ::
        Nat.digitChar (hh / 10) :: Nat.digitChar (hh % 10) :: ':' ::
        Nat.digitChar (mi / 10) :: Nat.digitChar (mi % 10) :: ':' ::
        Nat.digitChar (ss / 10) :: Nat.digitChar (ss % 10) :: zs)) =
      some ⟨Date y m d hh mi ss - off, 0, off⟩ := by
  simp only [parseRFC3339, parseUint_four y hy, parseUint_two m 1 12 (by omega) hm1 hm,
    parseUint_two d 1 (daysIn m y) (by omega) hd1 hd,
    parseUint_two hh 0 23 (by omega) (Nat.zero_le _) hhh,
    parseUint_two mi 0 59 (by omega) (Nat.zero_le _) hmi,
    parseUint_two ss 0 59 (by omega) (Nat.zero_le _) hss, hfr, hz, and_self, if_true]

/-- The zone that `Format` prints reads back as the offset, when the offset is a whole
number of minutes below a day. -/
theorem parseZone_format (offset : Int) (h60 : offset % 60 = 0) (h24 : offset.natAbs < 86400) :
    ∃ zs, (if offset = 0 then "Z"
        else (if offset < 0 ∧ offset.natAbs / 60 ≠ 0 then "-" else "+") ++
          pad 2 (offset.natAbs / 60 / 60) ++ ":" ++ pad 2 (offset.natAbs / 60 % 60)).data = zs ∧
      parseFraction zs = (0, zs) ∧ parseZone zs = some offset := by
  by_cases h0 : offset = 0
  · subst h0
    exact ⟨_, rfl, rfl, rfl⟩
  · have hh : offset.natAbs / 60 / 60 ≤ 23 := by omega
    have hmm : offset.natAbs / 60 % 60 ≤ 59 := by omega
    have e1 := pad2_data (offset.natAbs / 60 / 60) (by omega)
    have e2 := pad2_data (offset.natAbs / 60 % 60) (by omega)
    have p1 := parseUint_two (offset.natAbs / 60 / 60) 0 23 (by omega) (Nat.zero_le _) hh
    have p2 := parseUint_two (offset.natAbs / 60 % 60) 0 59 (by omega) (Nat.zero_le _) hmm
    have hval : (((offset.natAbs / 60 / 60 * 60 + offset.natAbs / 60 % 60) * 60 : Nat) : Int) =
        if offset < 0 then -offset else offset := by
      split <;> omega
    by_cases hneg : offset < 0
    · have hz : offset.natAbs / 60 ≠ 0 := by omega
      refine ⟨_, rfl, ?_, ?_⟩
      · simp only [h0, if_false, hneg, hz, ne_eq, not_false_eq_true, and_self, if_true,
          String.data_append, e1, e2]
        rfl
      · simp only [h0, if_false, hneg, hz, ne_eq, not_false_eq_true, and_self, if_true,
          String.data_append, e1, e2]
        simp [parseZone, p1, p2, hval, hneg]
    · refine ⟨_, rfl, ?_, ?_⟩
      · simp only [h0, if_false, hneg, false_and, String.data_append, e1, e2]
        rfl
      · simp only [h0, if_false, hneg, false_and, String.data_append, e1, e2]
        simp [parseZone, p1, p2, hval, hneg]

/-- The text that `Format` prints for an instant of a year 0..9999, field by field. -/
theorem FormatRFC3339_data (t : Time) (y : Nat) (m d : Nat) (zs : List Char)
    (hc : civilFromDays ((t.unix + t.offset) / 86400) = ((y : Int), m, d))
    (hy : y < 10000) (hm : m ≤ 12) (hd : d ≤ 31)
    (hzs : (if t.offset = 0 then "Z"
        else (if t.offset < 0 ∧ t.offset.natAbs / 60 ≠ 0 then "-" else "+") ++
          pad 2 (t.offset.natAbs / 60 / 60) ++ ":" ++ pad 2 (t.offset.natAbs / 60 % 60)).data =
        zs) :
    t.FormatRFC3339 = String.mk
      (Nat.digitChar (y / 1000) :: Nat.digitChar (y / 100 % 10) :: Nat.digitChar (y / 10 % 10) ::
        Nat.digitChar (y % 10) :: '-' :: Nat.digitChar (m / 10) :: Nat.digitChar (m % 10) ::
        '-' :: Nat.digitChar (d / 10) :: Nat.digitChar (d % 10) :: 'T' ::
        Nat.digitChar (((t.unix + t.offset) % 86400).toNat / 3600 / 10) ::
        Nat.digitChar (((t.unix + t.offset) % 86400).toNat / 3600 % 10) :: ':' ::
        Nat.digitChar (((t.unix + t.offset) % 86400).toNat % 3600 / 60 / 10) ::
        Nat.digitChar (((t.unix + t.offset) % 86400).toNat % 3600 / 60 % 10) :: ':' ::
        Nat.digitChar (((t.unix + t.offset) % 86400).toNat % 60 / 10) ::
        Nat.digitChar (((t.unix + t.offset) % 86400).toNat % 60 % 10) :: zs) := by
  have hneg : ¬ ((y : Int) < 0) := by omega
  have e0 := pad4_data y hy
  have e1 := pad2_data m (by omega)
  have e2 := pad2_data d (by omega)
  have e3 := pad2_data (((t.unix + t.offset) % 86400).toNat / 3600) (by omega)
  have e4 := pad2_data (((t.unix + t.offset) % 86400).toNat % 3600 / 60) (by omega)
  have e5 := pad2_data (((t.unix + t.offset) % 86400).toNat % 60) (by omega)
  apply String.ext
  simp only [Time.FormatRFC3339, hc, hneg, if_false, Int.natAbs_ofNat, String.data_append, e0, e1,
    e2, e3, e4, e5, hzs]
  rfl

/-- An instant of whole seconds, in a zone of whole minutes less than a day from UTC
and in a year 0..9999, is read back from its RFC3339 text. -/
theorem parseRFC3339_FormatRFC3339 (t : Time) (hn : t.nsec = 0) (h60 : t.offset % 60 = 0)
    (h24 : t.offset.natAbs < 86400) (hy0 : 0 ≤ t.Year) (hy : t.Year ≤ 9999) :
    parseRFC3339 t.FormatRFC3339 = some t := by
  obtain ⟨y, m, d, hc, hm1, hm12, hd1, hdin, hd31, hback⟩ :=
    civilFromDays_valid ((t.unix + t.offset) / 86400)
  have hY : t.Year = y := by simp [Time.Year, hc]
  rw [hY] at hy0 hy
  obtain ⟨yn, rfl⟩ : ∃ yn : Nat, y = (yn : Int) := ⟨y.toNat, by omega⟩
  obtain ⟨zs, hzs, hfr, hz⟩ := parseZone_format t.offset h60 h24
  rw [FormatRFC3339_data t yn m d zs hc (by omega) hm12 hd31 hzs,
    parseRFC3339_fields yn m d _ _ _ zs t.offset (by omega) hm1 hm12 hd1 hdin hd31
      (by omega) (by omega) (by omega) hfr hz]
  obtain ⟨unix, nsec, offset⟩ := t
  simp only [Date, hback] at *
  subst hn
  simp only [Option.some.injEq, Time.mk.injEq, and_true, true_and]
  omega

/-- C21 (counterexample): a `WaitUntil` state with the instant 2023-11-14T22:13:20.5Z
serializes `Timestamp` as `2023-11-14T22:13:20Z`, which reads back as the whole second,
another instant; the same text is printed for the whole second. An offset of 19 minutes
32 seconds is printed as `+00:19` and the text reads back 32 seconds later. The text of
the year 10000 has five year digits and is not read back at all. -/
theorem C21_fraction_of_second_is_lost :
    ((State.MarshalJSON unnamedHeap 0 (NewWaitUntilState "Until" 7 halfSecond)).toOption.bind
        (fun out => out.field? "Timestamp") = some (.str "2023-11-14T22:13:20Z") ∧
      parseRFC3339 "2023-11-14T22:13:20Z" = some ⟨1700000000, 0, 0⟩ ∧
      halfSecond ≠ ⟨1700000000, 0, 0⟩ ∧
      halfSecond.FormatRFC3339 = (⟨1700000000, 0, 0⟩ : Time).FormatRFC3339) ∧
    (localMeanTime.FormatRFC3339 = "2023-11-14T22:32:52+00:19" ∧
      parseRFC3339 localMeanTime.FormatRFC3339 = some ⟨1700000032, 0, 1140⟩) ∧
    (yearTenThousand.FormatRFC3339 = "10000-01-01T00:00:00Z" ∧
      parseRFC3339 yearTenThousand.FormatRFC3339 = none) :=
  ⟨⟨rfl, by decide, by decide, by decide⟩, ⟨by decide, by decide⟩, ⟨by decide, by decide⟩⟩

/-- C21 (amended): for every instant `t` of whole seconds, in a zone whose offset is a
whole number of minutes and less than 24 hours, and in a year from 0 to 9999 of that
zone, the text that serialization emits for `t` reads back as `t`: the `Timestamp` member
of a `WaitUntil` state, and the value member of each of the five `Timestamp*`
comparisons. -/
theorem C21_timestamps_round_trip {n : Nat} (h : Heap n) (depth : Nat) (b : baseInnerState n)
    (path : String) (t : Time) (hn : t.nsec = 0) (h60 : t.offset % 60 = 0)
    (h24 : t.offset.natAbs < 86400) (hy0 : 0 ≤ t.Year) (hy : t.Year ≤ 9999) :
    (∃ out s, State.MarshalJSON h depth (.WaitUntil b t) = .ok out ∧
      out.field? "Timestamp" = some (.str s) ∧ parseRFC3339 s = some t) ∧
    ∀ c ∈ [Comparison.TimestampEquals path t, .TimestampLessThan path t,
        .TimestampGreaterThan path t, .TimestampLessThanEquals path t,
        .TimestampGreaterThanEquals path t],
      ∃ out s, c.MarshalJSON = .ok out ∧ out.field? c.typeName = some (.str s) ∧
        parseRFC3339 s = some t := by
  have hrt := parseRFC3339_FormatRFC3339 t hn h60 h24 hy0 hy
  refine ⟨?_, ?_⟩
  · obtain ⟨d, hd, hget⟩ := marshalStateJSON_get? h b "Wait"
      (some (GoMap.set [] "Timestamp" (.str t.FormatRFC3339)))
    have hm : State.MarshalJSON h depth (.WaitUntil b t) = .ok (.obj d) := by
      cases depth <;> exact hd
    refine ⟨.obj d, t.FormatRFC3339, hm, ?_, hrt⟩
    simp [Json.field?, hget, GoMap.set, GoMap.get?]
  · intro c hc
    simp only [List.mem_cons, List.mem_singleton, List.not_mem_nil, or_false] at hc
    rcases hc with rfl | rfl | rfl | rfl | rfl <;>
      exact ⟨_, t.FormatRFC3339, rfl, by simp [Comparison.typeName, cmpStruct, Json.field?,
        GoMap.get?], hrt⟩

/-- C21 (witness): the instant 2023-11-14T22:13:20Z in the zone +05:30. -/
theorem C21_timestamps_round_trip_witness :
    halfHourZone.nsec = 0 ∧ halfHourZone.offset % 60 = 0 ∧
      halfHourZone.offset.natAbs < 86400 ∧ 0 ≤ halfHourZone.Year ∧
      halfHourZone.Year ≤ 9999 ∧
      ((∃ out s, State.MarshalJSON unnamedHeap 0
          (.WaitUntil (baseInnerState.new "Until" 7 false) halfHourZone) = .ok out ∧
        out.field? "Timestamp" = some (.str s) ∧ parseRFC3339 s = some halfHourZone) ∧
      ∀ c ∈ [Comparison.TimestampEquals "$.at" halfHourZone,
          .TimestampLessThan "$.at" halfHourZone, .TimestampGreaterThan "$.at" halfHourZone,
          .TimestampLessThanEquals "$.at" halfHourZone,
          .TimestampGreaterThanEquals "$.at" halfHourZone],
        ∃ out s, c.MarshalJSON = .ok out ∧ out.field? c.typeName = some (.str s) ∧
          parseRFC3339 s = some halfHourZone) :=
  ⟨by decide, by decide, by decide, by decide, by decide,
    C21_timestamps_round_trip unnamedHeap 0 (baseInnerState.new "Until" 7 false) "$.at"
      halfHourZone (by decide) (by decide) (by decide) (by decide) (by decide)⟩



/-! ## Units, document members and builders -/

theorem TaskRetry_Marshal_IntervalSeconds (r : TaskRetry) :
    (TaskRetry.Marshal r).field? "IntervalSeconds" =
      if r.IntervalSeconds = 0 then none else some (.num (Number.ofInt r.IntervalSeconds)) := by
  unfold TaskRetry.Marshal
  by_cases h1 : r.ErrorEquals.isEmpty = true <;> by_cases h2 : r.IntervalSeconds = 0 <;>
    by_cases h3 : r.MaxAttempts = 0 <;> by_cases h4 : r.BackoffRate.isZero = true <;>
    simp [h1, h2, h3, h4, Json.field?, GoMap.get?]

/-- C31 fails on the code: a retrier with an interval of ten seconds, attached to the
Parallel state `P`, serializes `IntervalSeconds` as 10000000000, the count of
nanoseconds, which is not the number 10; every retrier of a `Retry` array carries
the nanoseconds of its interval.  `TimeoutSeconds`, `HeartbeatSeconds` and the
`Seconds` of a Wait state carry `Seconds()` of the duration, which for ten seconds
is the number 10. -/
theorem C31_IntervalSeconds_is_nanoseconds :
    exampleRetry.IntervalSeconds = 10 * Second ∧
    State.MarshalJSON catchHeap 1 (catchHeap 0) = .ok catchObject ∧
    (∃ entry, catchObject.field? "Retry" = some (.arr [entry]) ∧
      entry.field? "IntervalSeconds" = some (.num ⟨10000000000, 0⟩)) ∧
    Number.sameValue ⟨10000000000, 0⟩ (Number.ofInt 10) = false ∧
    (∀ r : TaskRetry, (TaskRetry.Marshal r).field? "IntervalSeconds" =
      if r.IntervalSeconds = 0 then none else some (.num (Number.ofInt r.IntervalSeconds))) ∧
    (∀ d : Duration, Duration.Seconds d = ⟨d, 9⟩) ∧
    Number.sameValue (Duration.Seconds (10 * Second)) (Number.ofInt 10) = true ∧
    (∃ out, State.MarshalJSON unnamedHeap 0
        (NewWaitDelayState "W" 7 (10 * Second) : State 1) = .ok out ∧
      out.field? "Seconds" = some (.num (Duration.Seconds (10 * Second)))) ∧
    (∃ out, State.MarshalJSON unnamedHeap 0
        ((NewLambdaTaskState "T" 8 : State 1).calls
          [.WithTimeout (10 * Second), .WithHeartbeat (10 * Second)]) = .ok out ∧
      out.field? "TimeoutSeconds" = some (.num (Duration.Seconds (10 * Second))) ∧
      out.field? "HeartbeatSeconds" = some (.num (Duration.Seconds (10 * Second)))) :=
  ⟨rfl, rfl, ⟨_, rfl, rfl⟩, by decide, TaskRetry_Marshal_IntervalSeconds, fun _ => rfl,
    by decide, ⟨_, rfl, rfl⟩, ⟨_, rfl, rfl, rfl⟩⟩

/-- The members of the document of a machine, one by one. -/
theorem machine_document_members {n : Nat} (h : Heap n) (depth : Nat) (sm : StateMachine n) (doc : Json)
    (hdoc : StateMachine.MarshalJSON h depth sm = .ok doc) :
    ∃ a states, sm.startAt = some a ∧ GoMap.keys states = sm.uniqueStates.keys ∧
      doc.field? "Comment" = (if sm.comment = "" then none else some (.str sm.comment)) ∧
      doc.field? "StartAt" = (if h.Name a = "" then none else some (.str (h.Name a))) ∧
      doc.field? "States" = (if sm.uniqueStates = [] then none else some (.obj states)) ∧
      doc.field? "End" =
        (if sm.uniqueStates.length = 1 then some (.bool true) else none) := by
  unfold StateMachine.MarshalJSON at hdoc
  cases hstart : sm.startAt with
  | none => simp [hstart, refName, bind, Except.bind] at hdoc
  | some a =>
    simp only [hstart, refName, bind, Except.bind] at hdoc
    split at hdoc
    · cases hdoc
    · rename_i states hstates
      have hkeys := mapE_keys (fun a => State.MarshalJSON h depth (h a)) sm.uniqueStates states
        hstates
      have hempty : states = [] ↔ sm.uniqueStates = [] := by
        constructor
        · intro e
          rw [e] at hkeys
          cases hu : sm.uniqueStates with
          | nil => rfl
          | cons x xs => rw [hu] at hkeys; simp [GoMap.keys] at hkeys
        · intro e
          rw [e] at hkeys
          cases hs : states with
          | nil => rfl
          | cons x xs => rw [hs] at hkeys; simp [GoMap.keys] at hkeys
      simp only [pure, Except.pure, Except.ok.injEq] at hdoc
      subst hdoc
      refine ⟨a, states, rfl, hkeys, ?_, ?_, ?_, ?_⟩
      · by_cases hc : sm.comment = "" <;> by_cases hn : h.Name a = "" <;>
          by_cases hl : sm.uniqueStates.length = 1 <;> cases states <;>
          simp [Json.field?, omitEmptyStr, GoMap.get?, hc, hn, hl]
      · by_cases hc : sm.comment = "" <;> by_cases hn : h.Name a = "" <;>
          by_cases hl : sm.uniqueStates.length = 1 <;> cases states <;>
          simp [Json.field?, omitEmptyStr, GoMap.get?, hc, hn, hl]
      · by_cases he : sm.uniqueStates = []
        · have hs := hempty.2 he
          subst hs
          by_cases hc : sm.comment = "" <;> by_cases hn : h.Name a = "" <;>
            simp [Json.field?, omitEmptyStr, GoMap.get?, hc, hn, he]
        · have hs : states ≠ [] := fun e => he (hempty.1 e)
          obtain ⟨kv, rest, rfl⟩ := List.exists_cons_of_ne_nil hs
          by_cases hc : sm.comment = "" <;> by_cases hn : h.Name a = "" <;>
            by_cases hl : sm.uniqueStates.length = 1 <;>
            simp [Json.field?, omitEmptyStr, GoMap.get?, hc, hn, hl, he]
      · by_cases hc : sm.comment = "" <;> by_cases hn : h.Name a = "" <;>
          by_cases hl : sm.uniqueStates.length = 1 <;> cases states <;>
          simp [Json.field?, omitEmptyStr, GoMap.get?, hc, hn, hl]

/-- C32: the document of a machine has the member `Comment`, holding the comment,
exactly when the comment is not empty, and the member `End`, holding true, exactly
when the table holds one state; it has `StartAt`, holding the name of the start
state, when that name is not empty, and `States`, with the keys of the table, when
the table is not empty, as the table of every machine `NewStateMachine` returns is,
also after `Comment` and `WithRoleArn`. -/
theorem C32_document_members {n : Nat} (h : Heap n) (depth : Nat) (sm : StateMachine n)
    (doc : Json) (hdoc : StateMachine.MarshalJSON h depth sm = .ok doc) :
    doc.field? "Comment" = (if sm.comment = "" then none else some (.str sm.comment)) ∧
    doc.field? "End" = (if sm.uniqueStates.length = 1 then some (.bool true) else none) ∧
    (∀ a, sm.startAt = some a → h.Name a ≠ "" →
      doc.field? "StartAt" = some (.str (h.Name a))) ∧
    (sm.uniqueStates ≠ [] → ∃ states, doc.field? "States" = some (.obj states) ∧
      GoMap.keys states = sm.uniqueStates.keys) ∧
    ∀ fuel name start sm0 c r, NewStateMachine h fuel name start = some sm0 →
      ((sm0.Comment c).WithRoleArn r).uniqueStates ≠ [] ∧
      ((sm0.Comment c).WithRoleArn r).startAt = some start ∧
      ((sm0.Comment c).WithRoleArn r).comment = c := by
  obtain ⟨a, states, hstart, hkeys, hC, hS, hSt, hE⟩ := machine_document_members h depth sm doc hdoc
  refine ⟨hC, hE, ?_, ?_, ?_⟩
  · intro b hb hn
    rw [hstart] at hb
    cases hb
    rw [hS, if_neg hn]
  · intro hne
    exact ⟨states, by rw [hSt, if_neg hne], hkeys⟩
  · intro fuel name start sm0 c r hsm
    obtain ⟨ht, hst, -, -⟩ := NewStateMachine_eq_some h fuel name start sm0 hsm
    have inv := TraversalInv.traverse h start fuel [] [start] _ (TraversalInv.init h start) ht
    have hmem : h.Name start ∈ sm0.uniqueStates.keys :=
      (GoMap.get?_isSome_iff _ _).1 (inv.startSeen.resolve_right (by simp))
    refine ⟨?_, hst, rfl⟩
    intro e
    have e2 : sm0.uniqueStates = [] := e
    rw [e2] at hmem
    simp [GoMap.keys] at hmem

/-- C32 at the chain `A → B → C` with the comment `demo`: the document has `Comment`,
`StartAt` and `States` and no `End`. -/
theorem C32_document_members_witness :
    StateMachine.MarshalJSON chainHeap 0 (chainMachine.Comment "demo") = .ok commentedDocument ∧
    (commentedDocument.field? "Comment" =
      (if (chainMachine.Comment "demo").comment = "" then none
        else some (.str (chainMachine.Comment "demo").comment)) ∧
    commentedDocument.field? "End" =
      (if (chainMachine.Comment "demo").uniqueStates.length = 1 then some (.bool true)
        else none) ∧
    (∀ a, (chainMachine.Comment "demo").startAt = some a → chainHeap.Name a ≠ "" →
      commentedDocument.field? "StartAt" = some (.str (chainHeap.Name a))) ∧
    ((chainMachine.Comment "demo").uniqueStates ≠ [] →
      ∃ states, commentedDocument.field? "States" = some (.obj states) ∧
        GoMap.keys states = (chainMachine.Comment "demo").uniqueStates.keys) ∧
    ∀ fuel name start sm0 c r, NewStateMachine chainHeap fuel name start = some sm0 →
      ((sm0.Comment c).WithRoleArn r).uniqueStates ≠ [] ∧
      ((sm0.Comment c).WithRoleArn r).startAt = some start ∧
      ((sm0.Comment c).WithRoleArn r).comment = c) :=
  ⟨rfl, C32_document_members chainHeap 0 (chainMachine.Comment "demo") commentedDocument rfl⟩

/-! ## Serialized transitions stay inside the machine -/

theorem call_storesNoStraySuccessor {n : Nat} (s : State n) (c : StateCall n) :
    (s.call c).storesNoStraySuccessor = s.storesNoStraySuccessor := by
  cases s <;> cases c <;> rfl

/-- The builders keep a Choice and a Fail state without a stored successor. -/
theorem calls_storesNoStraySuccessor {n : Nat} (s : State n) (cs : List (StateCall n)) :
    (s.calls cs).storesNoStraySuccessor = s.storesNoStraySuccessor := by
  induction cs generalizing s with
  | nil => rfl
  | cons c rest ih =>
    simp only [State.calls, List.foldl_cons]
    exact (ih (s.call c)).trans (call_storesNoStraySuccessor s c)

theorem forall₂_mem_right {α β : Type} {R : α → β → Prop} {xs : List α} {ys : List β}
    (hfa : List.Forall₂ R xs ys) (y : β) (hy : y ∈ ys) : ∃ x ∈ xs, R x y := by
  induction hfa with
  | nil => cases hy
  | cons hxy _ ih =>
    rcases List.mem_cons.1 hy with e | e
    · exact ⟨_, List.mem_cons_self _ _, e ▸ hxy⟩
    · obtain ⟨x, hx, hr⟩ := ih e
      exact ⟨x, List.mem_cons_of_mem _ hx, hr⟩

theorem MarshalJSON_obj {n : Nat} (h : Heap n) (depth : Nat) (s : State n) (out : Json)
    (hout : State.MarshalJSON h depth s = .ok out) : ∃ d, out = .obj d := by
  obtain ⟨ty, data, hm, -⟩ := MarshalJSON_ok h depth s out hout
  obtain ⟨d, hd, -⟩ := marshalStateJSON_get? h s.base ty data
  rw [hm] at hd
  cases hd
  exact ⟨d, rfl⟩

/-- The target name a serialized branch holds is the name of the target of the branch. -/
theorem ChoiceBranch_Next {n : Nat} (h : Heap n) (c : ChoiceBranch n) (e : Json) (t : String)
    (he : ChoiceBranch.MarshalJSON h c = .ok e) (ht : e.field? "Next" = some (.str t)) :
    ∃ b, c.nextState = some b ∧ h.Name b = t := by
  cases c with
  | And cmps next =>
    cases next with
    | none => simp [ChoiceBranch.MarshalJSON, refName, bind, Except.bind] at he
    | some b =>
      cases hc : mapE Comparison.MarshalJSON cmps with
      | error x => simp [ChoiceBranch.MarshalJSON, refName, bind, Except.bind, hc] at he
      | ok cs =>
        simp only [ChoiceBranch.MarshalJSON, refName, bind, Except.bind, hc, pure, Except.pure,
          Except.ok.injEq] at he
        subst he
        refine ⟨b, rfl, ?_⟩
        by_cases hn : h.Name b = "" <;> cases cs <;>
          simp [Json.field?, omitEmptyStr, GoMap.get?, hn] at ht
        · exact ht
        · exact ht
  | Or cmps next =>
    cases next with
    | none => simp [ChoiceBranch.MarshalJSON, refName, bind, Except.bind] at he
    | some b =>
      cases hc : mapE Comparison.MarshalJSON cmps with
      | error x => simp [ChoiceBranch.MarshalJSON, refName, bind, Except.bind, hc] at he
      | ok cs =>
        simp only [ChoiceBranch.MarshalJSON, refName, bind, Except.bind, hc, pure, Except.pure,
          Except.ok.injEq] at he
        subst he
        refine ⟨b, rfl, ?_⟩
        by_cases hn : h.Name b = "" <;> cases cs <;>
          simp [Json.field?, omitEmptyStr, GoMap.get?, hn] at ht
        · exact ht
        · exact ht
  | Not cmp next =>
    cases next with
    | none => simp [ChoiceBranch.MarshalJSON, refName, bind, Except.bind] at he
    | some b =>
      cases hc : cmp.MarshalJSON with
      | error x => simp [ChoiceBranch.MarshalJSON, refName, bind, Except.bind, hc] at he
      | ok j =>
        simp only [ChoiceBranch.MarshalJSON, refName, bind, Except.bind, hc, pure, Except.pure,
          Except.ok.injEq] at he
        subst he
        refine ⟨b, rfl, ?_⟩
        simpa [Json.field?, GoMap.get?] using ht

/-- A member outside the six common ones that the additional data does not hold is
not in the object. -/
theorem marshalStateJSON_absent {n : Nat} (h : Heap n) (bis : baseInnerState n)
    (stateType : String) (data : Option (GoMap Json)) (out : Json)
    (hout : bis.marshalStateJSON h stateType data = .ok out) (k : String)
    (hk : k ∉ ["Type", "Next", "End", "Comment", "InputPath", "OutputPath"])
    (hd : GoMap.get? (data.getD []) k = none) : out.field? k = none := by
  rw [marshalStateJSON_other h bis stateType data out hout k hk, hd]

/-- Where the members `Default`, `Choices` and `Catch` of a serialized state come
from: `Default` and `Choices` from a Choice state, and a `Catch` entry that holds a
name under `Next` from a catcher of a Lambda task. -/
theorem marshalWith_targets {n : Nat} (h : Heap n) (ms : Fin n → Except Err Json)
    (hms : ∀ a j, ms a = .ok j → ∃ d, j = .obj d) (s : State n)
    (out : Json) (hout : s.marshalWith h ms = .ok out) :
    (∀ t, out.field? "Default" = some (.str t) →
      ∃ b cs d, s = .ChoiceState b cs (some d) ∧ h.Name d = t) ∧
    (∀ entries, out.field? "Choices" = some (.arr entries) →
      ∃ b cs d, s = .ChoiceState b cs d ∧ mapE (ChoiceBranch.MarshalJSON h) cs = .ok entries) ∧
    (∀ entries e t, out.field? "Catch" = some (.arr entries) → e ∈ entries →
      e.field? "Next" = some (.str t) →
      ∃ task l cs c d, s = .LambdaTaskState task l ∧ task.Catchers = some cs ∧ c ∈ cs ∧
        c.next = some d ∧ h.Name d = t) := by
  have hD : "Default" ∉ ["Type", "Next", "End", "Comment", "InputPath", "OutputPath"] := by
    simp
  have hCh : "Choices" ∉ ["Type", "Next", "End", "Comment", "InputPath", "OutputPath"] := by
    simp
  have hCa : "Catch" ∉ ["Type", "Next", "End", "Comment", "InputPath", "OutputPath"] := by
    simp
  have none3 : ∀ (b : baseInnerState n) (ty : String) (data : Option (GoMap Json)),
      b.marshalStateJSON h ty data = .ok out →
      GoMap.get? (data.getD []) "Default" = none →
      GoMap.get? (data.getD []) "Choices" = none →
      GoMap.get? (data.getD []) "Catch" = none →
      (∀ t, out.field? "Default" = some (.str t) →
        ∃ b cs d, s = .ChoiceState b cs (some d) ∧ h.Name d = t) ∧
      (∀ entries, out.field? "Choices" = some (.arr entries) →
        ∃ b cs d, s = .ChoiceState b cs d ∧
          mapE (ChoiceBranch.MarshalJSON h) cs = .ok entries) ∧
      (∀ entries e t, out.field? "Catch" = some (.arr entries) → e ∈ entries →
        e.field? "Next" = some (.str t) →
        ∃ task l cs c d, s = .LambdaTaskState task l ∧ task.Catchers = some cs ∧ c ∈ cs ∧
          c.next = some d ∧ h.Name d = t) := by
    intro b ty data hm h1 h2 h3
    refine ⟨?_, ?_, ?_⟩
    · intro t ht
      rw [marshalStateJSON_absent h b ty data out hm _ hD h1] at ht
      cases ht
    · intro entries ht
      rw [marshalStateJSON_absent h b ty data out hm _ hCh h2] at ht
      cases ht
    · intro entries e t ht
      rw [marshalStateJSON_absent h b ty data out hm _ hCa h3] at ht
      cases ht
  cases s with
  | PassState b rp r =>
    cases r with
    | none =>
      simp only [State.marshalWith, bind, Except.bind, pure, Except.pure] at hout
      refine none3 _ _ _ hout ?_ ?_ ?_ <;> split_ifs <;> simp [GoMap.get?_set, GoMap.get?]
    | some v =>
      cases hv : Value.Marshal (some v) with
      | error e => simp [State.marshalWith, bind, Except.bind, hv] at hout
      | ok j =>
        simp only [State.marshalWith, bind, Except.bind, pure, Except.pure, hv] at hout
        refine none3 _ _ _ hout ?_ ?_ ?_ <;> split_ifs <;> simp [GoMap.get?_set, GoMap.get?]
  | ChoiceState b cs d =>
    cases hcs : mapE (ChoiceBranch.MarshalJSON h) cs with
    | error e => simp [State.marshalWith, bind, Except.bind, hcs] at hout
    | ok js =>
      simp only [State.marshalWith, bind, Except.bind, pure, Except.pure, hcs] at hout
      refine ⟨?_, ?_, ?_⟩
      · intro t ht
        rw [marshalStateJSON_other h b _ _ out hout _ hD] at ht
        cases d with
        | none => simp [GoMap.get?_set, GoMap.get?] at ht
        | some a =>
          simp [GoMap.get?_set, GoMap.get?] at ht
          exact ⟨b, cs, a, rfl, ht⟩
      · intro entries ht
        rw [marshalStateJSON_other h b _ _ out hout _ hCh] at ht
        refine ⟨b, cs, d, rfl, ?_⟩
        cases d <;> simp [GoMap.get?_set, GoMap.get?] at ht <;> rw [← ht] <;> exact hcs
      · intro entries e t ht
        rw [marshalStateJSON_other h b _ _ out hout _ hCa] at ht
        cases d <;> simp [GoMap.get?_set, GoMap.get?] at ht
  | BaseTask t => simp [State.marshalWith] at hout
  | LambdaTaskState task l =>
    cases hp : task.additionalParams h with
    | error e => simp [State.marshalWith, bind, Except.bind, hp] at hout
    | ok p =>
      simp only [State.marshalWith, bind, Except.bind, pure, Except.pure, hp] at hout
      refine ⟨?_, ?_, ?_⟩
      · intro t ht
        rw [marshalStateJSON_other h _ _ _ out hout _ hD] at ht
        simp [GoMap.get?_set, additionalParams_get? h task p hp] at ht
      · intro entries ht
        rw [marshalStateJSON_other h _ _ _ out hout _ hCh] at ht
        simp [GoMap.get?_set, additionalParams_get? h task p hp] at ht
      · intro entries e t ht he hn
        rw [marshalStateJSON_other h _ _ _ out hout _ hCa] at ht
        have hget : GoMap.get? p "Catch" = some (.arr entries) := by
          simpa [GoMap.get?_set] using ht
        obtain ⟨-, -, -, -, hnone, hsome⟩ := additionalParams_members h task p hp
        cases hc : task.Catchers with
        | none =>
          rw [hnone hc] at hget
          cases hget
        | some cs =>
          obtain ⟨entries2, hg2, hfa⟩ := hsome cs hc
          rw [hg2] at hget
          simp only [Option.some.injEq, Json.arr.injEq] at hget
          subst hget
          obtain ⟨c, hcmem, a, hca, hce⟩ := forall₂_mem_right hfa e he
          subst hce
          refine ⟨task, l, cs, c, a, rfl, hc, hcmem, hca, ?_⟩
          simpa [Json.field?, GoMap.get?] using hn
  | WaitDelay b d =>
    simp only [State.marshalWith] at hout
    refine none3 _ _ _ hout ?_ ?_ ?_ <;> simp [GoMap.set, GoMap.get?]
  | WaitUntil b t =>
    simp only [State.marshalWith] at hout
    refine none3 _ _ _ hout ?_ ?_ ?_ <;> simp [GoMap.set, GoMap.get?]
  | WaitDynamicUntil b p =>
    simp only [State.marshalWith] at hout
    refine none3 _ _ _ hout ?_ ?_ ?_ <;> simp [GoMap.set, GoMap.get?]
  | SuccessState b =>
    simp only [State.marshalWith] at hout
    refine none3 _ _ _ hout ?_ ?_ ?_ <;> simp [GoMap.get?]
  | FailState b e c =>
    cases c with
    | none =>
      simp only [State.marshalWith] at hout
      refine none3 _ _ _ hout ?_ ?_ ?_ <;> simp [GoMap.set, GoMap.get?]
    | some msg =>
      simp only [State.marshalWith] at hout
      refine none3 _ _ _ hout ?_ ?_ ?_ <;> simp [GoMap.set, GoMap.get?]
  | ParallelState b sm rp rs cs =>
    cases cs with
    | none =>
      simp only [State.marshalWith, bind, Except.bind, pure, Except.pure] at hout
      refine none3 _ _ _ hout ?_ ?_ ?_ <;> split_ifs <;> simp [GoMap.get?_set, GoMap.get?]
    | some l =>
      cases hl : mapE (TaskCatch.MarshalJSON ms) l with
      | error e => simp [State.marshalWith, bind, Except.bind, hl] at hout
      | ok js =>
        simp only [State.marshalWith, bind, Except.bind, pure, Except.pure, hl] at hout
        refine ⟨?_, ?_, ?_⟩
        · intro t ht
          rw [marshalStateJSON_other h _ _ _ out hout _ hD] at ht
          revert ht
          split_ifs <;> simp [GoMap.get?_set, GoMap.get?]
        · intro entries ht
          rw [marshalStateJSON_other h _ _ _ out hout _ hCh] at ht
          revert ht
          split_ifs <;> simp [GoMap.get?_set, GoMap.get?]
        · intro entries e t ht he hn
          exfalso
          rw [marshalStateJSON_other h _ _ _ out hout _ hCa] at ht
          have hget : js = entries := by
            revert ht
            split_ifs <;> simp [GoMap.get?_set, GoMap.get?]
          subst hget
          obtain ⟨c, -, hce⟩ := forall₂_mem_right (mapE_forall₂ _ _ _ hl) e he
          unfold TaskCatch.MarshalJSON at hce
          cases hcn : c.next with
          | none =>
            simp only [hcn, bind, Except.bind, pure, Except.pure, Except.ok.injEq] at hce
            subst hce
            simp [Json.field?, GoMap.get?] at hn
          | some a =>
            cases hma : ms a with
            | error x => simp [hcn, hma, bind, Except.bind] at hce
            | ok j =>
              obtain ⟨d, rfl⟩ := hms a j hma
              simp only [hcn, hma, bind, Except.bind, pure, Except.pure, Except.ok.injEq] at hce
              subst hce
              simp [Json.field?, GoMap.get?] at hn

theorem MarshalJSON_targets {n : Nat} (h : Heap n) (depth : Nat) (s : State n)
    (out : Json) (hout : State.MarshalJSON h depth s = .ok out) :
    (∀ t, out.field? "Default" = some (.str t) →
      ∃ b cs d, s = .ChoiceState b cs (some d) ∧ h.Name d = t) ∧
    (∀ entries, out.field? "Choices" = some (.arr entries) →
      ∃ b cs d, s = .ChoiceState b cs d ∧ mapE (ChoiceBranch.MarshalJSON h) cs = .ok entries) ∧
    (∀ entries e t, out.field? "Catch" = some (.arr entries) → e ∈ entries →
      e.field? "Next" = some (.str t) →
      ∃ task l cs c d, s = .LambdaTaskState task l ∧ task.Catchers = some cs ∧ c ∈ cs ∧
        c.next = some d ∧ h.Name d = t) := by
  cases depth with
  | zero =>
    exact marshalWith_targets h _ (fun a j hj => by cases hj) s out hout
  | succ d =>
    exact marshalWith_targets h _ (fun a j hj => MarshalJSON_obj h d (h a) j hj) s out hout

theorem next_mem_successors {n : Nat} (h : Heap n) (a b : Fin n)
    (hb : (h a).base.next = some b) (hs : (h a).storesNoStraySuccessor = true) :
    some b ∈ successors h a := by
  unfold successors
  cases hk : h a <;> rw [hk] at hb hs <;>
    simp only [State.base, State.storesNoStraySuccessor] at hb hs <;>
    simp [State.AdjacentStates, State.base, hb] at hs ⊢

/-- C33: in a heap whose Choice and Fail states store no successor (no constructor
and no builder stores one), every name that a serialized state of the table of a
machine built by `NewStateMachine` holds under `Next`, under `Default`, under the
`Next` of an entry of `Choices` or under the `Next` of an entry of `Catch` is a
key of the table, and the keys of the table are the keys of `States` in the
document of the machine. -/
theorem C33_targets_are_table_keys {n : Nat} (h : Heap n) (fuel : Nat) (name : String)
    (start : Fin n) (sm : StateMachine n)
    (hsm : NewStateMachine h fuel name start = some sm)
    (hbuilt : ∀ a, (h a).storesNoStraySuccessor = true) :
    (∀ kv ∈ sm.uniqueStates, ∀ depth out, State.MarshalJSON h depth (h kv.2) = .ok out →
      (∀ t, out.field? "Next" = some (.str t) → t ∈ sm.uniqueStates.keys) ∧
      (∀ t, out.field? "Default" = some (.str t) → t ∈ sm.uniqueStates.keys) ∧
      (∀ entries e t, out.field? "Choices" = some (.arr entries) → e ∈ entries →
        e.field? "Next" = some (.str t) → t ∈ sm.uniqueStates.keys) ∧
      (∀ entries e t, out.field? "Catch" = some (.arr entries) → e ∈ entries →
        e.field? "Next" = some (.str t) → t ∈ sm.uniqueStates.keys)) ∧
    ∀ depth doc, StateMachine.MarshalJSON h depth sm = .ok doc →
      ∃ states, doc.field? "States" = some (.obj states) ∧
        GoMap.keys states = sm.uniqueStates.keys := by
  obtain ⟨ht, hst, -, -⟩ := NewStateMachine_eq_some h fuel name start sm hsm
  have inv := TraversalInv.traverse h start fuel [] [start] _ (TraversalInv.init h start) ht
  refine ⟨?_, ?_⟩
  · intro kv hkv depth out hout
    have hget := GoMap.get?_of_mem _ inv.nodup kv.1 kv.2 hkv
    have hname := (inv.entries _ _ hget).1
    have hself : sm.uniqueStates.get? (h.Name kv.2) = some kv.2 := by rw [hname]; exact hget
    have hclosed : ∀ b, some b ∈ successors h kv.2 → h.Name b ∈ sm.uniqueStates.keys := by
      intro b hb
      exact (GoMap.get?_isSome_iff _ _).1 ((inv.closed kv.2 hself b hb).resolve_right (by simp))
    obtain ⟨hD, hCh, hCa⟩ := MarshalJSON_targets h depth (h kv.2) out hout
    refine ⟨?_, ?_, ?_, ?_⟩
    · intro t hN
      rw [(MarshalJSON_Next_End h depth (h kv.2) out hout).1] at hN
      cases hb : (h kv.2).base.next with
      | none => simp [hb] at hN
      | some b =>
        simp [hb] at hN
        rw [← hN]
        exact hclosed b (next_mem_successors h kv.2 b hb (hbuilt kv.2))
    · intro t hd
      obtain ⟨b, cs, d, hk, hdn⟩ := hD t hd
      rw [← hdn]
      refine hclosed d ?_
      unfold successors
      rw [hk]
      simp
    · intro entries e t hE he hn
      obtain ⟨b, cs, d, hk, hm⟩ := hCh entries hE
      obtain ⟨c, hc, hce⟩ := forall₂_mem_right (mapE_forall₂ _ _ _ hm) e he
      obtain ⟨b2, hb2, hbn⟩ := ChoiceBranch_Next h c e t hce hn
      rw [← hbn]
      refine hclosed b2 ?_
      unfold successors
      rw [hk]
      simp only [List.mem_append, List.mem_map, List.mem_singleton]
      exact Or.inl ⟨c, hc, hb2⟩
    · intro entries e t hE he hn
      obtain ⟨task, l, cs, c, d, hk, hcs, hc, hcd, hdn⟩ := hCa entries e t hE he hn
      rw [← hdn]
      refine hclosed d ?_
      unfold successors
      rw [hk]
      simp only [State.AdjacentStates, hcs, List.mem_append, List.mem_map]
      exact Or.inr ⟨c, hc, hcd⟩
  · intro depth doc hdoc
    have hmem : h.Name start ∈ sm.uniqueStates.keys :=
      (GoMap.get?_isSome_iff _ _).1 (inv.startSeen.resolve_right (by simp))
    have hne : sm.uniqueStates ≠ [] := by
      intro e
      rw [e] at hmem
      simp [GoMap.keys] at hmem
    obtain ⟨a, states, -, hkeys, -, -, hSt, -⟩ := machine_document_members h depth sm doc hdoc
    exact ⟨states, by rw [hSt, if_neg hne], hkeys⟩

/-- C33 at the machine built from the Choice `Router`, whose branch leads to the
task `Go` and whose default is `Bad`; `Go` has the successor `Done` and a catcher
that leads to `Bad`. -/
theorem C33_targets_are_table_keys_witness :
    (NewStateMachine transitionHeap 5 "m" 0 = some transitionMachine ∧
      ∀ a, (transitionHeap a).storesNoStraySuccessor = true) ∧
    ((∀ kv ∈ transitionMachine.uniqueStates, ∀ depth out,
      State.MarshalJSON transitionHeap depth (transitionHeap kv.2) = .ok out →
      (∀ t, out.field? "Next" = some (.str t) → t ∈ transitionMachine.uniqueStates.keys) ∧
      (∀ t, out.field? "Default" = some (.str t) → t ∈ transitionMachine.uniqueStates.keys) ∧
      (∀ entries e t, out.field? "Choices" = some (.arr entries) → e ∈ entries →
        e.field? "Next" = some (.str t) → t ∈ transitionMachine.uniqueStates.keys) ∧
      (∀ entries e t, out.field? "Catch" = some (.arr entries) → e ∈ entries →
        e.field? "Next" = some (.str t) → t ∈ transitionMachine.uniqueStates.keys)) ∧
    ∀ depth doc, StateMachine.MarshalJSON transitionHeap depth transitionMachine = .ok doc →
      ∃ states, doc.field? "States" = some (.obj states) ∧
        GoMap.keys states = transitionMachine.uniqueStates.keys) :=
  ⟨⟨rfl, by decide⟩,
    C33_targets_are_table_keys transitionHeap 5 "m" 0 transitionMachine rfl (by decide)⟩

/-- C36: in the machine `NewStateMachine` returns every table entry is keyed by the
name of its state, the name of the start state is a key, and the table is not
empty; the `States` member of its document has the name of the start state among
its keys, and `StartAt` holds that name (the member is left out only when the name
is the empty string). -/
theorem C36_table_keyed_by_name {n : Nat} (h : Heap n) (fuel : Nat) (name : String)
    (start : Fin n) (sm : StateMachine n)
    (hsm : NewStateMachine h fuel name start = some sm) :
    (∀ kv ∈ sm.uniqueStates, h.Name kv.2 = kv.1) ∧
    h.Name start ∈ sm.uniqueStates.keys ∧ sm.uniqueStates ≠ [] ∧
    sm.startAt = some start ∧
    ∀ depth doc, StateMachine.MarshalJSON h depth sm = .ok doc →
      ∃ states, doc.field? "States" = some (.obj states) ∧
        GoMap.keys states = sm.uniqueStates.keys ∧ h.Name start ∈ GoMap.keys states ∧
        doc.field? "StartAt" =
          (if h.Name start = "" then none else some (.str (h.Name start))) := by
  obtain ⟨ht, hst, -, -⟩ := NewStateMachine_eq_some h fuel name start sm hsm
  have inv := TraversalInv.traverse h start fuel [] [start] _ (TraversalInv.init h start) ht
  have hmem : h.Name start ∈ sm.uniqueStates.keys :=
    (GoMap.get?_isSome_iff _ _).1 (inv.startSeen.resolve_right (by simp))
  have hne : sm.uniqueStates ≠ [] := by
    intro e
    rw [e] at hmem
    simp [GoMap.keys] at hmem
  refine ⟨?_, hmem, hne, hst, ?_⟩
  · intro kv hkv
    exact (inv.entries kv.1 kv.2 (GoMap.get?_of_mem _ inv.nodup kv.1 kv.2 hkv)).1
  · intro depth doc hdoc
    obtain ⟨a, states, hstart, hkeys, -, hS, hSt, -⟩ := machine_document_members h depth sm doc hdoc
    rw [hst] at hstart
    cases hstart
    exact ⟨states, by rw [hSt, if_neg hne], hkeys, by rw [hkeys]; exact hmem, hS⟩

/-- C36 at the chain `A → B → C`. -/
theorem C36_table_keyed_by_name_witness :
    NewStateMachine chainHeap 3 "m" 0 = some chainMachine ∧
    ((∀ kv ∈ chainMachine.uniqueStates, chainHeap.Name kv.2 = kv.1) ∧
    chainHeap.Name 0 ∈ chainMachine.uniqueStates.keys ∧ chainMachine.uniqueStates ≠ [] ∧
    chainMachine.startAt = some 0 ∧
    ∀ depth doc, StateMachine.MarshalJSON chainHeap depth chainMachine = .ok doc →
      ∃ states, doc.field? "States" = some (.obj states) ∧
        GoMap.keys states = chainMachine.uniqueStates.keys ∧
        chainHeap.Name 0 ∈ GoMap.keys states ∧
        doc.field? "StartAt" =
          (if chainHeap.Name 0 = "" then none else some (.str (chainHeap.Name 0)))) :=
  ⟨rfl, C36_table_keyed_by_name chainHeap 3 "m" 0 chainMachine rfl⟩

theorem foldl_WithCatchers {n : Nat} (args : List (List (TaskCatch n))) (s : State n)
    (hkind : (∃ t, s = .BaseTask t) ∨ (∃ t l, s = .LambdaTaskState t l) ∨
      (∃ b sm rp rs cs, s = .ParallelState b sm rp rs cs)) :
    (s.calls (args.map StateCall.WithCatchers)).Catchers.getD [] =
      s.Catchers.getD [] ++ args.flatten := by
  induction args generalizing s with
  | nil => simp [State.calls]
  | cons a rest ih =>
    simp only [State.calls, List.map_cons, List.foldl_cons, List.flatten_cons]
    rcases hkind with ⟨t, rfl⟩ | ⟨t, l, rfl⟩ | ⟨b, sm, rp, rs, cs, rfl⟩
    · have := ih (State.call (.BaseTask t) (.WithCatchers a)) (Or.inl ⟨_, rfl⟩)
      simp only [State.calls] at this
      rw [this]
      cases hc : t.Catchers <;>
        simp [State.call, State.WithCatchers, State.Catchers, appendCatchers, hc]
    · have := ih (State.call (.LambdaTaskState t l) (.WithCatchers a))
        (Or.inr (Or.inl ⟨_, _, rfl⟩))
      simp only [State.calls] at this
      rw [this]
      cases hc : t.Catchers <;>
        simp [State.call, State.WithCatchers, State.Catchers, appendCatchers, hc]
    · have := ih (State.call (.ParallelState b sm rp rs cs) (.WithCatchers a))
        (Or.inr (Or.inr ⟨_, _, _, _, _, rfl⟩))
      simp only [State.calls] at this
      rw [this]
      cases cs <;> simp [State.call, State.WithCatchers, State.Catchers, appendCatchers]

theorem foldl_WithRetriers {n : Nat} (args : List (List TaskRetry)) (s : State n)
    (hkind : (∃ t, s = .BaseTask t) ∨ (∃ t l, s = .LambdaTaskState t l) ∨
      (∃ b sm rp rs cs, s = .ParallelState b sm rp rs cs)) :
    (s.calls (args.map StateCall.WithRetriers)).Retriers = s.Retriers ++ args.flatten := by
  induction args generalizing s with
  | nil => simp [State.calls]
  | cons a rest ih =>
    simp only [State.calls, List.map_cons, List.foldl_cons, List.flatten_cons]
    rcases hkind with ⟨t, rfl⟩ | ⟨t, l, rfl⟩ | ⟨b, sm, rp, rs, cs, rfl⟩
    · have := ih (State.call (.BaseTask t) (.WithRetriers a)) (Or.inl ⟨_, rfl⟩)
      simp only [State.calls] at this
      rw [this]
      simp [State.call, State.WithRetriers, State.Retriers]
    · have := ih (State.call (.LambdaTaskState t l) (.WithRetriers a))
        (Or.inr (Or.inl ⟨_, _, rfl⟩))
      simp only [State.calls] at this
      rw [this]
      simp [State.call, State.WithRetriers, State.Retriers]
    · have := ih (State.call (.ParallelState b sm rp rs cs) (.WithRetriers a))
        (Or.inr (Or.inr ⟨_, _, _, _, _, rfl⟩))
      simp only [State.calls] at this
      rw [this]
      simp [State.call, State.WithRetriers, State.Retriers]

theorem foldl_WithErrors (args : List (List StateError)) (tr : TaskRetry) :
    (args.foldl TaskRetry.WithErrors tr).ErrorEquals = tr.ErrorEquals ++ args.flatten ∧
    (args.foldl TaskRetry.WithErrors tr).IntervalSeconds = tr.IntervalSeconds ∧
    (args.foldl TaskRetry.WithErrors tr).MaxAttempts = tr.MaxAttempts ∧
    (args.foldl TaskRetry.WithErrors tr).BackoffRate = tr.BackoffRate := by
  induction args generalizing tr with
  | nil => simp
  | cons a rest ih =>
    obtain ⟨h1, h2, h3, h4⟩ := ih (tr.WithErrors a)
    simp only [List.foldl_cons, List.flatten_cons]
    refine ⟨?_, ?_, ?_, ?_⟩
    · rw [h1]; simp [TaskRetry.WithErrors]
    · rw [h2]; rfl
    · rw [h3]; rfl
    · rw [h4]; rfl

/-- C34: after the calls `WithCatchers(a1...)`, ..., `WithCatchers(ak...)` on a task,
a Lambda task or a Parallel state, the stored catchers are the ones stored before
followed by `a1`, ..., `ak` in that order; the same holds for `WithRetriers` and the
stored retriers, and for `TaskRetry.WithErrors` and the stored error names, whose
calls leave the other fields of the retrier as they were. -/
theorem C34_builders_accumulate {n : Nat} :
    (∀ (t : BaseTask n) (l : String) (args : List (List (TaskCatch n))),
      ((State.BaseTask t).calls (args.map .WithCatchers)).Catchers.getD [] =
        t.Catchers.getD [] ++ args.flatten ∧
      ((State.LambdaTaskState t l).calls (args.map .WithCatchers)).Catchers.getD [] =
        t.Catchers.getD [] ++ args.flatten) ∧
    (∀ (b : baseInnerState n) (sm : StateMachine n) (rp : String) (rs : List TaskRetry)
        (cs : Option (List (TaskCatch n))) (args : List (List (TaskCatch n))),
      ((State.ParallelState b sm rp rs cs).calls (args.map .WithCatchers)).Catchers.getD [] =
        cs.getD [] ++ args.flatten) ∧
    (∀ (t : BaseTask n) (l : String) (args : List (List TaskRetry)),
      ((State.BaseTask t).calls (args.map .WithRetriers)).Retriers = t.Retriers ++ args.flatten ∧
      ((State.LambdaTaskState t l).calls (args.map .WithRetriers)).Retriers =
        t.Retriers ++ args.flatten) ∧
    (∀ (b : baseInnerState n) (sm : StateMachine n) (rp : String) (rs : List TaskRetry)
        (cs : Option (List (TaskCatch n))) (args : List (List TaskRetry)),
      ((State.ParallelState b sm rp rs cs).calls (args.map .WithRetriers)).Retriers =
        rs ++ args.flatten) ∧
    (∀ (tr : TaskRetry) (args : List (List StateError)),
      (args.foldl TaskRetry.WithErrors tr).ErrorEquals = tr.ErrorEquals ++ args.flatten ∧
      (args.foldl TaskRetry.WithErrors tr).IntervalSeconds = tr.IntervalSeconds ∧
      (args.foldl TaskRetry.WithErrors tr).MaxAttempts = tr.MaxAttempts ∧
      (args.foldl TaskRetry.WithErrors tr).BackoffRate = tr.BackoffRate) ∧
    (∀ (name : String) (id : Int) (sm : StateMachine n) (args : List (List (TaskCatch n)))
        (rargs : List (List TaskRetry)),
      ((NewLambdaTaskState name id : State n).calls (args.map .WithCatchers)).Catchers.getD [] =
        args.flatten ∧
      ((NewParallelState name id sm).calls (args.map .WithCatchers)).Catchers.getD [] =
        args.flatten ∧
      ((NewLambdaTaskState name id : State n).calls (rargs.map .WithRetriers)).Retriers =
        rargs.flatten ∧
      ((NewParallelState name id sm).calls (rargs.map .WithRetriers)).Retriers = rargs.flatten) := by
  refine ⟨fun t l args => ⟨?_, ?_⟩, fun b sm rp rs cs args => ?_, fun t l args => ⟨?_, ?_⟩,
    fun b sm rp rs cs args => ?_, fun tr args => foldl_WithErrors args tr,
    fun name id sm args rargs => ⟨?_, ?_, ?_, ?_⟩⟩
  · exact foldl_WithCatchers args _ (Or.inl ⟨_, rfl⟩)
  · exact foldl_WithCatchers args _ (Or.inr (Or.inl ⟨_, _, rfl⟩))
  · exact foldl_WithCatchers args _ (Or.inr (Or.inr ⟨_, _, _, _, _, rfl⟩))
  · exact foldl_WithRetriers args _ (Or.inl ⟨_, rfl⟩)
  · exact foldl_WithRetriers args _ (Or.inr (Or.inl ⟨_, _, rfl⟩))
  · exact foldl_WithRetriers args _ (Or.inr (Or.inr ⟨_, _, _, _, _, rfl⟩))
  · have := foldl_WithCatchers args (NewLambdaTaskState name id : State n)
      (Or.inr (Or.inl ⟨_, _, rfl⟩))
    simpa [NewLambdaTaskState, State.Catchers] using this
  · have := foldl_WithCatchers args (NewParallelState name id sm)
      (Or.inr (Or.inr ⟨_, _, _, _, _, rfl⟩))
    simpa [NewParallelState, State.Catchers] using this
  · have := foldl_WithRetriers rargs (NewLambdaTaskState name id : State n)
      (Or.inr (Or.inl ⟨_, _, rfl⟩))
    simpa [NewLambdaTaskState, State.Retriers] using this
  · have := foldl_WithRetriers rargs (NewParallelState name id sm)
      (Or.inr (Or.inr ⟨_, _, _, _, _, rfl⟩))
    simpa [NewParallelState, State.Retriers] using this

/-- C35: `Comment(c)` changes the comment of a machine and `WithRoleArn(r)` its role
reference, and nothing else: the name, the start state, the table and the stored
construction error are as before.  The serialization after `WithRoleArn` is the
same, and after `Comment` it ends the same way with the same `StartAt`, `States`
and `End`. -/
theorem C35_Comment_and_WithRoleArn_frame {n : Nat} (h : Heap n) (depth : Nat)
    (sm : StateMachine n) (c : String) (r : Option String) :
    sm.Comment c = { sm with comment := c } ∧
    ((sm.Comment c).name = sm.name ∧ (sm.Comment c).startAt = sm.startAt ∧
      (sm.Comment c).uniqueStates = sm.uniqueStates ∧
      (sm.Comment c).stateDefinitionError = sm.stateDefinitionError ∧
      (sm.Comment c).roleArn = sm.roleArn ∧ (sm.Comment c).comment = c) ∧
    ((sm.WithRoleArn r).name = sm.name ∧ (sm.WithRoleArn r).startAt = sm.startAt ∧
      (sm.WithRoleArn r).uniqueStates = sm.uniqueStates ∧
      (sm.WithRoleArn r).stateDefinitionError = sm.stateDefinitionError ∧
      (sm.WithRoleArn r).comment = sm.comment ∧ (sm.WithRoleArn r).roleArn = r) ∧
    StateMachine.MarshalJSON h depth (sm.WithRoleArn r) = StateMachine.MarshalJSON h depth sm ∧
    Except.map (fun doc => (doc.field? "StartAt", doc.field? "States", doc.field? "End"))
        (StateMachine.MarshalJSON h depth (sm.Comment c)) =
      Except.map (fun doc => (doc.field? "StartAt", doc.field? "States", doc.field? "End"))
        (StateMachine.MarshalJSON h depth sm) := by
  refine ⟨rfl, ⟨rfl, rfl, rfl, rfl, rfl, rfl⟩, ⟨rfl, rfl, rfl, rfl, rfl, rfl⟩, rfl, ?_⟩
  unfold StateMachine.MarshalJSON
  simp only [StateMachine.Comment]
  cases sm.startAt with
  | none => rfl
  | some a =>
    simp only [refName, bind, Except.bind]
    generalize mapE _ sm.uniqueStates = res
    cases res with
    | error e => rfl
    | ok states =>
      simp only [Except.map, pure, Except.pure, Except.ok.injEq, Prod.mk.injEq]
      refine ⟨?_, ?_, ?_⟩ <;>
        by_cases hc : c = "" <;> by_cases hc0 : sm.comment = "" <;>
        by_cases hn : h.Name a = "" <;> by_cases hl : sm.uniqueStates.length = 1 <;>
        cases states <;>
        simp [Json.field?, omitEmptyStr, GoMap.get?, hc, hc0, hn, hl]

theorem foldl_appendUnvisited_filterMap {n : Nat} (h : Heap n) (u : GoMap (Fin n))
    (nodes : List (Ref n)) (acc : List (Fin n)) :
    nodes.foldl (appendUnvisited h u) acc =
      (nodes.filterMap id).foldl (fun t a => appendUnvisited h u t (some a)) acc := by
  induction nodes generalizing acc with
  | nil => rfl
  | cons x rest ih =>
    cases x with
    | none => simpa [appendUnvisited] using ih acc
    | some a => simpa using ih (appendUnvisited h u acc (some a))

/-- C37: the nil interface counts as visited and is never appended to the worklist,
so an iteration of the loop appends the same states as if the absent targets were
not among the successors of the state it takes from the worklist, and
`NewStateMachine` returns on every graph.  A Choice whose branch has no target and
whose Default is unset, and a task with no `Next` whose catcher has no target, put
nothing but themselves in the table. -/
theorem C37_absent_targets_are_skipped {n : Nat} (h : Heap n) :
    (∀ (u : GoMap (Fin n)) (tl : List (Fin n)),
      nodeVisited h u none = true ∧ appendUnvisited h u tl none = tl) ∧
    (∀ (u : GoMap (Fin n)) (hd : Fin n) (tl : List (Fin n)),
      (visit h u hd tl).2 = tl ++ ((successors h hd).filterMap id).foldl
        (fun t a => appendUnvisited h (u.set (h.Name hd) hd) t (some a)) []) ∧
    (∀ (name : String) (start : Fin n), ∃ fuel sm, NewStateMachine h fuel name start = some sm) ∧
    (successors absentHeap 0 = [some 1] ∧ successors absentHeap 1 = [none, none] ∧
      successors absentHeap 2 = [none] ∧
      NewStateMachine absentHeap 2 "m" 0 = some absentMachine ∧
      absentMachine.uniqueStates = [("A", 0), ("C", 1)] ∧
      NewStateMachine absentHeap 1 "m" 2 = some absentTaskMachine ∧
      absentTaskMachine.uniqueStates = [("T", 2)]) := by
  refine ⟨fun u tl => ⟨rfl, rfl⟩, fun u hd tl => ?_, fun name start => ?_,
    rfl, rfl, rfl, rfl, rfl, rfl, rfl⟩
  · rw [visit_eq, foldl_appendUnvisited_filterMap]
  · obtain ⟨fuel, sm, hsm⟩ := NewStateMachine_terminates h name start
    exact ⟨fuel, sm, by simpa using hsm 0⟩

/-- C40: `writeNode` and `writeLink` return no error and append one element to the
elements they are given, which stay as they were in front of it; the element
`writeLink(a, b, label)` appends has `Source` equal to the `ID` of the element
`writeNode` appends for `a` and `Target` equal to the `ID` of the element
`writeNode` appends for `b`, both being `cytoscapeNodeID` of the name. -/
theorem C40_link_joins_nodes (env : Outside) (nodes1 nodes2 nodes3 : List cytoscapeNode)
    (a b label color1 image1 color2 image2 : String) (random : Nat) :
    ∃ na nb l,
      writeNode env nodes1 a color1 image1 = .ok (nodes1 ++ [na]) ∧
      writeNode env nodes2 b color2 image2 = .ok (nodes2 ++ [nb]) ∧
      writeLink env nodes3 a b label random = .ok (nodes3 ++ [l]) ∧
      l.Data.Source = na.Data.ID ∧ l.Data.Target = nb.Data.ID ∧
      cytoscapeNodeID env (some (.json (.str a))) = .ok na.Data.ID ∧
      cytoscapeNodeID env (some (.json (.str b))) = .ok nb.Data.ID ∧
      l.Data.Label = label := by
  have hid : ∀ s : String,
      cytoscapeNodeID env (some (.json (.str s))) = .ok (env.sha1Hex (.str s)) := fun _ => rfl
  have hnode : ∀ (nodes : List cytoscapeNode) (s color image : String),
      ∃ x, writeNode env nodes s color image = .ok (nodes ++ [x]) ∧
        x.Data.ID = env.sha1Hex (.str s) := by
    intro nodes s color image
    unfold writeNode
    simp only [hid]
    by_cases hi : image = ""
    · simp [hi]
    · cases hr : templateResourceForKey env image with
      | none => simp [hi, hr]
      | some item => simp [hi, hr]
  obtain ⟨na, hna, ida⟩ := hnode nodes1 a color1 image1
  obtain ⟨nb, hnb, idb⟩ := hnode nodes2 b color2 image2
  refine ⟨na, nb,
    { Data := { ID := toString random, Image := "", BackgroundColor := "",
                Source := env.sha1Hex (.str a), Target := env.sha1Hex (.str b), Label := label,
                DegreeCentrality := 0 },
      Classes := "" }, hna, hnb, ?_, ?_, ?_, ?_, ?_, ?_⟩
  · unfold writeLink
    simp only [hid]
  · exact ida.symm
  · exact idb.symm
  · rw [hid, ida]
  · rw [hid, idb]
  · rfl

theorem marshalStateJSON_type {n : Nat} (h : Heap n) (bis : baseInnerState n)
    (stateType : String) (data : Option (GoMap Json)) (out : Json)
    (hout : bis.marshalStateJSON h stateType data = .ok out) :
    out.field? "Type" = some (.str stateType) := by
  obtain ⟨d, hd, hget⟩ := marshalStateJSON_get? h bis stateType data
  rw [hout] at hd
  cases hd
  simp [Json.field?, hget]

theorem marshalWith_type {n : Nat} (h : Heap n) (ms : Fin n → Except Err Json) (s : State n)
    (out : Json) (hout : s.marshalWith h ms = .ok out) :
    out.field? "Type" = some (.str s.stateType) := by
  cases s with
  | PassState b rp r =>
    cases r with
    | none =>
      simp only [State.marshalWith, bind, Except.bind, pure, Except.pure] at hout
      exact marshalStateJSON_type _ _ _ _ _ hout
    | some v =>
      cases hv : Value.Marshal (some v) with
      | error e => simp [State.marshalWith, bind, Except.bind, hv] at hout
      | ok j =>
        simp only [State.marshalWith, bind, Except.bind, pure, Except.pure, hv] at hout
        exact marshalStateJSON_type _ _ _ _ _ hout
  | ChoiceState b cs d =>
    cases hcs : mapE (ChoiceBranch.MarshalJSON h) cs with
    | error e => simp [State.marshalWith, bind, Except.bind, hcs] at hout
    | ok js =>
      simp only [State.marshalWith, bind, Except.bind, pure, Except.pure, hcs] at hout
      exact marshalStateJSON_type _ _ _ _ _ hout
  | BaseTask t => simp [State.marshalWith] at hout
  | LambdaTaskState t l =>
    cases hp : t.additionalParams h with
    | error e => simp [State.marshalWith, bind, Except.bind, hp] at hout
    | ok p =>
      simp only [State.marshalWith, bind, Except.bind, pure, Except.pure, hp] at hout
      exact marshalStateJSON_type _ _ _ _ _ hout
  | WaitDelay b d =>
    simp only [State.marshalWith] at hout
    exact marshalStateJSON_type _ _ _ _ _ hout
  | WaitUntil b t =>
    simp only [State.marshalWith] at hout
    exact marshalStateJSON_type _ _ _ _ _ hout
  | WaitDynamicUntil b p =>
    simp only [State.marshalWith] at hout
    exact marshalStateJSON_type _ _ _ _ _ hout
  | SuccessState b =>
    simp only [State.marshalWith] at hout
    exact marshalStateJSON_type _ _ _ _ _ hout
  | FailState b e c =>
    simp only [State.marshalWith] at hout
    exact marshalStateJSON_type _ _ _ _ _ hout
  | ParallelState b sm rp rs cs =>
    cases cs with
    | none =>
      simp only [State.marshalWith, bind, Except.bind, pure, Except.pure] at hout
      exact marshalStateJSON_type _ _ _ _ _ hout
    | some l =>
      cases hl : mapE (TaskCatch.MarshalJSON ms) l with
      | error e => simp [State.marshalWith, bind, Except.bind, hl] at hout
      | ok js =>
        simp only [State.marshalWith, bind, Except.bind, pure, Except.pure, hl] at hout
        exact marshalStateJSON_type _ _ _ _ _ hout

theorem fail_calls_paths {n : Nat} (errorName : String) (cause : Option String)
    (cs : List (StateCall n)) (b : baseInnerState n) :
    ∃ b1, (State.FailState b errorName cause).calls cs = .FailState b1 errorName cause ∧
      b1.inputPath = b.inputPath ∧ b1.outputPath = b.outputPath := by
  induction cs generalizing b with
  | nil => exact ⟨b, rfl, rfl, rfl⟩
  | cons c rest ih =>
    have step : ∃ b0, (State.FailState b errorName cause).call c =
        .FailState b0 errorName cause ∧
        b0.inputPath = b.inputPath ∧ b0.outputPath = b.outputPath := by
      cases c <;> exact ⟨_, rfl, rfl, rfl⟩
    obtain ⟨b0, e0, h1, h2⟩ := step
    obtain ⟨b1, e1, g1, g2⟩ := ih b0
    refine ⟨b1, ?_, g1.trans h1, g2.trans h2⟩
    simp only [State.calls, List.foldl_cons] at e1 ⊢
    rw [e0, e1]

/-- The members `Comment`, `InputPath` and `OutputPath` that `marshalStateJSON` writes,
when the additional data holds none of them. -/
theorem marshalStateJSON_common {n : Nat} (h : Heap n) (bis : baseInnerState n)
    (stateType : String) (data : Option (GoMap Json)) (out : Json)
    (hout : bis.marshalStateJSON h stateType data = .ok out)
    (hdata : ∀ k ∈ ["Comment", "InputPath", "OutputPath"],
      GoMap.get? (data.getD []) k = none) :
    out.field? "Comment" = (if bis.comment = "" then none else some (.str bis.comment)) ∧
    out.field? "InputPath" = (if bis.inputPath = "" then none else some (.str bis.inputPath)) ∧
    out.field? "OutputPath" =
      (if bis.outputPath = "" then none else some (.str bis.outputPath)) := by
  obtain ⟨d, hd, hget⟩ := marshalStateJSON_get? h bis stateType data
  rw [hout] at hd
  cases hd
  have hC := hdata "Comment" (by simp)
  have hI := hdata "InputPath" (by simp)
  have hO := hdata "OutputPath" (by simp)
  refine ⟨?_, ?_, ?_⟩
  · simp only [Json.field?, hget, hC]
    by_cases hc : bis.comment = "" <;> simp [hc]
  · simp only [Json.field?, hget, hI]
    by_cases hc : bis.inputPath = "" <;> simp [hc]
  · simp only [Json.field?, hget, hO]
    by_cases hc : bis.outputPath = "" <;> simp [hc]

/-- The members `Comment`, `InputPath` and `OutputPath` of a serialized state. -/
theorem MarshalJSON_common {n : Nat} (h : Heap n) (depth : Nat) (s : State n)
    (out : Json) (hout : State.MarshalJSON h depth s = .ok out) :
    out.field? "Comment" = (if s.base.comment = "" then none else some (.str s.base.comment)) ∧
    out.field? "InputPath" =
      (if s.base.inputPath = "" then none else some (.str s.base.inputPath)) ∧
    out.field? "OutputPath" =
      (if s.base.outputPath = "" then none else some (.str s.base.outputPath)) := by
  obtain ⟨ty, data, hm, hdata⟩ := MarshalJSON_ok h depth s out hout
  refine marshalStateJSON_common h s.base ty data out hm ?_
  intro k hk
  refine hdata k ?_
  simp only [List.mem_cons, List.mem_singleton, List.not_mem_nil, or_false] at hk ⊢
  rcases hk with rfl | rfl | rfl <;> simp

/-- C38: the object of every state that serializes has the member `Comment`,
`InputPath` and `OutputPath`, each holding the stored string, exactly when that
string is not empty, and the member `Type` holding the type name of its kind.  A
Fail state built by `NewFailState`, whatever builders are called on it, stores no
input and no output path and serializes neither `InputPath` nor `OutputPath`. -/
theorem C38_common_members {n : Nat} (h : Heap n) (depth : Nat) (s : State n)
    (out : Json) (hout : State.MarshalJSON h depth s = .ok out) :
    out.field? "Comment" = (if s.base.comment = "" then none else some (.str s.base.comment)) ∧
    out.field? "InputPath" =
      (if s.base.inputPath = "" then none else some (.str s.base.inputPath)) ∧
    out.field? "OutputPath" =
      (if s.base.outputPath = "" then none else some (.str s.base.outputPath)) ∧
    out.field? "Type" = some (.str s.stateType) ∧
    (∀ (name : String) (id : Int) (errorName : String) (cause : Option String)
      (calls : List (StateCall n)),
      ((NewFailState name id errorName cause).calls calls).base.inputPath = "" ∧
      ((NewFailState name id errorName cause).calls calls).base.outputPath = "" ∧
      ∃ out2, State.MarshalJSON h depth ((NewFailState name id errorName cause).calls calls) =
          .ok out2 ∧
        out2.field? "Type" = some (.str "Fail") ∧
        out2.field? "InputPath" = none ∧ out2.field? "OutputPath" = none) ∧
    (∀ (bis : baseInnerState n) (stateType : String) (data : Option (GoMap Json)) (out3 : Json),
      bis.marshalStateJSON h stateType data = .ok out3 →
      out3.field? "Type" = some (.str stateType) ∧
      ((∀ k ∈ ["Comment", "InputPath", "OutputPath"], GoMap.get? (data.getD []) k = none) →
        out3.field? "Comment" =
          (if bis.comment = "" then none else some (.str bis.comment)) ∧
        out3.field? "InputPath" =
          (if bis.inputPath = "" then none else some (.str bis.inputPath)) ∧
        out3.field? "OutputPath" =
          (if bis.outputPath = "" then none else some (.str bis.outputPath)))) ∧
    ∀ (t : BaseTask n) (resourceType : String) (params : Option Value) (out4 : Json),
      t.marshalMergedParams h resourceType params = .ok out4 →
      out4.field? "Type" = some (.str "Task") ∧
      out4.field? "Comment" =
        (if t.base.comment = "" then none else some (.str t.base.comment)) ∧
      out4.field? "InputPath" =
        (if t.base.inputPath = "" then none else some (.str t.base.inputPath)) ∧
      out4.field? "OutputPath" =
        (if t.base.outputPath = "" then none else some (.str t.base.outputPath)) := by
  obtain ⟨hC, hI, hO⟩ := MarshalJSON_common h depth s out hout
  have hT : out.field? "Type" = some (.str s.stateType) := by
    cases depth with
    | zero => exact marshalWith_type h _ s out hout
    | succ d => exact marshalWith_type h _ s out hout
  refine ⟨hC, hI, hO, hT, ?_, ?_, ?_⟩
  rotate_left
  · intro bis stateType data out3 h3
    exact ⟨marshalStateJSON_type h bis stateType data out3 h3,
      fun hdata => marshalStateJSON_common h bis stateType data out3 h3 hdata⟩
  · intro t resourceType params out4 h4
    obtain ⟨p, m, hp, -, hm⟩ := merged_marshal h t resourceType params out4 h4
    refine ⟨marshalStateJSON_type _ _ _ _ _ hm, ?_⟩
    refine marshalStateJSON_common h t.base _ _ out4 hm ?_
    intro k hk
    simp only [List.mem_cons, List.mem_singleton, List.not_mem_nil, or_false] at hk
    rcases hk with rfl | rfl | rfl <;>
      simp [GoMap.get?_set, additionalParams_get? h t p hp]
  intro name id errorName cause calls
  obtain ⟨b1, e1, hi, ho⟩ := fail_calls_paths errorName cause calls
    (baseInnerState.new name id true : baseInnerState n)
  have e2 : (NewFailState name id errorName cause).calls calls = .FailState b1 errorName cause :=
    e1
  have hi2 : b1.inputPath = "" := hi
  have ho2 : b1.outputPath = "" := ho
  have hser : ∃ out2, State.MarshalJSON h depth (.FailState b1 errorName cause) = .ok out2 := by
    obtain ⟨d, hd, -⟩ := marshalStateJSON_get? h b1 "Fail"
      (some (match cause with
        | some msg => GoMap.set (GoMap.set [] "Error" (.str errorName)) "Cause" (.str msg)
        | none => GoMap.set [] "Error" (.str errorName)))
    refine ⟨.obj d, ?_⟩
    cases depth <;> cases cause <;> exact hd
  obtain ⟨out2, hout2⟩ := hser
  obtain ⟨-, hI2, hO2⟩ := MarshalJSON_common h depth _ out2 hout2
  have hT2 : out2.field? "Type" = some (.str "Fail") := by
    cases depth with
    | zero => exact marshalWith_type h _ _ out2 hout2
    | succ d => exact marshalWith_type h _ _ out2 hout2
  rw [e2]
  refine ⟨hi2, ho2, out2, hout2, hT2, ?_, ?_⟩
  · rw [hI2]; simp [State.base, hi2]
  · rw [hO2]; simp [State.base, ho2]

/-- C38 at a Pass state with a comment and an input path. -/
theorem C38_common_members_witness :
    State.MarshalJSON unnamedHeap 0 annotatedPass = .ok annotatedPassObject ∧
    (annotatedPassObject.field? "Comment" =
      (if annotatedPass.base.comment = "" then none
        else some (.str annotatedPass.base.comment)) ∧
    annotatedPassObject.field? "InputPath" =
      (if annotatedPass.base.inputPath = "" then none
        else some (.str annotatedPass.base.inputPath)) ∧
    annotatedPassObject.field? "OutputPath" =
      (if annotatedPass.base.outputPath = "" then none
        else some (.str annotatedPass.base.outputPath)) ∧
    annotatedPassObject.field? "Type" = some (.str annotatedPass.stateType) ∧
    (∀ (name : String) (id : Int) (errorName : String) (cause : Option String)
      (calls : List (StateCall 1)),
      ((NewFailState name id errorName cause).calls calls).base.inputPath = "" ∧
      ((NewFailState name id errorName cause).calls calls).base.outputPath = "" ∧
      ∃ out2, State.MarshalJSON unnamedHeap 0
          ((NewFailState name id errorName cause).calls calls) = .ok out2 ∧
        out2.field? "Type" = some (.str "Fail") ∧
        out2.field? "InputPath" = none ∧ out2.field? "OutputPath" = none) ∧
    (∀ (bis : baseInnerState 1) (stateType : String) (data : Option (GoMap Json))
        (out3 : Json),
      bis.marshalStateJSON unnamedHeap stateType data = .ok out3 →
      out3.field? "Type" = some (.str stateType) ∧
      ((∀ k ∈ ["Comment", "InputPath", "OutputPath"], GoMap.get? (data.getD []) k = none) →
        out3.field? "Comment" =
          (if bis.comment = "" then none else some (.str bis.comment)) ∧
        out3.field? "InputPath" =
          (if bis.inputPath = "" then none else some (.str bis.inputPath)) ∧
        out3.field? "OutputPath" =
          (if bis.outputPath = "" then none else some (.str bis.outputPath)))) ∧
    ∀ (t : BaseTask 1) (resourceType : String) (params : Option Value) (out4 : Json),
      t.marshalMergedParams unnamedHeap resourceType params = .ok out4 →
      out4.field? "Type" = some (.str "Task") ∧
      out4.field? "Comment" =
        (if t.base.comment = "" then none else some (.str t.base.comment)) ∧
      out4.field? "InputPath" =
        (if t.base.inputPath = "" then none else some (.str t.base.inputPath)) ∧
      out4.field? "OutputPath" =
        (if t.base.outputPath = "" then none else some (.str t.base.outputPath))) :=
  ⟨rfl, C38_common_members unnamedHeap 0 annotatedPass annotatedPassObject rfl⟩

/-- C39: `Next(s)` returns the receiver on a Pass, WaitDelay, WaitUntil,
WaitDynamicUntil, Succeed and Fail state, and the argument `s` on a task (bare or
Lambda) and on a Parallel state; after the call the successor of the receiver is
`s` on every one of these kinds except Fail, which is left as it was. -/
theorem C39_Next_return_value {n : Nat} (self : Fin n) (s : Ref n) :
    (∀ b rp r, (State.PassState b rp r).NextReturn self s = some self ∧
      ((State.PassState b rp r).Next s).base.next = s) ∧
    (∀ b d, (State.WaitDelay b d).NextReturn self s = some self ∧
      ((State.WaitDelay b d).Next s).base.next = s) ∧
    (∀ b t, (State.WaitUntil b t).NextReturn self s = some self ∧
      ((State.WaitUntil b t).Next s).base.next = s) ∧
    (∀ b p, (State.WaitDynamicUntil b p).NextReturn self s = some self ∧
      ((State.WaitDynamicUntil b p).Next s).base.next = s) ∧
    (∀ b, (State.SuccessState b).NextReturn self s = some self ∧
      ((State.SuccessState b).Next s).base.next = s) ∧
    (∀ b e c, (State.FailState b e c).NextReturn self s = some self ∧
      (State.FailState b e c).Next s = .FailState b e c) ∧
    (∀ t, (State.BaseTask t).NextReturn self s = s ∧
      ((State.BaseTask t).Next s).base.next = s) ∧
    (∀ t l, (State.LambdaTaskState t l).NextReturn self s = s ∧
      ((State.LambdaTaskState t l).Next s).base.next = s) ∧
    (∀ b sm rp rs cs, (State.ParallelState b sm rp rs cs).NextReturn self s = s ∧
      ((State.ParallelState b sm rp rs cs).Next s).base.next = s) ∧
    ∀ st : State n, (∀ b cs d, st ≠ .ChoiceState b cs d) → (∀ b e c, st ≠ .FailState b e c) →
      (st.Next s).base.next = s ∧ (st.Next s).mapBase (fun b => { b with next := st.base.next }) = st :=
  by
  refine ⟨fun _ _ _ => ⟨rfl, rfl⟩, fun _ _ => ⟨rfl, rfl⟩, fun _ _ => ⟨rfl, rfl⟩,
    fun _ _ => ⟨rfl, rfl⟩, fun _ => ⟨rfl, rfl⟩, fun _ _ _ => ⟨rfl, rfl⟩, fun _ => ⟨rfl, rfl⟩,
    fun _ _ => ⟨rfl, rfl⟩, fun _ _ _ _ _ => ⟨rfl, rfl⟩, ?_⟩
  intro st hc hf
  cases st with
  | ChoiceState b cs d => exact absurd rfl (hc b cs d)
  | FailState b e c => exact absurd rfl (hf b e c)
  | _ => exact ⟨rfl, rfl⟩

/-- C39 at a Pass state. -/
theorem C39_Next_return_value_witness :
    ((∀ b cs d, (NewPassState "A" 1 none : State 2) ≠ .ChoiceState b cs d) ∧
      (∀ b e c, (NewPassState "A" 1 none : State 2) ≠ .FailState b e c)) ∧
    (((NewPassState "A" 1 none : State 2).Next (some 1)).base.next = some 1 ∧
      ((NewPassState "A" 1 none : State 2).Next (some 1)).mapBase
        (fun b => { b with next := (NewPassState "A" 1 none : State 2).base.next }) =
        NewPassState "A" 1 none) :=
  ⟨⟨fun _ _ _ => by simp [NewPassState], fun _ _ _ => by simp [NewPassState]⟩,
    (C39_Next_return_value (0 : Fin 2) (some 1)).2.2.2.2.2.2.2.2.2 (NewPassState "A" 1 none)
      (fun _ _ _ => by simp [NewPassState]) (fun _ _ _ => by simp [NewPassState])⟩

end Step
